import Mathlib

/-!
# Mini database engine (`src/CRT.cpp`): shallow embedding and verification

A `std::string` is a list of chars, `std::vector` a list, the global
`std::unordered_map<std::string, Table> database` an association list whose
order stands for the (unspecified) iteration order of the map, a file the list
of its bytes (chars).  A handler is a
function from the database and the command line to the new database and the
message it prints.  C++ exceptions and undefined behaviour are explicit in
`Outcome`.
-/

namespace MiniDB

/-- A `std::string`: the sequence of its chars. -/
abbrev Str := List Char

/-! ## Data structures (CRT.cpp 13-31) -/

/-- `struct Column`. -/
structure Column where
  name : Str
  type : Str
  deriving DecidableEq, Repr

/-- `struct Row`. -/
structure Row where
  values : List Str
  id : Int
  deriving DecidableEq, Repr

/-- `struct Table`; `next_id` starts at 1 (default member initialiser). -/
structure Table where
  name : Str
  columns : List Column := []
  rows : List Row := []
  next_id : Int := 1
  deriving DecidableEq, Repr

/-- The global `database`: key/value pairs of the unordered map, in iteration order. -/
abbrev Database := List (Str × Table)

/-- `database.find(key)`: the table stored under `key`, if any. -/
def dbFind : Database → Str → Option Table
  | [], _ => none
  | (k, t) :: rest, key => if k = key then some t else dbFind rest key

/-- `database[key] = t`: overwrite the entry of `key`, or add one. -/
def dbSet : Database → Str → Table → Database
  | [], key, t => [(key, t)]
  | (k, t0) :: rest, key, t => if k = key then (k, t) :: rest else (k, t0) :: dbSet rest key t

/-- Result of a computation that may throw a `std::exception` (with its
`what()`) or run into undefined behaviour (out-of-bounds `operator[]`,
signed overflow). -/
inductive Outcome (α : Type) where
  | ret (a : α)
  | raise (what : Str)
  | undefined
  deriving DecidableEq, Repr

/-- `INT_MAX` for the 4-byte `int`. -/
def INT_MAX : Int := 2147483647

/-- `INT_MIN` for the 4-byte `int`. -/
def INT_MIN : Int := -2147483648

/-! ## Utility functions (CRT.cpp 34-66) -/

/-- `std::isspace` in the "C" locale: space, `\t`, `\n`, `\v`, `\f`, `\r`. -/
def isspace (c : Char) : Bool := c.toNat == 32 || (9 ≤ c.toNat && c.toNat ≤ 13)

/-- `std::isdigit`: `'0'..'9'`. -/
def isdigit (c : Char) : Bool := 48 ≤ c.toNat && c.toNat ≤ 57

/-- `std::isalnum` in the "C" locale. -/
def isalnum (c : Char) : Bool :=
  isdigit c || (65 ≤ c.toNat && c.toNat ≤ 90) || (97 ≤ c.toNat && c.toNat ≤ 122)

/-- `toUpper`: `::toupper` on every char. -/
def toUpper (s : Str) : Str := s.map Char.toUpper

/-- `trim`: `start` skips leading whitespace; `end` walks back from the last
char while it is whitespace and still after `start`; the result is
`[start, end + 1)`.  `start` rests on a non-space char, so the walk back ends
there at the latest: the result is what is left of the string after the
leading whitespace, without its trailing whitespace.  On an all-whitespace or
empty string `start` is `s.end()` and the range is empty. -/
def trim (s : Str) : Str := (s.dropWhile isspace).rdropWhile isspace

/-- `isNumber`: non-empty and no char that is not a digit. -/
def isNumber (s : Str) : Bool := !s.isEmpty && s.all isdigit

/-- `validateDataType`. -/
def validateDataType (value type : Str) : Bool :=
  if type = ['I', 'N', 'T'] then isNumber value else true

/-- `s.substr(pos, n)` for `pos ≤ s.size()`. -/
def substr (s : Str) (pos n : Nat) : Str := (s.drop pos).take n

/-- The quote stripping `value.substr(1, value.length() - 2)`.  The count is a
`size_t`: for a one-char string it wraps to `SIZE_MAX`; either way nothing is
left after position 1. -/
def stripQuotes (value : Str) : Str :=
  if value.head? = some '"' ∧ value.getLast? = some '"' then substr value 1 (value.length - 2)
  else value

/-- Value of a string of decimal digits. -/
def digitsValue (s : Str) : Nat := s.foldl (fun acc c => 10 * acc + (c.toNat - 48)) 0

/-- `std::stoi(s)` (base 10): skip whitespace, optional sign, digits;
`std::invalid_argument` without digits, `std::out_of_range` outside `int`;
`what()` is `"stoi"` for both. -/
def stoi (s : Str) : Outcome Int :=
  let s1 := s.dropWhile isspace
  let neg := s1.head? = some '-'
  let s2 := if s1.head? = some '-' ∨ s1.head? = some '+' then s1.tail else s1
  let ds := s2.takeWhile isdigit
  if ds = [] then .raise ['s', 't', 'o', 'i']
  else
    let v : Int := if neg then -(digitsValue ds : Int) else (digitsValue ds : Int)
    if INT_MIN ≤ v ∧ v ≤ INT_MAX then .ret v else .raise ['s', 't', 'o', 'i']

/-! ## The condition regex (CRT.cpp 72-75)

`(\w+)\s*([=<>!]+)\s*([^\s]+)` under `std::regex_search` (ECMAScript
grammar): the leftmost start position at which the backtracking matcher
succeeds, every quantifier greedy (longest first, giving back one char at a
time). -/

/-- `\w`: alphanumeric or underscore. -/
def isWordChar (c : Char) : Bool := isalnum c || c == '_'

/-- `[=<>!]`. -/
def isOpChar (c : Char) : Bool := c == '=' || c == '<' || c == '>' || c == '!'

/-- `[^\s]`. -/
def isNonSpace (c : Char) : Bool := !isspace c

/-- `p*` at the head of `s`: every split (matched, rest), longest match first. -/
def greedyStar (p : Char → Bool) : Str → List (Str × Str)
  | [] => [([], [])]
  | c :: cs =>
    if p c then (greedyStar p cs).map (fun tr => (c :: tr.1, tr.2)) ++ [([], c :: cs)]
    else [([], c :: cs)]

/-- `p+` at the head of `s`: every split with a non-empty match, longest first. -/
def greedyPlus (p : Char → Bool) : Str → List (Str × Str)
  | [] => []
  | c :: cs => if p c then (greedyStar p cs).map (fun tr => (c :: tr.1, tr.2)) else []

/-- All matches of the regex anchored at the head of `s`, in the order the
backtracking matcher tries them, as (group 1, group 2, group 3). -/
def matchesHere (s : Str) : List (Str × Str × Str) :=
  (greedyPlus isWordChar s).flatMap fun w =>
  (greedyStar isspace w.2).flatMap fun s1 =>
  (greedyPlus isOpChar s1.2).flatMap fun o =>
  (greedyStar isspace o.2).flatMap fun s2 =>
  (greedyPlus isNonSpace s2.2).map fun v => (w.1, o.1, v.1)

/-- `std::regex_search(condition, matches, conditionRegex)`: the first match
at the leftmost position that has one. -/
def regexSearch : Str → Option (Str × Str × Str)
  | [] => none
  | c :: cs =>
    match (matchesHere (c :: cs)).head? with
    | some m => some m
    | none => regexSearch cs

/-- The column lookup loop: index of the first column named `colName`. -/
def findColumn : List Column → Str → Option Nat
  | [], _ => none
  | c :: cs, colName => if c.name = colName then some 0 else (findColumn cs colName).map (· + 1)

/-- `isNumber(rowValue) && isNumber(value) && std::stoi(rowValue) REL std::stoi(value)`. -/
def compareInts (rel : Int → Int → Bool) (rowValue value : Str) : Outcome Bool :=
  if isNumber rowValue && isNumber value then
    match stoi rowValue, stoi value with
    | .ret x, .ret y => .ret (rel x y)
    | .raise w, _ => .raise w
    | _, .raise w => .raise w
    | _, _ => .undefined
  else .ret false

/-- `evaluateCondition` (CRT.cpp 69-114). -/
def evaluateCondition (row : Row) (columns : List Column) (condition : Str) : Outcome Bool :=
  if condition = [] then .ret true
  else
    match regexSearch condition with
    | none => .ret false
    | some (colName, op, value) =>
      let value := stripQuotes value
      match findColumn columns colName with
      | none => .ret false
      | some colIndex =>
        match row.values[colIndex]? with
        | none => .undefined
        | some rowValue =>
          if op = ['='] then .ret (rowValue == value)
          else if op = ['!', '='] then .ret (rowValue != value)
          else if op = ['>'] then compareInts (fun x y => decide (x > y)) rowValue value
          else if op = ['<'] then compareInts (fun x y => decide (x < y)) rowValue value
          else if op = ['>', '='] then compareInts (fun x y => decide (x ≥ y)) rowValue value
          else if op = ['<', '='] then compareInts (fun x y => decide (x ≤ y)) rowValue value
          else .ret false

/-! ## `std::istringstream` -/

/-- An input string stream: the unread chars and the `eofbit` / `failbit`
state flags. -/
structure IStream where
  buf : Str
  eofbit : Bool := false
  failbit : Bool := false
  deriving DecidableEq, Repr

/-- `good()`: no state flag set. -/
def IStream.good (s : IStream) : Bool := !s.eofbit && !s.failbit

/-- `operator bool`: `!fail()`. -/
def IStream.ok (s : IStream) : Bool := !s.failbit

/-- `ss >> word`.  On a stream that is not good, or that runs out while
leading whitespace is skipped, `failbit` is set and `word` keeps its old
value.  Otherwise the next whitespace-delimited token replaces it; `eofbit` is
set when the token runs to the end of the buffer. -/
def IStream.extract (s : IStream) (word : Str) : IStream × Str :=
  if !s.good then ({ s with failbit := true }, word)
  else
    let b := s.buf.dropWhile isspace
    if b = [] then ({ buf := [], eofbit := true, failbit := true }, word)
    else
      let rest := b.dropWhile isNonSpace
      ({ buf := rest, eofbit := rest.isEmpty, failbit := false }, b.takeWhile isNonSpace)

/-- `std::getline(ss, str, delim)`.  On a stream that is not good `failbit` is
set and `str` is untouched.  Otherwise `str` is erased and receives the chars
up to the delimiter (consumed, not stored) or the end of the buffer (`eofbit`);
`failbit` when nothing at all was extracted. -/
def IStream.getline (s : IStream) (str : Str) (delim : Char) : IStream × Str :=
  if !s.good then ({ s with failbit := true }, str)
  else
    let line := s.buf.takeWhile (· != delim)
    match s.buf.dropWhile (· != delim) with
    | [] => ({ buf := [], eofbit := true, failbit := line.isEmpty }, line)
    | _ :: rest => ({ buf := rest, eofbit := false, failbit := false }, line)

/-- The strings that `while (std::getline(stream, item, delim))` yields on a
fresh stream over `s`: the pieces between delimiters; nothing is yielded for
an empty remainder after the last delimiter.  `getlineLoop_eq_getlines` shows
that this is the loop over `IStream.getline`. -/
def getlines (delim : Char) : Str → List Str
  | [] => []
  | c :: cs =>
    if c = delim then [] :: getlines delim cs
    else
      match getlines delim cs with
      | [] => [[c]]
      | p :: ps => (c :: p) :: ps

/-- `s.find(pat)`: position of the first occurrence of `pat` in `s`. -/
def findSubstr (pat : Str) : Str → Option Nat
  | [] => if pat = [] then some 0 else none
  | c :: cs => if pat.isPrefixOf (c :: cs) then some 0 else (findSubstr pat cs).map (· + 1)

/-- `rest.erase(std::remove(rest.begin(), rest.end(), ch), rest.end())`. -/
def eraseChar (ch : Char) (s : Str) : Str := s.filter (· != ch)

/-! ## Messages printed by the handlers -/

/-- What a handler prints, one constructor per message of the source. -/
inductive Msg where
  | tableNameRequired
  | tableAlreadyExists (name : Str)
  | columnsNeedParentheses
  | invalidColumnDefinition (colDef : Str)
  | unsupportedDataType (colType : Str)
  | noValidColumns
  | tableCreated (name : Str)
  | tableDoesNotExist (name : Str)
  | valuesNeedParentheses
  | expectedValues (expected got : Nat)
  | valueNotValid (value colName colType : Str)
  | rowInserted (name : Str) (id : Int)
  | tableNotFound (name : Str)
  | tableIsEmpty (name : Str)
  | rowsReturned (rows : List Row) (count : Nat)
  | rowsDeleted (count : Nat) (name : Str)
  | invalidSetClause
  | columnNotFound (colName : Str)
  | noValidUpdates
  | rowsUpdated (count : Nat) (name : Str)
  | errorCreating (what : Str)
  | errorInserting (what : Str)
  | errorSelect (what : Str)
  | errorDelete (what : Str)
  | errorUpdate (what : Str)
  deriving DecidableEq, Repr

/-! ## CREATE TABLE (CRT.cpp 119-189) -/

/-- The `while (std::getline(colStream, colDef, ','))` loop over the column
definitions; `acc` is `t.columns`. -/
def parseColumns : List Str → List Column → Except Msg (List Column)
  | [], acc => .ok acc
  | colDef :: rest, acc =>
    let colDef := trim colDef
    if colDef = [] then parseColumns rest acc
    else
      let ss : IStream := { buf := colDef }
      let r1 := ss.extract []
      let r2 := r1.1.extract []
      let colName := r1.2
      let colType := r2.2
      if colName = [] ∨ colType = [] then .error (.invalidColumnDefinition colDef)
      else
        let colType := toUpper colType
        if colType ≠ ['I', 'N', 'T'] ∧ colType ≠ ['T', 'E', 'X', 'T'] then
          .error (.unsupportedDataType colType)
        else parseColumns rest (acc ++ [{ name := colName, type := colType }])

/-- `handleCreate`. -/
def handleCreate (db : Database) (command : Str) : Database × Msg :=
  let ss : IStream := { buf := command }
  let r1 := ss.extract []
  let r2 := r1.1.extract r1.2
  let r3 := r2.1.extract []
  let tableName := r3.2
  if tableName = [] then (db, .tableNameRequired)
  else if (dbFind db tableName).isSome then (db, .tableAlreadyExists tableName)
  else
    let rest := (r3.1.getline [] '\n').2
    if '(' ∉ rest ∨ ')' ∉ rest then (db, .columnsNeedParentheses)
    else
      let rest := eraseChar ')' (eraseChar '(' rest)
      match parseColumns (getlines ',' rest) [] with
      | .error msg => (db, msg)
      | .ok columns =>
        if columns = [] then (db, .noValidColumns)
        else (dbSet db tableName { name := tableName, columns := columns }, .tableCreated tableName)

/-! ## INSERT INTO (CRT.cpp 192-259) -/

/-- One value of the VALUES list: trimmed, enclosing quotes removed. -/
def insertValue (value : Str) : Str := stripQuotes (trim value)

/-- The type validation loop: the first value that fails `validateDataType`
for the column at its position, with that column. -/
def firstInvalid : List Str → List Column → Option (Str × Column)
  | v :: vs, c :: cs => if validateDataType v c.type then firstInvalid vs cs else some (v, c)
  | _, _ => none

/-- `handleInsert`.  `r.id = table.next_id++` runs before the value count and
the types are checked.  Incrementing `INT_MAX` overflows `int`: `undefined`
(a build that wraps around goes on with `next_id` at `INT_MIN`). -/
def handleInsert (db : Database) (command : Str) : Outcome (Database × Msg) :=
  let ss : IStream := { buf := command }
  let r1 := ss.extract []
  let r2 := r1.1.extract r1.2
  let r3 := r2.1.extract []
  let r4 := r3.1.extract r2.2
  let tableName := r3.2
  match dbFind db tableName with
  | none => .ret (db, .tableDoesNotExist tableName)
  | some table =>
    let rest := (r4.1.getline [] '\n').2
    if '(' ∉ rest ∨ ')' ∉ rest then .ret (db, .valuesNeedParentheses)
    else
      let rest := eraseChar ')' (eraseChar '(' rest)
      if table.next_id = INT_MAX then .undefined
      else
        let id := table.next_id
        let table := { table with next_id := table.next_id + 1 }
        let values := (getlines ',' rest).map insertValue
        if values.length ≠ table.columns.length then
          .ret (dbSet db tableName table, .expectedValues table.columns.length values.length)
        else
          match firstInvalid values table.columns with
          | some (v, c) => .ret (dbSet db tableName table, .valueNotValid v c.name c.type)
          | none =>
            .ret (dbSet db tableName { table with rows := table.rows ++ [{ values := values, id := id }] },
              .rowInserted tableName id)

/-! ## The optional WHERE clause of SELECT and DELETE (CRT.cpp 271-276, 329-334) -/

/-- `if (ss >> word && toUpper(word) == "WHERE") { getline(ss, condition); condition = trim(condition); }` -/
def whereClause (ss : IStream) (word : Str) : Str :=
  let r := ss.extract word
  if r.1.ok ∧ toUpper r.2 = ['W', 'H', 'E', 'R', 'E'] then trim (r.1.getline [] '\n').2 else []

/-! ## DELETE FROM (CRT.cpp 321-361) -/

/-- A row after `*result = std::move(row)`: the `values` vector was moved
out and is left empty, the `int id` stays. -/
def movedFrom (r : Row) : Row := { values := [], id := r.id }

/-- Second phase of `std::remove_if`: `kept` are the slots before `result`,
`gap` the slots from `result` up to the scan position.  A row that stays is
move-assigned into the first slot of the gap.  Result: the contents of the
vector when the call ends, and the number of slots after the new end, or the
exception of the predicate. -/
def removeShift (pred : Row → Outcome Bool) (kept gap : List Row) : List Row → List Row × Outcome Nat
  | [] => (kept ++ gap, .ret gap.length)
  | x :: rest =>
    match pred x with
    | .ret true => removeShift pred kept (gap ++ [x]) rest
    | .ret false => removeShift pred (kept ++ [x]) (gap.tail ++ [movedFrom x]) rest
    | .raise w => (kept ++ gap ++ x :: rest, .raise w)
    | .undefined => (kept ++ gap ++ x :: rest, .undefined)

/-- `std::remove_if(rows.begin(), rows.end(), pred)`: `std::find_if` for the
first row to remove, then `removeShift`. -/
def removeIf (pred : Row → Outcome Bool) (kept : List Row) : List Row → List Row × Outcome Nat
  | [] => (kept, .ret 0)
  | x :: rest =>
    match pred x with
    | .ret true => removeShift pred kept [x] rest
    | .ret false => removeIf pred (kept ++ [x]) rest
    | .raise w => (kept ++ x :: rest, .raise w)
    | .undefined => (kept ++ x :: rest, .undefined)

/-- `handleDelete`.  An exception of the predicate leaves `std::remove_if`
half-way and is caught by the handler. -/
def handleDelete (db : Database) (command : Str) : Outcome (Database × Msg) :=
  let ss : IStream := { buf := command }
  let r1 := ss.extract []
  let r2 := r1.1.extract r1.2
  let r3 := r2.1.extract []
  let tableName := r3.2
  let condition := whereClause r3.1 r2.2
  match dbFind db tableName with
  | none => .ret (db, .tableNotFound tableName)
  | some table =>
    if condition = [] then
      .ret (dbSet db tableName { table with rows := [] }, .rowsDeleted table.rows.length tableName)
    else
      match removeIf (fun row => evaluateCondition row table.columns condition) [] table.rows with
      | (rows, .ret deletedCount) =>
        .ret (dbSet db tableName { table with rows := rows.take (rows.length - deletedCount) },
          .rowsDeleted deletedCount tableName)
      | (rows, .raise w) => .ret (dbSet db tableName { table with rows := rows }, .errorDelete w)
      | (_, .undefined) => .undefined

/-! ## UPDATE (CRT.cpp 364-461) -/

/-- The `while (std::getline(setStream, assignment, ','))` loop: each
assignment is split at its first `=`, the column looked up and the value
validated; `acc` is `updates`. -/
def parseAssignments (columns : List Column) : List Str → List (Nat × Str) → Except Msg (List (Nat × Str))
  | [], acc => .ok acc
  | assignment :: rest, acc =>
    let assignment := trim assignment
    if '=' ∉ assignment then .error .invalidSetClause
    else
      let colName := trim (assignment.takeWhile (· != '='))
      let newValue := stripQuotes (trim (assignment.dropWhile (· != '=')).tail)
      match findColumn columns colName with
      | none => .error (.columnNotFound colName)
      | some colIndex =>
        match columns[colIndex]? with
        | none => .error (.columnNotFound colName)
        | some col =>
          if !validateDataType newValue col.type then .error (.valueNotValid newValue colName col.type)
          else parseAssignments columns rest (acc ++ [(colIndex, newValue)])

/-- `for (const auto& update : updates) row.values[update.first] = update.second;`
with `none` for a write outside the vector. -/
def applyUpdates : List (Nat × Str) → List Str → Option (List Str)
  | [], values => some values
  | (i, v) :: us, values => if i < values.length then applyUpdates us (values.set i v) else none

/-- The row loop of `handleUpdate`; `done` are the rows already visited and
`count` is `updatedCount`.  Result: the rows when the loop ends and the count,
or the exception that ended it. -/
def updateRows (columns : List Column) (condition : Str) (updates : List (Nat × Str))
    (done : List Row) (count : Nat) : List Row → List Row × Outcome Nat
  | [] => (done, .ret count)
  | row :: rest =>
    match evaluateCondition row columns condition with
    | .ret true =>
      match applyUpdates updates row.values with
      | some values => updateRows columns condition updates (done ++ [{ row with values := values }]) (count + 1) rest
      | none => (done ++ row :: rest, .undefined)
    | .ret false => updateRows columns condition updates (done ++ [row]) count rest
    | .raise w => (done ++ row :: rest, .raise w)
    | .undefined => (done ++ row :: rest, .undefined)

/-- `handleUpdate`. -/
def handleUpdate (db : Database) (command : Str) : Outcome (Database × Msg) :=
  let ss : IStream := { buf := command }
  let r1 := ss.extract []
  let r2 := r1.1.extract []
  let r3 := r2.1.extract r1.2
  let tableName := r2.2
  let remaining := (r3.1.getline [] '\n').2
  let wherePos := findSubstr [' ', 'W', 'H', 'E', 'R', 'E', ' '] remaining
  let setClause := trim (match wherePos with
    | some pos => remaining.take pos
    | none => remaining)
  let condition := match wherePos with
    | some pos => trim (remaining.drop (pos + 7))
    | none => []
  match dbFind db tableName with
  | none => .ret (db, .tableNotFound tableName)
  | some table =>
    match parseAssignments table.columns (getlines ',' setClause) [] with
    | .error msg => .ret (db, msg)
    | .ok updates =>
      if updates = [] then .ret (db, .noValidUpdates)
      else
        match updateRows table.columns condition updates [] 0 table.rows with
        | (rows, .ret updatedCount) =>
          .ret (dbSet db tableName { table with rows := rows }, .rowsUpdated updatedCount tableName)
        | (rows, .raise w) => .ret (dbSet db tableName { table with rows := rows }, .errorUpdate w)
        | (_, .undefined) => .undefined

/-! ## SELECT (CRT.cpp 262-318) -/

/-- The row loop of `handleSelect`: the rows printed so far, or the exception
that ended the loop. -/
def selectRows (columns : List Column) (condition : Str) (printed : List Row) : List Row → Outcome (List Row)
  | [] => .ret printed
  | row :: rest =>
    match evaluateCondition row columns condition with
    | .ret true => selectRows columns condition (printed ++ [row]) rest
    | .ret false => selectRows columns condition printed rest
    | .raise w => .raise w
    | .undefined => .undefined

/-- `handleSelect`; the database is only read. -/
def handleSelect (db : Database) (command : Str) : Outcome (Database × Msg) :=
  let ss : IStream := { buf := command }
  let r1 := ss.extract []
  let r2 := r1.1.extract r1.2
  let r3 := r2.1.extract r2.2
  let r4 := r3.1.extract []
  let tableName := r4.2
  let condition := whereClause r4.1 r3.2
  match dbFind db tableName with
  | none => .ret (db, .tableNotFound tableName)
  | some table =>
    if table.rows = [] then .ret (db, .tableIsEmpty tableName)
    else
      match selectRows table.columns condition [] table.rows with
      | .ret printed => .ret (db, .rowsReturned printed printed.length)
      | .raise w => .ret (db, .errorSelect w)
      | .undefined => .undefined

/-! ## Snapshot file (CRT.cpp 487-537, 570-641)

`sizeof(size_t)` is 8 and `sizeof(int)` is 4; integers are stored
little-endian, `int` in two's complement. -/

/-- The `width` low bytes of `n`, least significant first. -/
def encodeLE : Nat → Nat → List Char
  | 0, _ => []
  | width + 1, n => Char.ofNat (n % 256) :: encodeLE width (n / 256)

/-- The number held by little-endian bytes. -/
def decodeLE : List Char → Nat
  | [] => 0
  | c :: cs => c.toNat + 256 * decodeLE cs

/-- `file.write(reinterpret_cast<const char*>(&n), sizeof(size_t))`. -/
def writeSize (n : Nat) : List Char := encodeLE 8 (n % 2 ^ 64)

/-- `file.write(reinterpret_cast<const char*>(&i), sizeof(int))`. -/
def writeInt (i : Int) : List Char := encodeLE 4 (i % 2 ^ 32).toNat

/-- A length-prefixed string. -/
def writeString (s : Str) : List Char := writeSize s.length ++ s

/-- One column: name and type. -/
def writeColumn (c : Column) : List Char := writeString c.name ++ writeString c.type

/-- One row: id, value count, values. -/
def writeRow (r : Row) : List Char :=
  writeInt r.id ++ writeSize r.values.length ++ r.values.flatMap writeString

/-- One table: name, `next_id`, columns, rows. -/
def writeTable (t : Table) : List Char :=
  writeString t.name ++ writeInt t.next_id
    ++ writeSize t.columns.length ++ t.columns.flatMap writeColumn
    ++ writeSize t.rows.length ++ t.rows.flatMap writeRow

/-- The bytes `handleSave` writes: the table count, then every table of the
map in iteration order. -/
def saveBytes (db : Database) : List Char :=
  writeSize db.length ++ db.flatMap (fun kv => writeTable kv.2)

/-- `file.read(buffer, n)`: the next `n` bytes and the rest of the file; `none`
when the file is too short (the destination is then left indeterminate). -/
def readBytes (n : Nat) (input : List Char) : Option (List Char × List Char) :=
  if n ≤ input.length then some (input.take n, input.drop n) else none

/-- Read a `size_t`. -/
def readSize (input : List Char) : Option (Nat × List Char) :=
  (readBytes 8 input).map fun br => (decodeLE br.1, br.2)

/-- Read an `int`. -/
def readInt (input : List Char) : Option (Int × List Char) :=
  (readBytes 4 input).map fun br =>
    let u := decodeLE br.1
    ((if u < 2 ^ 31 then (u : Int) else (u : Int) - 2 ^ 32), br.2)

/-- Read a length-prefixed string. -/
def readString (input : List Char) : Option (Str × List Char) :=
  (readSize input).bind fun nr => readBytes nr.1 nr.2

/-- A counted loop `for (size_t j = 0; j < n; j++)` reading one item per round. -/
def readMany {α : Type} (item : List Char → Option (α × List Char)) : Nat → List Char → Option (List α × List Char)
  | 0, input => some ([], input)
  | n + 1, input =>
    (item input).bind fun xr =>
      (readMany item n xr.2).map fun xsr => (xr.1 :: xsr.1, xsr.2)

/-- Read one column. -/
def readColumn (input : List Char) : Option (Column × List Char) :=
  (readString input).bind fun nr =>
    (readString nr.2).map fun tr => ({ name := nr.1, type := tr.1 }, tr.2)

/-- Read one row. -/
def readRow (input : List Char) : Option (Row × List Char) :=
  (readInt input).bind fun ir =>
    (readSize ir.2).bind fun nr =>
      (readMany readString nr.1 nr.2).map fun vr => ({ values := vr.1, id := ir.1 }, vr.2)

/-- Read one table. -/
def readTable (input : List Char) : Option (Table × List Char) :=
  (readString input).bind fun name =>
    (readInt name.2).bind fun nextId =>
      (readSize nextId.2).bind fun nc =>
        (readMany readColumn nc.1 nc.2).bind fun cols =>
          (readSize cols.2).bind fun nr =>
            (readMany readRow nr.1 nr.2).map fun rows =>
              ({ name := name.1, columns := cols.1, rows := rows.1, next_id := nextId.1 }, rows.2)

/-- The table loop of `handleLoad`: read a table, `database[table.name] = table`. -/
def loadTables : Nat → List Char → Database → Option Database
  | 0, _, db => some db
  | n + 1, input, db =>
    (readTable input).bind fun tr => loadTables n tr.2 (dbSet db tr.1.name tr.1)

/-- What `handleLoad` does with the bytes of an opened file: `database.clear()`,
read the table count, run the table loop.  `none` when the file ends early. -/
def loadBytes (_db : Database) (bytes : List Char) : Option Database :=
  (readSize bytes).bind fun nr => loadTables nr.1 nr.2 []

/-! ## Reachable databases -/

/-- The databases the program can reach from the empty one with CREATE TABLE,
INSERT INTO, UPDATE and DELETE FROM command lines, whatever each one prints. -/
inductive Reachable : Database → Prop where
  | empty : Reachable []
  | create (db : Database) (command : Str) : Reachable db → Reachable (handleCreate db command).1
  | insert (db db2 : Database) (command : Str) (msg : Msg) :
      Reachable db → handleInsert db command = .ret (db2, msg) → Reachable db2
  | update (db db2 : Database) (command : Str) (msg : Msg) :
      Reachable db → handleUpdate db command = .ret (db2, msg) → Reachable db2
  | delete (db db2 : Database) (command : Str) (msg : Msg) :
      Reachable db → handleDelete db command = .ret (db2, msg) → Reachable db2

/-- Run a list of command lines through `step`, stopping at undefined behaviour. -/
def runAll (step : Database → Str → Outcome (Database × Msg)) : Database → List Str → Outcome Database
  | db, [] => .ret db
  | db, c :: cs =>
    match step db c with
    | .ret (db2, _) => runAll step db2 cs
    | .raise w => .raise w
    | .undefined => .undefined

/-! ## Size and range conditions that the C++ types guarantee -/

/-- A length or count that fits `size_t`. -/
def fitsSize (n : Nat) : Prop := n < 2 ^ 64

/-- A value of type `int`. -/
def fitsInt (i : Int) : Prop := INT_MIN ≤ i ∧ i ≤ INT_MAX

/-- A row whose id is an `int` and whose sizes fit `size_t`. -/
def Row.Representable (r : Row) : Prop :=
  fitsInt r.id ∧ fitsSize r.values.length ∧ ∀ v ∈ r.values, fitsSize v.length

/-- A column whose string sizes fit `size_t`. -/
def Column.Representable (c : Column) : Prop := fitsSize c.name.length ∧ fitsSize c.type.length

/-- A table whose `next_id` and row ids are `int`s and whose sizes fit `size_t`. -/
def Table.Representable (t : Table) : Prop :=
  fitsSize t.name.length ∧ fitsInt t.next_id
    ∧ fitsSize t.columns.length ∧ (∀ c ∈ t.columns, c.Representable)
    ∧ fitsSize t.rows.length ∧ (∀ r ∈ t.rows, r.Representable)

/-- A store as the program holds it: the keys of the map are pairwise
distinct, every table is stored under its own name, and all numbers are
within their C++ types. -/
def StoreOk (db : Database) : Prop :=
  (db.map Prod.fst).Nodup ∧ fitsSize db.length
    ∧ ∀ kv ∈ db, kv.1 = kv.2.name ∧ kv.2.Representable

/-- The loop `while (std::getline(stream, item, delim))` run on the stream
itself, with a bound on the number of rounds: the items it yields. -/
def getlineLoop (delim : Char) : Nat → IStream → Str → List Str
  | 0, _, _ => []
  | fuel + 1, s, item =>
    let r := s.getline item delim
    if r.1.ok then r.2 :: getlineLoop delim fuel r.1 r.2 else []

/-! ## The regex as a single scan -/

/-- The first match of the regex anchored at the head of `s`, written as one
left-to-right scan: the word run, whitespace, the run of operator chars,
whitespace, the run of non-space chars.  When nothing follows the operator
run, the matcher gives back its last char, which becomes the literal. -/
def scanHere (s : Str) : Option (Str × Str × Str) :=
  let w := s.takeWhile isWordChar
  let r2 := (s.dropWhile isWordChar).dropWhile isspace
  let o := r2.takeWhile isOpChar
  let r3 := r2.dropWhile isOpChar
  let v := (r3.dropWhile isspace).takeWhile isNonSpace
  if w = [] ∨ o = [] then none
  else if v ≠ [] then some (w, o, v)
  else if 2 ≤ o.length then some (w, o.dropLast, o.drop (o.length - 1))
  else none

/-- The literal stage applied to one candidate of the operator run. -/
def literalOf (w : Str) (o : Str × Str) : Option (Str × Str × Str) :=
  if (o.2.dropWhile isspace).takeWhile isNonSpace = [] then none
  else some (w, o.1, (o.2.dropWhile isspace).takeWhile isNonSpace)

/-- The claim's words "contains an occurrence of the form
`<identifier> <op> <token>`": somewhere in `s` a non-empty run of word chars,
optional whitespace, a non-empty run of the chars `= < > !`, optional
whitespace, and a non-empty run of non-whitespace chars. -/
def HasComparison (s : Str) : Prop :=
  ∃ pre w s1 o s2 v post, s = pre ++ (w ++ (s1 ++ (o ++ (s2 ++ (v ++ post)))))
    ∧ w ≠ [] ∧ (∀ c ∈ w, isWordChar c = true) ∧ (∀ c ∈ s1, isspace c = true)
    ∧ o ≠ [] ∧ (∀ c ∈ o, isOpChar c = true) ∧ (∀ c ∈ s2, isspace c = true)
    ∧ v ≠ [] ∧ (∀ c ∈ v, isspace c = false)

/-- The pieces a predicate `c op b` is made of: a column name of word chars,
whitespace, a run of operator chars, whitespace, a literal without whitespace
that is separated from the operator (by whitespace or by its first char). -/
structure PredicateForm (c ws1 o ws2 b : Str) : Prop where
  name_ne : c ≠ []
  name_word : ∀ ch ∈ c, isWordChar ch = true
  ws1_space : ∀ ch ∈ ws1, isspace ch = true
  op_ne : o ≠ []
  op_chars : ∀ ch ∈ o, isOpChar ch = true
  ws2_space : ∀ ch ∈ ws2, isspace ch = true
  lit_nonspace : ∀ ch ∈ b, isspace ch = false
  separated : ws2 ≠ [] ∨ ∀ ch, b.head? = some ch → isOpChar ch = false

/-- The column names a CREATE TABLE command line writes: the text after the
table name with the parentheses taken out is cut at the commas, and each
piece that is not blank contributes its first word. -/
def writtenColumnNames (command : Str) : List Str :=
  let ss : IStream := { buf := command }
  let r1 := ss.extract []
  let r3 := (r1.1.extract r1.2).1.extract []
  let body := eraseChar ')' (eraseChar '(' (r3.1.getline [] '\n').2)
  (getlines ',' body).filterMap fun piece =>
    if trim piece = [] then none else some (IStream.extract { buf := trim piece } []).2

/-- A table `t (a INT)` as CREATE TABLE leaves it. -/
def tableA : Table := { name := "t".toList, columns := [{ name := "a".toList, type := "INT".toList }] }

/-- The store after `CREATE TABLE t (a INT)` and the inserts of 5, 1 and
99999999999. -/
def threeRows : Database :=
  [("t".toList, { tableA with
      rows := [{ values := ["5".toList], id := 1 }, { values := ["1".toList], id := 2 },
        { values := ["99999999999".toList], id := 3 }],
      next_id := 4 })]

/-- The store `DELETE FROM t WHERE a > 3` leaves behind on `threeRows`: the
predicate raises on the third row after the second was moved into the first
slot. -/
def afterFailedDelete : Database :=
  [("t".toList, { tableA with
      rows := [{ values := ["1".toList], id := 2 }, { values := [], id := 2 },
        { values := ["99999999999".toList], id := 3 }],
      next_id := 4 })]

/-- Every value the row stores at a column position passes
`validateDataType` for the type of that column. -/
def RowValid (columns : List Column) (row : Row) : Prop :=
  ∀ (i : Nat) (v : Str) (col : Column),
    row.values[i]? = some v → columns[i]? = some col → validateDataType v col.type = true

/-- `RowValid` for every row of every table. -/
def ValuesValid (db : Database) : Prop :=
  ∀ kv ∈ db, ∀ row ∈ kv.2.rows, RowValid kv.2.columns row

/-- Every pair of `updates` holds the index of a column and a value that
passes `validateDataType` for it. -/
def UpdatesValid (columns : List Column) (updates : List (Nat × Str)) : Prop :=
  ∀ u ∈ updates, ∃ col, columns[u.1]? = some col ∧ validateDataType u.2 col.type = true

/-- The store of the spec's example: `users (id INT, name TEXT)` with the row
`(1, "Alice")`. -/
def usersStore : Database :=
  [("users".toList, { name := "users".toList, columns := [{ name := "id".toList, type := "INT".toList }, { name := "name".toList, type := "TEXT".toList }], rows := [{ values := ["1".toList, "Alice".toList], id := 1 }], next_id := 2 })]

/-- The keys of the map are pairwise distinct and every table is stored
under its own name. -/
def Keyed (db : Database) : Prop :=
  (db.map Prod.fst).Nodup ∧ ∀ kv ∈ db, kv.1 = kv.2.name

/-- The columns `a INT, b INT`. -/
def columnsAB : List Column :=
  [{ name := "a".toList, type := "INT".toList }, { name := "b".toList, type := "INT".toList }]

/-! ## The parts of an UPDATE command line -/

/-- The table name of an UPDATE command line: its second word. -/
def updateTableName (command : Str) : Str :=
  let ss : IStream := { buf := command }
  let r1 := ss.extract []
  (r1.1.extract []).2

/-- What follows the third word of an UPDATE command line (`remaining`). -/
def updateRemaining (command : Str) : Str :=
  let ss : IStream := { buf := command }
  let r1 := ss.extract []
  let r2 := r1.1.extract []
  let r3 := r2.1.extract r1.2
  (r3.1.getline [] '\n').2

/-- The SET clause: `remaining` up to the first `" WHERE "`, trimmed. -/
def updateSetClause (command : Str) : Str :=
  trim (match findSubstr [' ', 'W', 'H', 'E', 'R', 'E', ' '] (updateRemaining command) with
    | some pos => (updateRemaining command).take pos
    | none => updateRemaining command)

/-- The predicate: what follows the first `" WHERE "` of `remaining`, trimmed;
empty when there is none. -/
def updateCondition (command : Str) : Str :=
  match findSubstr [' ', 'W', 'H', 'E', 'R', 'E', ' '] (updateRemaining command) with
  | some pos => trim ((updateRemaining command).drop (pos + 7))
  | none => []

/-- The SET assignments as written: the SET clause cut at the commas. -/
def updateAssignments (command : Str) : List Str := getlines ',' (updateSetClause command)

/-- The column an assignment names: the text before its first `=`, trimmed. -/
def assignmentColumn (assignment : Str) : Str :=
  trim ((trim assignment).takeWhile (· != '='))

/-- The value an assignment gives: the text after its first `=`, trimmed and
without enclosing double quotes. -/
def assignmentValue (assignment : Str) : Str :=
  stripQuotes (trim ((trim assignment).dropWhile (· != '=')).tail)

/-- The claim's words: the assignment lacks `=`, names a column that does not
exist in the table, or gives a value that fails type validation for its
column (the first column of that name). -/
def AssignmentRejected (columns : List Column) (assignment : Str) : Prop :=
  '=' ∉ trim assignment
  ∨ (∀ col ∈ columns, col.name ≠ assignmentColumn assignment)
  ∨ ∃ (i : Nat) (col : Column), columns[i]? = some col ∧ col.name = assignmentColumn assignment
      ∧ (∀ (j : Nat) (cj : Column), j < i → columns[j]? = some cj →
          cj.name ≠ assignmentColumn assignment)
      ∧ validateDataType (assignmentValue assignment) col.type = false

/-- The columns `id INT, name TEXT` of the spec's example. -/
def usersColumns : List Column :=
  [{ name := "id".toList, type := "INT".toList }, { name := "name".toList, type := "TEXT".toList }]

/-- The store `UPDATE t SET a=0 WHERE a > 3` leaves behind on `threeRows`: the
first row is updated, then the predicate raises on the third row. -/
def afterFailedUpdate : Database :=
  [("t".toList, { name := "t".toList, columns := [{ name := "a".toList, type := "INT".toList }], rows := [{ values := ["0".toList], id := 1 }, { values := ["1".toList], id := 2 }, { values := ["99999999999".toList], id := 3 }], next_id := 4 })]

/-- The store `users (id INT, name TEXT)` with the rows `(1, Alice)` and
`(2, Carol)`. -/
def twoUsers : Database :=
  [("users".toList, { name := "users".toList, columns := usersColumns, rows := [{ values := ["1".toList, "Alice".toList], id := 1 }, { values := ["2".toList, "Carol".toList], id := 2 }], next_id := 3 })]

/-- The rows of `twoUsers` with the name of row 1 set to `Bob`. -/
def twoUsersBob : List Row :=
  [{ values := ["1".toList, "Bob".toList], id := 1 }, { values := ["2".toList, "Carol".toList], id := 2 }]

/-- The rows of `twoUsers` with both names set to the text `"Bob" where id=1`. -/
def twoUsersOverwritten : List Row :=
  [{ values := ["1".toList, "\"Bob\" where id=1".toList], id := 1 }, { values := ["2".toList, "\"Bob\" where id=1".toList], id := 2 }]

/-- The row loop of `handleSelect` with what it has printed when it ends:
the rows printed and their count, or the exception that ended the loop. -/
def selectScan (columns : List Column) (condition : Str) (printed : List Row) :
    List Row → List Row × Outcome Nat
  | [] => (printed, .ret printed.length)
  | row :: rest =>
    match evaluateCondition row columns condition with
    | .ret true => selectScan columns condition (printed ++ [row]) rest
    | .ret false => selectScan columns condition printed rest
    | .raise w => (printed, .raise w)
    | .undefined => (printed, .undefined)

/-- The message is one of the failure reports of CREATE TABLE: table name
missing, table already there, no parentheses, a column definition without
name or type, a type other than INT and TEXT, no column at all. -/
def CreateFailure (msg : Msg) : Prop :=
  msg = .tableNameRequired ∨ (∃ name, msg = .tableAlreadyExists name)
    ∨ msg = .columnsNeedParentheses ∨ (∃ d, msg = .invalidColumnDefinition d)
    ∨ (∃ t, msg = .unsupportedDataType t) ∨ msg = .noValidColumns

/-! ## The parts of an INSERT command line -/

/-- The table name of an INSERT command line: its third word. -/
def insertTableName (command : Str) : Str :=
  let ss : IStream := { buf := command }
  let r1 := ss.extract []
  let r2 := r1.1.extract r1.2
  (r2.1.extract []).2

/-- What follows the fourth word of an INSERT command line (`rest`). -/
def insertRest (command : Str) : Str :=
  let ss : IStream := { buf := command }
  let r1 := ss.extract []
  let r2 := r1.1.extract r1.2
  let r3 := r2.1.extract []
  let r4 := r3.1.extract r2.2
  (r4.1.getline [] '\n').2

/-- The values of an INSERT command line: `rest` without parentheses, cut at
the commas, each piece trimmed and stripped of enclosing quotes. -/
def insertValues (command : Str) : List Str :=
  (getlines ',' (eraseChar ')' (eraseChar '(' (insertRest command)))).map insertValue

/-- The table name of a DELETE command line: its third word. -/
def deleteTableName (command : Str) : Str :=
  let ss : IStream := { buf := command }
  let r1 := ss.extract []
  let r2 := r1.1.extract r1.2
  (r2.1.extract []).2

/-- The predicate of a DELETE command line: what follows the word WHERE (in
any letter case) after the table name, trimmed; empty when there is none. -/
def deleteCondition (command : Str) : Str :=
  let ss : IStream := { buf := command }
  let r1 := ss.extract []
  let r2 := r1.1.extract r1.2
  let r3 := r2.1.extract []
  whereClause r3.1 r2.2

/-- The table name of a SELECT command line: its fourth word. -/
def selectTableName (command : Str) : Str :=
  let ss : IStream := { buf := command }
  let r1 := ss.extract []
  let r2 := r1.1.extract r1.2
  let r3 := r2.1.extract r2.2
  (r3.1.extract []).2

/-- The predicate of a SELECT command line. -/
def selectCondition (command : Str) : Str :=
  let ss : IStream := { buf := command }
  let r1 := ss.extract []
  let r2 := r1.1.extract r1.2
  let r3 := r2.1.extract r2.2
  let r4 := r3.1.extract []
  whereClause r4.1 r3.2

/-- The store after `CREATE TABLE t (a INT)` and the inserts of 99999999999
and 5. -/
def bigFirst : Database :=
  [("t".toList, { tableA with rows := [{ values := ["99999999999".toList], id := 1 }, { values := ["5".toList], id := 2 }], next_id := 3 })]

/-! ## SAVE and LOAD (CRT.cpp 464-649) -/

/-- The files the program sees.  `contents name` is what
`std::ifstream file(name, std::ios::binary)` reads (`none`: the stream does
not open); `writable name` says whether
`std::ofstream file(name, std::ios::binary)` opens. -/
structure FileSystem where
  contents : Str → Option (List Char)
  writable : Str → Bool

/-- An `std::ofstream` opened on `name` (which truncates the file), written
with `bytes` and closed: the file `name` holds `bytes`, every other file is
as before. -/
def FileSystem.write (fs : FileSystem) (name : Str) (bytes : List Char) : FileSystem :=
  { fs with contents := fun n => if n = name then some bytes else fs.contents n }

/-- What `handleSave` and `handleLoad` print, one constructor per message of
the source; `databaseLoaded` carries the table count of its second line. -/
inductive FileMsg where
  | filenameRequired
  | couldNotOpenForWriting (filename : Str)
  | databaseSaved (filename : Str)
  | couldNotOpenForReading (filename : Str)
  | databaseLoaded (filename : Str) (numTables : Nat)
  | errorSaving (what : Str)
  | errorLoading (what : Str)
  deriving DecidableEq, Repr

/-- `handleSave`: the file name is the second word of the command line;
`filename.find('.') == npos` appends `.db`; the file is opened for writing
and receives the snapshot of the whole database. -/
def handleSave (db : Database) (fs : FileSystem) (command : Str) : FileSystem × FileMsg :=
  let ss : IStream := { buf := command }
  let r1 := ss.extract []
  let r2 := r1.1.extract []
  let filename := r2.2
  if filename = [] then (fs, .filenameRequired)
  else
    let filename := if '.' ∉ filename then filename ++ ".db".toList else filename
    if !fs.writable filename then (fs, .couldNotOpenForWriting filename)
    else (fs.write filename (saveBytes db), .databaseSaved filename)

/-- `handleLoad`: the file name is the second word of the command line;
`filename.find('.') == npos` appends `.db`; once the file is open the
database is cleared, the table count read and the table loop run.  A file
that ends early leaves the variables read from it indeterminate: `undefined`.
A length field that no string can hold makes `resize` throw, which the
handler catches after the store was cleared; it is not told apart from a
file that ends early and is `undefined` here as well. -/
def handleLoad (db : Database) (fs : FileSystem) (command : Str) : Outcome (Database × FileMsg) :=
  let ss : IStream := { buf := command }
  let r1 := ss.extract []
  let r2 := r1.1.extract []
  let filename := r2.2
  if filename = [] then .ret (db, .filenameRequired)
  else
    let filename := if '.' ∉ filename then filename ++ ".db".toList else filename
    match fs.contents filename with
    | none => .ret (db, .couldNotOpenForReading filename)
    | some bytes =>
      match readSize bytes with
      | none => .undefined
      | some (numTables, rest) =>
        match loadTables numTables rest [] with
        | none => .undefined
        | some loaded => .ret (loaded, .databaseLoaded filename numTables)

/-- The claim's words for the file that SAVE and LOAD open: "the given name
unchanged when it contains a `.` character anywhere, and the given name with
`.db` appended otherwise". -/
def snapshotFile (given : Str) : Str :=
  if '.' ∈ given then given else given ++ ".db".toList

/-- A file system with no file in which every name can be written. -/
def emptyFiles : FileSystem := { contents := fun _ => none, writable := fun _ => true }

/-- The command line `command` gives the name `x`: it is a first word (SAVE
or LOAD for the two handlers), whitespace, the non-empty whitespace-free word
`x`, and then nothing or whitespace and anything. -/
def GivesName (command x : Str) : Prop :=
  ∃ kw ws rest, command = kw ++ (ws ++ (x ++ rest))
    ∧ kw ≠ [] ∧ (∀ c ∈ kw, isspace c = false)
    ∧ ws ≠ [] ∧ (∀ c ∈ ws, isspace c = true)
    ∧ x ≠ [] ∧ (∀ c ∈ x, isspace c = false)
    ∧ rest.takeWhile isNonSpace = []

/-- The claim's words "every row with as many values as the table has
columns", for every row of every table of the store. -/
def ArityOk (db : Database) : Prop :=
  ∀ kv ∈ db, ∀ row ∈ kv.2.rows, row.values.length = kv.2.columns.length

/-- The store with `users (id INT, name TEXT)` holding `(1, Alice)` and
`(2, Carol)`, and the empty table `t (a INT)`. -/
def usersAndT : Database :=
  [("users".toList, { name := "users".toList, columns := usersColumns, rows := [{ values := ["1".toList, "Alice".toList], id := 1 }, { values := ["2".toList, "Carol".toList], id := 2 }], next_id := 3 }), ("t".toList, tableA)]

/-- The store `usersAndT` after `INSERT INTO users VALUES (3, "Dave")`. -/
def usersAndTDave : Database :=
  [("users".toList, { name := "users".toList, columns := usersColumns, rows := [{ values := ["1".toList, "Alice".toList], id := 1 }, { values := ["2".toList, "Carol".toList], id := 2 }, { values := ["3".toList, "Dave".toList], id := 3 }], next_id := 4 }), ("t".toList, tableA)]

/-- The table `t (a INT)` whose `next_id` is `INT_MAX`. -/
def tableAtMax : Database := [("t".toList, { tableA with next_id := INT_MAX })]

/-! ## An UPDATE command line written from its parts -/

/-- The text `a1,a2,...,ak`: the assignments as written, separated by
commas (whitespace around an assignment belongs to it). -/
def assignmentsText : List Str → Str
  | [] => []
  | [a] => a
  | a :: b :: rest => a ++ (',' :: assignmentsText (b :: rest))

/-- The text of the optional WHERE clause: nothing, or ` WHERE pred`. -/
def whereText : Option Str → Str
  | none => []
  | some pred => " WHERE ".toList ++ pred

/-- The command line `UPDATE t SET a1,...,ak [WHERE pred]`. -/
def updateCommand (t : Str) (assignments : List Str) (pred : Option Str) : Str :=
  "UPDATE ".toList ++ (t ++ (" SET ".toList ++ (assignmentsText assignments ++ whereText pred)))

/-- The predicate a row is tested with: the text after WHERE without
surrounding whitespace; empty (true for every row) when there is no WHERE. -/
def predicateOf : Option Str → Str
  | none => []
  | some pred => trim pred

/-- The parts of `UPDATE t SET a1,...,ak [WHERE pred]` are read as written:
the table name is a word, no assignment holds a comma or a newline, the list
does not end in a blank assignment and the predicate holds no newline. -/
structure UpdateForm (t : Str) (assignments : List Str) (pred : Option Str) : Prop where
  table_ne : t ≠ []
  table_word : ∀ ch ∈ t, isspace ch = false
  no_comma : ∀ a ∈ assignments, ∀ ch ∈ a, ch ≠ ','
  no_newline : ∀ a ∈ assignments, ∀ ch ∈ a, ch ≠ '\n'
  last_written : ∀ z, assignments.getLast? = some z → ∃ ch ∈ z, isspace ch = false
  pred_line : ∀ p, pred = some p → ∀ ch ∈ p, ch ≠ '\n'

/-- The command line `command` is written `UPDATE t SET a1,...,ak [WHERE pred]`:
a first word (UPDATE in any letter case), whitespace, the table name,
whitespace, a third word (SET), one whitespace char, the assignments
separated by commas, and then nothing or ` WHERE ` and the predicate; the
parts are read as written (`UpdateForm`) and the word `WHERE` set off by
blanks does not occur in the SET list. -/
def WrittenUpdate (command t : Str) (assignments : List Str) (pred : Option Str) : Prop :=
  UpdateForm t assignments pred
  ∧ ∃ kw1 ws1 ws2 kw3 sp,
      command = kw1 ++ (ws1 ++ (t ++ (ws2 ++ (kw3
        ++ (sp :: (assignmentsText assignments ++ whereText pred))))))
      ∧ kw1 ≠ [] ∧ (∀ c ∈ kw1, isspace c = false)
      ∧ ws1 ≠ [] ∧ (∀ c ∈ ws1, isspace c = true)
      ∧ ws2 ≠ [] ∧ (∀ c ∈ ws2, isspace c = true)
      ∧ kw3 ≠ [] ∧ (∀ c ∈ kw3, isspace c = false)
      ∧ isspace sp = true ∧ sp ≠ '\n'
      ∧ ¬ ([' ', 'W', 'H', 'E', 'R', 'E', ' '] <:+: sp :: (assignmentsText assignments ++ [' ']))

/-- The store `twoUsers` with both names set to the text `"a` (a double quote
and the letter a). -/
def twoUsersQuoteA : Database :=
  [("users".toList, { name := "users".toList, columns := usersColumns, rows := [{ values := ["1".toList, "\"a".toList], id := 1 }, { values := ["2".toList, "\"a".toList], id := 2 }], next_id := 3 })]

/-- The store `twoUsers` with both names set to `Bob`. -/
def twoUsersBothBob : Database :=
  [("users".toList, { name := "users".toList, columns := usersColumns, rows := [{ values := ["1".toList, "Bob".toList], id := 1 }, { values := ["2".toList, "Bob".toList], id := 2 }], next_id := 3 })]

theorem getlines_no_delim (delim : Char) (s : Str) (hne : s ≠ []) (h : ∀ c ∈ s, c ≠ delim) :
    getlines delim s = [s] := by
  induction s with
  | nil => exact absurd rfl hne
  | cons c cs ih =>
    have hc : ¬ c = delim := h c (List.mem_cons_self _ _)
    cases cs with
    | nil => simp [getlines, hc]
    | cons d ds =>
      have := ih (by simp) (fun x hx => h x (List.mem_cons_of_mem _ hx))
      rw [getlines]
      simp only [hc, if_false, this]

theorem getlines_piece (delim : Char) (line rest : Str) (h : ∀ c ∈ line, c ≠ delim) :
    getlines delim (line ++ delim :: rest) = line :: getlines delim rest := by
  induction line with
  | nil => simp [getlines]
  | cons c cs ih =>
    have hc : ¬ c = delim := h c (List.mem_cons_self _ _)
    have := ih (fun x hx => h x (List.mem_cons_of_mem _ hx))
    rw [List.cons_append, getlines]
    simp only [hc, if_false, this]

/-- The structural `getlines` is the loop `while (std::getline(stream, item, delim))`. -/
theorem getlineLoop_eq_getlines (delim : Char) (fuel : Nat) (s item : Str) (h : s.length < fuel) :
    getlineLoop delim fuel { buf := s } item = getlines delim s := by
  induction fuel generalizing s item with
  | zero => omega
  | succ fuel ih =>
    have hsplit := List.takeWhile_append_dropWhile (fun c => c != delim) s
    have htake : ∀ c ∈ s.takeWhile (fun c => c != delim), c ≠ delim := by
      intro c hc
      have := List.mem_takeWhile_imp hc
      simpa using this
    rw [getlineLoop]
    simp only [IStream.getline, IStream.good, Bool.not_false, Bool.and_self, Bool.not_true,
      Bool.false_eq_true, if_false]
    cases hdrop : s.dropWhile (fun c => c != delim) with
    | nil =>
      rw [hdrop, List.append_nil] at hsplit
      simp only [IStream.ok]
      cases s with
      | nil => simp [getlines]
      | cons c cs =>
        rw [hsplit]
        rw [hsplit] at htake
        simp only [List.isEmpty_cons, Bool.not_false, if_true]
        rw [getlines_no_delim delim (c :: cs) (by simp) htake]
        cases fuel with
        | zero => simp at h
        | succ fuel => simp [getlineLoop, IStream.getline, IStream.good, IStream.ok]
    | cons d rest =>
      have hd : d = delim := by
        have := List.head_dropWhile_not (fun c => c != delim) s (by rw [hdrop]; simp)
        simp only [hdrop, List.head_cons] at this
        simpa using this
      subst hd
      rw [hdrop] at hsplit
      simp only [IStream.ok, Bool.not_false, if_true]
      have hlen : rest.length < fuel := by
        have := congrArg List.length hsplit
        simp at this
        omega
      rw [ih rest _ hlen]
      conv_rhs => rw [← hsplit]
      rw [getlines_piece d _ rest htake]

/-! ## Value validator -/

theorem isdigit_iff (c : Char) : isdigit c = true ↔ '0' ≤ c ∧ c ≤ '9' := by
  simp only [isdigit, Bool.and_eq_true, decide_eq_true_eq, Char.le_def, UInt32.le_def]
  rfl

theorem isNumber_iff (v : Str) : isNumber v = true ↔ v ≠ [] ∧ ∀ c ∈ v, '0' ≤ c ∧ c ≤ '9' := by
  cases v with
  | nil => simp [isNumber]
  | cons a l => simp [isNumber, isdigit_iff]

theorem validateDataType_int_iff (v : Str) :
    validateDataType v "INT".toList = true ↔ v ≠ [] ∧ ∀ c ∈ v, '0' ≤ c ∧ c ≤ '9' := by
  have h : validateDataType v "INT".toList = isNumber v := by simp [validateDataType]
  rw [h, isNumber_iff]

/-- C7: `validateDataType(v, "INT")` is true exactly when `v` is non-empty
and all its chars are ASCII digits (so `"12a"`, `"-5"`, `""`, `" 5"`, `"+5"`
and `"1.5"` are rejected), and `validateDataType(v, "TEXT")` is true for
every `v`. -/
theorem validateDataType_spec (v : Str) :
    (validateDataType v "INT".toList = true ↔ v ≠ [] ∧ ∀ c ∈ v, '0' ≤ c ∧ c ≤ '9')
    ∧ validateDataType v "TEXT".toList = true
    ∧ validateDataType "12a".toList "INT".toList = false
    ∧ validateDataType "-5".toList "INT".toList = false
    ∧ validateDataType "".toList "INT".toList = false
    ∧ validateDataType " 5".toList "INT".toList = false
    ∧ validateDataType "+5".toList "INT".toList = false
    ∧ validateDataType "1.5".toList "INT".toList = false := by
  refine ⟨?_, ?_, by decide, by decide, by decide, by decide, by decide, by decide⟩
  · have h : validateDataType v "INT".toList = isNumber v := by simp [validateDataType]
    rw [h, isNumber_iff]
  · simp [validateDataType]

/-! ## Snapshot round trip -/

theorem toNat_ofNat_byte (k : Nat) (h : k < 256) : (Char.ofNat k).toNat = k := by
  have hv : k.isValidChar := Or.inl (by omega)
  simp [Char.ofNat, dif_pos hv, Char.ofNatAux, Char.toNat, UInt32.toNat]

theorem length_encodeLE (w n : Nat) : (encodeLE w n).length = w := by
  induction w generalizing n with
  | zero => rfl
  | succ w ih => simp [encodeLE, ih]

theorem decodeLE_encodeLE (w n : Nat) (h : n < 256 ^ w) : decodeLE (encodeLE w n) = n := by
  induction w generalizing n with
  | zero =>
    have : n = 0 := by simpa using h
    simp [encodeLE, decodeLE, this]
  | succ w ih =>
    have h2 : n / 256 < 256 ^ w := by
      rw [Nat.div_lt_iff_lt_mul (by norm_num)]
      rw [pow_succ] at h
      exact h
    simp only [encodeLE, decodeLE]
    rw [ih _ h2, toNat_ofNat_byte _ (Nat.mod_lt _ (by norm_num))]
    omega

theorem readBytes_append (xs rest : List Char) : readBytes xs.length (xs ++ rest) = some (xs, rest) := by
  simp [readBytes]

theorem readSize_writeSize (n : Nat) (rest : List Char) (h : fitsSize n) :
    readSize (writeSize n ++ rest) = some (n, rest) := by
  have hl : (writeSize n).length = 8 := length_encodeLE _ _
  have hn : n % 2 ^ 64 = n := Nat.mod_eq_of_lt h
  have hd : decodeLE (writeSize n) = n := by
    unfold writeSize
    rw [hn]
    exact decodeLE_encodeLE 8 n (by simpa [fitsSize] using h)
  have := readBytes_append (writeSize n) rest
  rw [hl] at this
  simp [readSize, this, hd]

theorem readInt_writeInt (i : Int) (rest : List Char) (h : fitsInt i) :
    readInt (writeInt i ++ rest) = some (i, rest) := by
  have hl : (writeInt i).length = 4 := length_encodeLE _ _
  obtain ⟨h1, h2⟩ := h
  simp only [INT_MIN, INT_MAX] at h1 h2
  have hnn : 0 ≤ i % 2 ^ 32 := Int.emod_nonneg _ (by norm_num)
  have hlt : i % 2 ^ 32 < 2 ^ 32 := Int.emod_lt_of_pos _ (by norm_num)
  have hd : decodeLE (writeInt i) = (i % 2 ^ 32).toNat := by
    unfold writeInt
    apply decodeLE_encodeLE
    have : (256 : Nat) ^ 4 = 4294967296 := by norm_num
    omega
  have := readBytes_append (writeInt i) rest
  rw [hl] at this
  simp only [readInt, this, Option.map_some', hd, Option.some.injEq, Prod.mk.injEq, and_true]
  have hcast : (((i % 2 ^ 32).toNat : Nat) : Int) = i % 2 ^ 32 := Int.toNat_of_nonneg hnn
  by_cases hi : 0 ≤ i
  · have : i % 2 ^ 32 = i := Int.emod_eq_of_lt hi (by omega)
    have hlt2 : (i % 2 ^ 32).toNat < 2 ^ 31 := by omega
    rw [if_pos hlt2, hcast, this]
  · have : i % 2 ^ 32 = i + 2 ^ 32 := by omega
    have hge : ¬ (i % 2 ^ 32).toNat < 2 ^ 31 := by omega
    rw [if_neg hge, hcast, this]
    omega

theorem readString_writeString (s : Str) (rest : List Char) (h : fitsSize s.length) :
    readString (writeString s ++ rest) = some (s, rest) := by
  simp [readString, writeString, List.append_assoc, readSize_writeSize _ _ h, readBytes_append]

theorem readMany_flatMap {α : Type} (item : List Char → Option (α × List Char)) (write : α → List Char)
    (xs : List α) (rest : List Char)
    (h : ∀ x ∈ xs, ∀ r, item (write x ++ r) = some (x, r)) :
    readMany item xs.length (xs.flatMap write ++ rest) = some (xs, rest) := by
  induction xs with
  | nil => simp [readMany]
  | cons x xs ih =>
    have hx := h x (List.mem_cons_self _ _)
    have ih2 := ih (fun y hy => h y (List.mem_cons_of_mem _ hy))
    simp [readMany, List.flatMap_cons, List.append_assoc, hx, ih2]

theorem readColumn_writeColumn (c : Column) (rest : List Char) (h : c.Representable) :
    readColumn (writeColumn c ++ rest) = some (c, rest) := by
  obtain ⟨h1, h2⟩ := h
  simp [readColumn, writeColumn, List.append_assoc, readString_writeString _ _ h1,
    readString_writeString _ _ h2]

theorem readRow_writeRow (r : Row) (rest : List Char) (h : r.Representable) :
    readRow (writeRow r ++ rest) = some (r, rest) := by
  obtain ⟨h1, h2, h3⟩ := h
  have hv := readMany_flatMap readString writeString r.values rest
    (fun v hv r => readString_writeString v r (h3 v hv))
  simp [readRow, writeRow, List.append_assoc, readInt_writeInt _ _ h1, readSize_writeSize _ _ h2, hv]

theorem readTable_writeTable (t : Table) (rest : List Char) (h : t.Representable) :
    readTable (writeTable t ++ rest) = some (t, rest) := by
  obtain ⟨h1, h2, h3, h4, h5, h6⟩ := h
  have hc := fun r => readMany_flatMap readColumn writeColumn t.columns r
    (fun c hc r => readColumn_writeColumn c r (h4 c hc))
  have hr := readMany_flatMap readRow writeRow t.rows rest
    (fun x hx r => readRow_writeRow x r (h6 x hx))
  simp [readTable, writeTable, List.append_assoc, readString_writeString _ _ h1,
    readInt_writeInt _ _ h2, readSize_writeSize _ _ h3, hc, readSize_writeSize _ _ h5, hr]

theorem dbSet_fresh (db : Database) (k : Str) (t : Table) (h : k ∉ db.map Prod.fst) :
    dbSet db k t = db ++ [(k, t)] := by
  induction db with
  | nil => rfl
  | cons kv db ih =>
    obtain ⟨k0, t0⟩ := kv
    simp only [List.map_cons, List.mem_cons, not_or] at h
    have hne : ¬ k0 = k := fun e => h.1 e.symm
    simp [dbSet, hne, ih h.2]

theorem loadTables_saved (db acc : Database) (rest : List Char)
    (hnd : ((acc ++ db).map Prod.fst).Nodup)
    (hok : ∀ kv ∈ db, kv.1 = kv.2.name ∧ kv.2.Representable) :
    loadTables db.length (db.flatMap (fun kv => writeTable kv.2) ++ rest) acc = some (acc ++ db) := by
  induction db generalizing acc with
  | nil => simp [loadTables]
  | cons kv db ih =>
    obtain ⟨hk, hr⟩ := hok kv (List.mem_cons_self _ _)
    have hfresh : kv.2.name ∉ acc.map Prod.fst := by
      rw [← hk]
      intro hmem
      rw [List.map_append, List.nodup_append] at hnd
      exact hnd.2.2 hmem (List.mem_map_of_mem Prod.fst (List.mem_cons_self kv db))
    have hset : dbSet acc kv.2.name kv.2 = acc ++ [kv] := by
      rw [dbSet_fresh _ _ _ hfresh, ← hk]
    have hnd2 : (((acc ++ [kv]) ++ db).map Prod.fst).Nodup := by
      simpa [List.append_assoc] using hnd
    have ih2 := ih (acc ++ [kv]) hnd2 (fun x hx => hok x (List.mem_cons_of_mem _ hx))
    simp only [List.length_cons, loadTables, List.flatMap_cons, List.append_assoc,
      readTable_writeTable _ _ hr, Option.some_bind, hset]
    simpa [List.append_assoc] using ih2

theorem loadBytes_saveBytes (db0 db : Database) (h : StoreOk db) :
    loadBytes db0 (saveBytes db) = some db := by
  obtain ⟨hnd, hsz, hok⟩ := h
  have := loadTables_saved db [] [] (by simpa using hnd) hok
  simp only [List.append_nil, List.nil_append] at this
  simp [loadBytes, saveBytes, readSize_writeSize _ _ hsz, this]

/-- C1: for every store `S` as the program holds it (distinct keys, each table
under its own name, `next_id` and row ids in `int`, sizes in `size_t`) and
every prior store `S0`, LOAD applied to the bytes SAVE writes for `S`
succeeds and yields a store with exactly the tables of `S`: each name finds
the same table (same `next_id`, columns in order, rows in order with ids and
values), the keys are distinct and there are as many as in `S`, so no table
of `S0` survives. -/
theorem save_load_roundtrip (S S0 : Database) (h : StoreOk S) :
    ∃ S2, loadBytes S0 (saveBytes S) = some S2
      ∧ (∀ name, dbFind S2 name = dbFind S name)
      ∧ (S2.map Prod.fst).Nodup ∧ S2.length = S.length := by
  refine ⟨S, loadBytes_saveBytes S0 S h, ?_, h.1, rfl⟩
  intro name
  rfl

/-! ## The condition regex -/

theorem isspace_not_word (c : Char) (h : isspace c = true) : isWordChar c = false := by
  by_cases hu : c = '_'
  · subst hu
    revert h
    decide
  · simp only [isspace, Bool.or_eq_true, beq_iff_eq, Bool.and_eq_true, decide_eq_true_eq] at h
    simp only [isWordChar, isalnum, isdigit, Bool.or_eq_false_iff, Bool.and_eq_false_iff,
      decide_eq_false_iff_not, beq_eq_false_iff_ne, ne_eq]
    refine ⟨⟨⟨?_, ?_⟩, ?_⟩, hu⟩ <;> omega

theorem isOpChar_cases (c : Char) (h : isOpChar c = true) : c = '=' ∨ c = '<' ∨ c = '>' ∨ c = '!' := by
  simpa [isOpChar, or_assoc] using h

theorem isOpChar_not_space (c : Char) (h : isOpChar c = true) : isspace c = false := by
  rcases isOpChar_cases c h with rfl | rfl | rfl | rfl <;> decide

theorem isOpChar_not_word (c : Char) (h : isOpChar c = true) : isWordChar c = false := by
  rcases isOpChar_cases c h with rfl | rfl | rfl | rfl <;> decide

theorem isOpChar_not_digit (c : Char) (h : isOpChar c = true) : isdigit c = false := by
  rcases isOpChar_cases c h with rfl | rfl | rfl | rfl <;> decide

theorem isOpChar_ne_quote (c : Char) (h : isOpChar c = true) : c ≠ '"' := by
  rcases isOpChar_cases c h with rfl | rfl | rfl | rfl <;> decide

theorem isspace_not_op (c : Char) (h : isspace c = true) : isOpChar c = false := by
  cases ho : isOpChar c with
  | false => rfl
  | true => rw [isOpChar_not_space c ho] at h; exact absurd h (by decide)

theorem isWordChar_not_space (c : Char) (h : isWordChar c = true) : isspace c = false := by
  cases hs : isspace c with
  | false => rfl
  | true => rw [isspace_not_word c hs] at h; exact absurd h (by decide)

theorem isWordChar_not_op (c : Char) (h : isWordChar c = true) : isOpChar c = false := by
  cases ho : isOpChar c with
  | false => rfl
  | true => rw [isOpChar_not_word c ho] at h; exact absurd h (by decide)

theorem greedyStar_of_neg (p : Char → Bool) (c : Char) (cs : Str) (h : p c = false) :
    greedyStar p (c :: cs) = [([], c :: cs)] := by
  simp [greedyStar, h]

theorem greedyPlus_of_neg (p : Char → Bool) (c : Char) (cs : Str) (h : p c = false) :
    greedyPlus p (c :: cs) = [] := by
  simp [greedyPlus, h]

/-- When the continuation fails on every rest that still starts with a
`p`-char, only the longest match of `p*` can succeed. -/
theorem flatMap_greedyStar_skip {β : Type} (p : Char → Bool) (s : Str) (f : Str × Str → List β)
    (hskip : ∀ t c r, p c = true → f (t, c :: r) = []) :
    (greedyStar p s).flatMap f = f (s.takeWhile p, s.dropWhile p) := by
  induction s generalizing f with
  | nil => simp [greedyStar]
  | cons c cs ih =>
    by_cases hc : p c = true
    · have ih2 := ih (fun tr => f (c :: tr.1, tr.2)) (fun t d r hd => hskip (c :: t) d r hd)
      simp only [greedyStar, hc, if_true, List.flatMap_append, List.flatMap_map,
        List.flatMap_cons, List.flatMap_nil, List.append_nil, hskip [] c cs hc,
        List.takeWhile_cons_of_pos, List.dropWhile_cons_of_pos]
      exact ih2
    · simp [greedyStar, hc]

/-- The same for `p+`. -/
theorem flatMap_greedyPlus_skip {β : Type} (p : Char → Bool) (s : Str) (f : Str × Str → List β)
    (hskip : ∀ t c r, p c = true → f (t, c :: r) = []) :
    (greedyPlus p s).flatMap f
      = if s.takeWhile p = [] then [] else f (s.takeWhile p, s.dropWhile p) := by
  cases s with
  | nil => simp [greedyPlus]
  | cons c cs =>
    by_cases hc : p c = true
    · have h2 := flatMap_greedyStar_skip p cs (fun tr => f (c :: tr.1, tr.2))
        (fun t d r hd => hskip (c :: t) d r hd)
      simp only [greedyPlus, hc, if_true, List.flatMap_map, List.takeWhile_cons_of_pos,
        List.dropWhile_cons_of_pos, reduceCtorEq, if_false]
      exact h2
    · simp [greedyPlus, hc]

theorem headOf_greedyStar (p : Char → Bool) (t : Str) :
    (greedyStar p t).head? = some (t.takeWhile p, t.dropWhile p) := by
  induction t with
  | nil => simp [greedyStar]
  | cons c cs ih =>
    by_cases hc : p c = true
    · simp [greedyStar, hc, ih]
    · simp [greedyStar, hc]

theorem headOf_greedyPlus (p : Char → Bool) (s : Str) :
    (greedyPlus p s).head?
      = if s.takeWhile p = [] then none else some (s.takeWhile p, s.dropWhile p) := by
  cases s with
  | nil => simp [greedyPlus]
  | cons c cs =>
    by_cases hc : p c = true
    · simp [greedyPlus, hc, headOf_greedyStar]
    · simp [greedyPlus, hc]

theorem greedyStar_of_takeWhile_nil (p : Char → Bool) (r : Str) (h : r.takeWhile p = []) :
    greedyStar p r = [([], r)] := by
  cases r with
  | nil => rfl
  | cons c cs =>
    by_cases hc : p c = true
    · simp [List.takeWhile_cons_of_pos hc] at h
    · simp [greedyStar, hc]

theorem greedyStar_cons_pos (p : Char → Bool) (c : Char) (cs : Str) (h : p c = true) :
    greedyStar p (c :: cs)
      = (greedyStar p cs).map (fun tr => (c :: tr.1, tr.2)) ++ [([], c :: cs)] := by
  simp [greedyStar, h]

theorem greedyPlus_cons_pos (p : Char → Bool) (c : Char) (cs : Str) (h : p c = true) :
    greedyPlus p (c :: cs) = (greedyStar p cs).map (fun tr => (c :: tr.1, tr.2)) := by
  simp [greedyPlus, h]

/-- The first two candidates of `p*` on a run of at least one char. -/
theorem findSome_greedyStar_run {β : Type} (p : Char → Bool) (o : Str) (x : Char) (r : Str)
    (h : Str × Str → Option β) (ho : ∀ c ∈ o, p c = true) (hx : p x = true)
    (hr : r.takeWhile p = []) :
    ∃ z, (greedyStar p (o ++ x :: r)).findSome? h = (h (o ++ [x], r)).or ((h (o, x :: r)).or z) := by
  induction o generalizing h with
  | nil =>
    refine ⟨none, ?_⟩
    simp [greedyStar, hx, greedyStar_of_takeWhile_nil p r hr, List.findSome?_cons]
    cases h ([x], r) <;> cases h ([], x :: r) <;> simp
  | cons c o ih =>
    have hc : p c = true := ho c (List.mem_cons_self _ _)
    obtain ⟨z, hz⟩ := ih (fun tr => h (c :: tr.1, tr.2))
      (fun d hd => ho d (List.mem_cons_of_mem _ hd))
    refine ⟨z.or (h ([], c :: (o ++ x :: r))), ?_⟩
    simp only [List.cons_append]
    rw [greedyStar_cons_pos p c _ hc, List.findSome?_append, List.findSome?_map]
    have hcomp : (h ∘ fun tr : Str × Str => (c :: tr.1, tr.2)) = fun tr => h (c :: tr.1, tr.2) := rfl
    have hz2 : List.findSome? (fun tr => h (c :: tr.1, tr.2)) (greedyStar p (o ++ x :: r))
        = (h (c :: (o ++ [x]), r)).or ((h (c :: o, x :: r)).or z) := hz
    rw [hcomp, hz2]
    simp only [List.findSome?_cons, List.findSome?_nil]
    generalize h (c :: (o ++ [x]), r) = A
    generalize h (c :: o, x :: r) = B
    generalize h ([], c :: (o ++ x :: r)) = C
    cases A <;> cases B <;> cases z <;> cases C <;> rfl

theorem findSome_greedyPlus_single {β : Type} (p : Char → Bool) (x : Char) (r : Str)
    (h : Str × Str → Option β) (hx : p x = true) (hr : r.takeWhile p = []) :
    (greedyPlus p (x :: r)).findSome? h = h ([x], r) := by
  simp [greedyPlus, hx, greedyStar_of_takeWhile_nil p r hr, List.findSome?_cons]
  cases h ([x], r) <;> simp

theorem findSome_greedyPlus_run {β : Type} (p : Char → Bool) (c : Char) (o : Str) (x : Char)
    (r : Str) (h : Str × Str → Option β) (hc : p c = true) (ho : ∀ d ∈ o, p d = true)
    (hx : p x = true) (hr : r.takeWhile p = []) :
    ∃ z, (greedyPlus p (c :: (o ++ x :: r))).findSome? h
      = (h (c :: (o ++ [x]), r)).or ((h (c :: o, x :: r)).or z) := by
  obtain ⟨z, hz⟩ := findSome_greedyStar_run p o x r (fun tr => h (c :: tr.1, tr.2)) ho hx hr
  refine ⟨z, ?_⟩
  rw [greedyPlus_cons_pos p c _ hc, List.findSome?_map]
  exact hz

theorem takeWhile_dropWhile_self (p : Char → Bool) (s : Str) : (s.dropWhile p).takeWhile p = [] := by
  induction s with
  | nil => rfl
  | cons c cs ih =>
    by_cases hc : p c = true
    · simp [hc, ih]
    · simp [hc]

theorem mem_takeWhile_imp (p : Char → Bool) (s : Str) : ∀ c ∈ s.takeWhile p, p c = true := by
  induction s with
  | nil => simp
  | cons a l ih =>
    by_cases ha : p a = true
    · simp only [List.takeWhile_cons_of_pos ha, List.mem_cons]
      rintro c (rfl | hc)
      · exact ha
      · exact ih c hc
    · simp [ha]

/-- The matches after the word run and the whitespace are resolved: one
candidate per length of the operator run. -/
theorem matchesHere_eq (s : Str) :
    matchesHere s
      = if s.takeWhile isWordChar = [] then []
        else (greedyPlus isOpChar ((s.dropWhile isWordChar).dropWhile isspace)).flatMap fun o =>
          (greedyPlus isNonSpace (o.2.dropWhile isspace)).map fun v =>
            (s.takeWhile isWordChar, o.1, v.1) := by
  unfold matchesHere
  rw [flatMap_greedyPlus_skip]
  · by_cases hw : s.takeWhile isWordChar = []
    · simp [hw]
    · simp only [hw, if_false]
      rw [flatMap_greedyStar_skip]
      · congr 1
        funext o
        rw [flatMap_greedyStar_skip]
        intro t c r hc
        simp [greedyPlus, isNonSpace, hc]
      · intro t c r hc
        simp [greedyPlus, isspace_not_op c hc]
  · intro t c r hc
    simp [greedyStar, greedyPlus, isWordChar_not_space c hc, isWordChar_not_op c hc]

theorem greedyPlus_of_takeWhile_nil (p : Char → Bool) (r : Str) (h : r.takeWhile p = []) :
    greedyPlus p r = [] := by
  cases r with
  | nil => rfl
  | cons c cs =>
    by_cases hc : p c = true
    · simp [List.takeWhile_cons_of_pos hc] at h
    · simp [greedyPlus, hc]

theorem takeWhile_nonSpace_of_literal_nil (r : Str)
    (h : (r.dropWhile isspace).takeWhile isNonSpace = []) : r.takeWhile isNonSpace = [] := by
  cases r with
  | nil => rfl
  | cons a l =>
    by_cases ha : isspace a = true
    · simp [isNonSpace, ha]
    · have hns : isNonSpace a = true := by simp [isNonSpace, ha]
      simp [List.dropWhile_cons_of_neg ha, List.takeWhile_cons_of_pos hns] at h

theorem headOf_literal (w : Str) (o : Str × Str) :
    ((greedyPlus isNonSpace (o.2.dropWhile isspace)).map fun v => (w, o.1, v.1)).head?
      = literalOf w o := by
  rw [List.head?_map, headOf_greedyPlus, literalOf]
  split <;> rfl

/-- The operator stage: the longest run if a literal follows it, else the
run without its last char, which is then the literal. -/
theorem headOf_opStage (w o r3 : Str) (ho : ∀ c ∈ o, isOpChar c = true)
    (hr3 : r3.takeWhile isOpChar = []) :
    ((greedyPlus isOpChar (o ++ r3)).flatMap fun oo =>
        (greedyPlus isNonSpace (oo.2.dropWhile isspace)).map fun v => (w, oo.1, v.1)).head?
      = if o = [] then none
        else if (r3.dropWhile isspace).takeWhile isNonSpace ≠ [] then
          some (w, o, (r3.dropWhile isspace).takeWhile isNonSpace)
        else if 2 ≤ o.length then some (w, o.dropLast, o.drop (o.length - 1))
        else none := by
  rw [List.head?_flatMap]
  have hfun : (fun oo : Str × Str =>
      ((greedyPlus isNonSpace (oo.2.dropWhile isspace)).map fun v => (w, oo.1, v.1)).head?)
      = literalOf w := funext (headOf_literal w)
  rw [hfun]
  rcases List.eq_nil_or_concat o with rfl | ⟨L, x, hLx⟩
  · simp [greedyPlus_of_takeWhile_nil _ _ hr3]
  · rw [List.concat_eq_append] at hLx
    subst hLx
    have hx : isOpChar x = true := ho x (by simp)
    have hL : ∀ c ∈ L, isOpChar c = true := fun c hc => ho c (by simp [hc])
    cases L with
    | nil =>
      simp only [List.nil_append, List.singleton_append]
      rw [findSome_greedyPlus_single isOpChar x r3 _ hx hr3]
      by_cases hv : (r3.dropWhile isspace).takeWhile isNonSpace = []
      · simp [literalOf, hv]
      · simp [literalOf, hv]
    | cons c L =>
      have hc : isOpChar c = true := hL c (List.mem_cons_self _ _)
      have hL2 : ∀ d ∈ L, isOpChar d = true := fun d hd => hL d (List.mem_cons_of_mem _ hd)
      obtain ⟨z, hz⟩ := findSome_greedyPlus_run isOpChar c L x r3 (literalOf w) hc hL2 hx hr3
      have hshape : (c :: L ++ [x]) ++ r3 = c :: (L ++ x :: r3) := by simp
      rw [hshape, hz]
      by_cases hv : (r3.dropWhile isspace).takeWhile isNonSpace = []
      · have hns : isNonSpace x = true := by simp [isNonSpace, isOpChar_not_space x hx]
        have hsp : ¬ isspace x = true := by simp [isOpChar_not_space x hx]
        have h3 := takeWhile_nonSpace_of_literal_nil r3 hv
        have hsecond : literalOf w (c :: L, x :: r3) = some (w, c :: L, [x]) := by
          simp [literalOf, List.dropWhile_cons_of_neg hsp, List.takeWhile_cons_of_pos hns, h3]
        have hfirst : literalOf w (c :: (L ++ [x]), r3) = none := by
          simp [literalOf, hv]
        have hdl : (c :: (L ++ [x])).dropLast = c :: L := by
          rw [← List.cons_append, List.dropLast_concat]
        rw [hfirst, hsecond]
        simp [hv, hdl]
      · have hfirst : literalOf w (c :: (L ++ [x]), r3)
            = some (w, c :: (L ++ [x]), (r3.dropWhile isspace).takeWhile isNonSpace) := by
          simp [literalOf, hv]
        rw [hfirst]
        simp [hv]

/-- The backtracking matcher and the scan agree on the first match. -/
theorem headOf_matchesHere (s : Str) : (matchesHere s).head? = scanHere s := by
  rw [matchesHere_eq]
  unfold scanHere
  by_cases hw : s.takeWhile isWordChar = []
  · simp [hw]
  · have hop := headOf_opStage (s.takeWhile isWordChar)
      (((s.dropWhile isWordChar).dropWhile isspace).takeWhile isOpChar)
      (((s.dropWhile isWordChar).dropWhile isspace).dropWhile isOpChar)
      (mem_takeWhile_imp _ _) (takeWhile_dropWhile_self _ _)
    rw [List.takeWhile_append_dropWhile] at hop
    simp only [hw, if_false, false_or]
    rw [hop]

theorem regexSearch_cons (c : Char) (cs : Str) :
    regexSearch (c :: cs)
      = match scanHere (c :: cs) with
        | some m => some m
        | none => regexSearch cs := by
  rw [regexSearch, headOf_matchesHere]

/-! ### The regex on a predicate of the form `c op b` -/

theorem takeWhile_append_nil (p : Char → Bool) (t r : Str) (ht : ∀ c ∈ t, p c = false)
    (hr : t = [] → r.takeWhile p = []) : (t ++ r).takeWhile p = [] := by
  cases t with
  | nil => simpa using hr rfl
  | cons a l =>
    have ha : ¬ p a = true := by simp [ht a (List.mem_cons_self _ _)]
    simp [List.takeWhile_cons_of_neg ha]

theorem dropWhile_of_takeWhile_nil (p : Char → Bool) (r : Str) (h : r.takeWhile p = []) :
    r.dropWhile p = r := by
  cases r with
  | nil => rfl
  | cons a l =>
    by_cases ha : p a = true
    · simp [List.takeWhile_cons_of_pos ha] at h
    · simp [List.dropWhile_cons_of_neg ha]

theorem takeWhile_run (p : Char → Bool) (t r : Str) (ht : ∀ c ∈ t, p c = true)
    (hr : r.takeWhile p = []) : (t ++ r).takeWhile p = t := by
  rw [List.takeWhile_append_of_pos ht, hr, List.append_nil]

theorem dropWhile_run (p : Char → Bool) (t r : Str) (ht : ∀ c ∈ t, p c = true)
    (hr : r.takeWhile p = []) : (t ++ r).dropWhile p = r := by
  rw [List.dropWhile_append_of_pos ht, dropWhile_of_takeWhile_nil p r hr]

theorem PredicateForm.lit_no_op {c ws1 o ws2 b : Str} (h : PredicateForm c ws1 o ws2 b) :
    (ws2 ++ b).takeWhile isOpChar = [] := by
  apply takeWhile_append_nil
  · intro ch hch
    exact isspace_not_op ch (h.ws2_space ch hch)
  · intro hws
    rcases h.separated with h1 | h1
    · exact absurd hws h1
    · cases b with
      | nil => rfl
      | cons a l =>
        have ha : ¬ isOpChar a = true := by simp [h1 a rfl]
        simp [List.takeWhile_cons_of_neg ha]

theorem PredicateForm.scan_word {c ws1 o ws2 b : Str} (h : PredicateForm c ws1 o ws2 b)
    (post : Str) :
    (c ++ (ws1 ++ (o ++ (ws2 ++ (b ++ post))))).takeWhile isWordChar = c
    ∧ ((c ++ (ws1 ++ (o ++ (ws2 ++ (b ++ post))))).dropWhile isWordChar).dropWhile isspace
        = o ++ (ws2 ++ (b ++ post)) := by
  have ho : (o ++ (ws2 ++ (b ++ post))).takeWhile isWordChar = [] :=
    takeWhile_append_nil _ _ _ (fun ch hch => isOpChar_not_word ch (h.op_chars ch hch))
      (fun e => absurd e h.op_ne)
  have hos : (o ++ (ws2 ++ (b ++ post))).takeWhile isspace = [] :=
    takeWhile_append_nil _ _ _ (fun ch hch => isOpChar_not_space ch (h.op_chars ch hch))
      (fun e => absurd e h.op_ne)
  have hw : (ws1 ++ (o ++ (ws2 ++ (b ++ post)))).takeWhile isWordChar = [] :=
    takeWhile_append_nil _ _ _ (fun ch hch => isspace_not_word ch (h.ws1_space ch hch))
      (fun _ => ho)
  refine ⟨takeWhile_run _ _ _ h.name_word hw, ?_⟩
  rw [dropWhile_run _ _ _ h.name_word hw, dropWhile_run _ _ _ h.ws1_space hos]

/-- With a literal, the scan yields the three pieces; what follows after
whitespace is not looked at. -/
theorem scanHere_form (c ws1 o ws2 b post : Str) (h : PredicateForm c ws1 o ws2 b)
    (hb : b ≠ []) (hpost : post.takeWhile isNonSpace = []) :
    scanHere (c ++ (ws1 ++ (o ++ (ws2 ++ (b ++ post))))) = some (c, o, b) := by
  obtain ⟨hw, hr2⟩ := h.scan_word post
  have hbns : ∀ ch ∈ b, isNonSpace ch = true := fun ch hch => by
    simp [isNonSpace, h.lit_nonspace ch hch]
  have hop : (ws2 ++ (b ++ post)).takeWhile isOpChar = [] := by
    have := h.lit_no_op
    cases ws2 with
    | nil =>
      cases b with
      | nil => exact absurd rfl hb
      | cons a l =>
        simp only [List.nil_append, List.cons_append] at this ⊢
        by_cases ha : isOpChar a = true
        · simp [List.takeWhile_cons_of_pos ha] at this
        · simp [List.takeWhile_cons_of_neg ha]
    | cons a l =>
      have ha : ¬ isOpChar a = true := by
        simp [isspace_not_op a (h.ws2_space a (List.mem_cons_self _ _))]
      simp [List.takeWhile_cons_of_neg ha]
  have hsp : (b ++ post).takeWhile isspace = [] :=
    takeWhile_append_nil _ _ _ h.lit_nonspace (fun e => absurd e hb)
  unfold scanHere
  simp only [hw, hr2, takeWhile_run _ _ _ h.op_chars hop, dropWhile_run _ _ _ h.op_chars hop,
    dropWhile_run _ _ _ h.ws2_space hsp, takeWhile_run _ _ _ hbns hpost]
  simp [h.name_ne, h.op_ne, hb]

theorem regexSearch_form (c ws1 o ws2 b post : Str) (h : PredicateForm c ws1 o ws2 b)
    (hb : b ≠ []) (hpost : post.takeWhile isNonSpace = []) :
    regexSearch (c ++ (ws1 ++ (o ++ (ws2 ++ (b ++ post))))) = some (c, o, b) := by
  have hscan := scanHere_form c ws1 o ws2 b post h hb hpost
  cases c with
  | nil => exact absurd rfl h.name_ne
  | cons a l =>
    simp only [List.cons_append] at hscan ⊢
    rw [regexSearch_cons, hscan]

theorem findColumn_first (columns : List Column) (c : Str) (i : Nat) (col : Column)
    (hcol : columns[i]? = some col) (hname : col.name = c)
    (hfirst : ∀ j cj, j < i → columns[j]? = some cj → cj.name ≠ c) :
    findColumn columns c = some i := by
  induction columns generalizing i with
  | nil => simp at hcol
  | cons x xs ih =>
    cases i with
    | zero =>
      simp only [List.getElem?_cons_zero, Option.some.injEq] at hcol
      subst hcol
      simp [findColumn, hname]
    | succ i =>
      have hx : ¬ x.name = c := hfirst 0 x (Nat.succ_pos _) (by simp)
      have := ih i (by simpa using hcol)
        (fun j cj hj hcj => hfirst (j + 1) cj (by omega) (by simpa using hcj))
      simp [findColumn, hx, this]

theorem evaluateCondition_of_search (row : Row) (columns : List Column) (cond c op value a : Str)
    (i : Nat) (hne : cond ≠ []) (hs : regexSearch cond = some (c, op, value))
    (hf : findColumn columns c = some i) (hv : row.values[i]? = some a) :
    evaluateCondition row columns cond
      = if op = ['='] then .ret (a == stripQuotes value)
        else if op = ['!', '='] then .ret (a != stripQuotes value)
        else if op = ['>'] then compareInts (fun x y => decide (x > y)) a (stripQuotes value)
        else if op = ['<'] then compareInts (fun x y => decide (x < y)) a (stripQuotes value)
        else if op = ['>', '='] then compareInts (fun x y => decide (x ≥ y)) a (stripQuotes value)
        else if op = ['<', '='] then compareInts (fun x y => decide (x ≤ y)) a (stripQuotes value)
        else .ret false := by
  simp only [evaluateCondition, hne, if_false, hs, hf, hv]

theorem evaluateCondition_no_match (row : Row) (columns : List Column) (cond : Str)
    (hne : cond ≠ []) (hs : regexSearch cond = none) :
    evaluateCondition row columns cond = .ret false := by
  simp only [evaluateCondition, hne, if_false, hs]

theorem evaluateCondition_no_column (row : Row) (columns : List Column) (cond c op value : Str)
    (hne : cond ≠ []) (hs : regexSearch cond = some (c, op, value))
    (hf : findColumn columns c = none) :
    evaluateCondition row columns cond = .ret false := by
  simp only [evaluateCondition, hne, if_false, hs, hf]

theorem form_ne_nil (c rest : Str) (h : c ≠ []) : c ++ rest ≠ [] := by
  cases c with
  | nil => exact absurd rfl h
  | cons a l => simp

theorem isNumber_of_op_head (x : Char) (l : Str) (hx : isOpChar x = true) :
    isNumber (x :: l) = false := by
  simp [isNumber, isOpChar_not_digit x hx]

theorem stripQuotes_of_op_head (x : Char) (l : Str) (hx : isOpChar x = true) :
    stripQuotes (x :: l) = x :: l := by
  have : x ≠ '"' := isOpChar_ne_quote x hx
  simp [stripQuotes, this]

theorem mem_greedyStar (p : Char → Bool) (s t r : Str) :
    (t, r) ∈ greedyStar p s ↔ t ++ r = s ∧ ∀ c ∈ t, p c = true := by
  induction s generalizing t r with
  | nil =>
    simp only [greedyStar, List.mem_singleton, Prod.mk.injEq, List.append_eq_nil]
    constructor
    · rintro ⟨rfl, rfl⟩
      simp
    · rintro ⟨⟨rfl, rfl⟩, _⟩
      simp
  | cons c cs ih =>
    by_cases hc : p c = true
    · rw [greedyStar_cons_pos p c cs hc]
      simp only [List.mem_append, List.mem_map, Prod.mk.injEq, Prod.exists, List.mem_singleton]
      constructor
      · rintro (⟨t2, r2, hmem, rfl, rfl⟩ | ⟨rfl, rfl⟩)
        · obtain ⟨h1, h2⟩ := (ih t2 r2).mp hmem
          refine ⟨by simp [h1], ?_⟩
          intro d hd
          rcases List.mem_cons.mp hd with rfl | hd
          · exact hc
          · exact h2 d hd
        · simp
      · rintro ⟨h1, h2⟩
        cases t with
        | nil => right; simpa using h1
        | cons a t2 =>
          left
          simp only [List.cons_append, List.cons.injEq] at h1
          obtain ⟨rfl, h1⟩ := h1
          exact ⟨t2, r, (ih t2 r).mpr ⟨h1, fun d hd => h2 d (List.mem_cons_of_mem _ hd)⟩, rfl, rfl⟩
    · rw [greedyStar_of_neg p c cs (by simpa using hc)]
      simp only [List.mem_singleton, Prod.mk.injEq]
      constructor
      · rintro ⟨rfl, rfl⟩
        simp
      · rintro ⟨h1, h2⟩
        cases t with
        | nil => simpa using h1
        | cons a t2 =>
          simp only [List.cons_append, List.cons.injEq] at h1
          obtain ⟨rfl, _⟩ := h1
          exact absurd (h2 a (List.mem_cons_self _ _)) hc

theorem mem_greedyPlus (p : Char → Bool) (s t r : Str) :
    (t, r) ∈ greedyPlus p s ↔ t ++ r = s ∧ t ≠ [] ∧ ∀ c ∈ t, p c = true := by
  cases s with
  | nil =>
    simp only [greedyPlus, List.not_mem_nil, List.append_eq_nil, false_iff]
    rintro ⟨⟨rfl, _⟩, h, _⟩
    exact h rfl
  | cons c cs =>
    by_cases hc : p c = true
    · rw [greedyPlus_cons_pos p c cs hc]
      simp only [List.mem_map, Prod.mk.injEq, Prod.exists]
      constructor
      · rintro ⟨t2, r2, hmem, rfl, rfl⟩
        obtain ⟨h1, h2⟩ := (mem_greedyStar p cs t2 r2).mp hmem
        refine ⟨by simp [h1], by simp, ?_⟩
        intro d hd
        rcases List.mem_cons.mp hd with rfl | hd
        · exact hc
        · exact h2 d hd
      · rintro ⟨h1, h0, h2⟩
        cases t with
        | nil => exact absurd rfl h0
        | cons a t2 =>
          simp only [List.cons_append, List.cons.injEq] at h1
          obtain ⟨rfl, h1⟩ := h1
          exact ⟨t2, r, (mem_greedyStar p cs t2 r).mpr
            ⟨h1, fun d hd => h2 d (List.mem_cons_of_mem _ hd)⟩, rfl, rfl⟩
    · rw [greedyPlus_of_neg p c cs (by simpa using hc)]
      simp only [List.not_mem_nil, false_iff]
      rintro ⟨h1, h0, h2⟩
      cases t with
      | nil => exact h0 rfl
      | cons a t2 =>
        simp only [List.cons_append, List.cons.injEq] at h1
        obtain ⟨rfl, _⟩ := h1
        exact absurd (h2 a (List.mem_cons_self _ _)) hc

/-- The matches anchored at the head of `s` are exactly the ways to read a
prefix of `s` as identifier, whitespace, operator chars, whitespace, token. -/
theorem mem_matchesHere (s : Str) (m : Str × Str × Str) :
    m ∈ matchesHere s ↔ ∃ w s1 o s2 v post, s = w ++ (s1 ++ (o ++ (s2 ++ (v ++ post))))
      ∧ w ≠ [] ∧ (∀ c ∈ w, isWordChar c = true) ∧ (∀ c ∈ s1, isspace c = true)
      ∧ o ≠ [] ∧ (∀ c ∈ o, isOpChar c = true) ∧ (∀ c ∈ s2, isspace c = true)
      ∧ v ≠ [] ∧ (∀ c ∈ v, isspace c = false) ∧ m = (w, o, v) := by
  have hns : ∀ v : Str, (∀ c ∈ v, isNonSpace c = true) ↔ ∀ c ∈ v, isspace c = false := by
    intro v
    simp [isNonSpace]
  simp only [matchesHere, List.mem_flatMap, List.mem_map, Prod.exists, mem_greedyPlus,
    mem_greedyStar, hns]
  constructor
  · rintro ⟨w, r1, ⟨rfl, hw0, hw⟩, s1, r2, ⟨rfl, hs1⟩, o, r3, ⟨rfl, ho0, ho⟩, s2, r4, ⟨rfl, hs2⟩,
      v, post, ⟨rfl, hv0, hv⟩, rfl⟩
    exact ⟨w, s1, o, s2, v, post, rfl, hw0, hw, hs1, ho0, ho, hs2, hv0, hv, rfl⟩
  · rintro ⟨w, s1, o, s2, v, post, rfl, hw0, hw, hs1, ho0, ho, hs2, hv0, hv, rfl⟩
    exact ⟨w, _, ⟨rfl, hw0, hw⟩, s1, _, ⟨rfl, hs1⟩, o, _, ⟨rfl, ho0, ho⟩, s2, _, ⟨rfl, hs2⟩,
      v, post, ⟨rfl, hv0, hv⟩, rfl⟩

theorem hasComparison_iff (s : Str) :
    HasComparison s ↔ ∃ pre suf, s = pre ++ suf ∧ matchesHere suf ≠ [] := by
  constructor
  · rintro ⟨pre, w, s1, o, s2, v, post, rfl, hw0, hw, hs1, ho0, ho, hs2, hv0, hv⟩
    refine ⟨pre, _, rfl, ?_⟩
    apply List.ne_nil_of_mem
    exact (mem_matchesHere _ (w, o, v)).mpr
      ⟨w, s1, o, s2, v, post, rfl, hw0, hw, hs1, ho0, ho, hs2, hv0, hv, rfl⟩
  · rintro ⟨pre, suf, rfl, hne⟩
    obtain ⟨m, hm⟩ := List.exists_mem_of_ne_nil _ hne
    obtain ⟨w, s1, o, s2, v, post, rfl, hw0, hw, hs1, ho0, ho, hs2, hv0, hv, _⟩ :=
      (mem_matchesHere _ m).mp hm
    exact ⟨pre, w, s1, o, s2, v, post, rfl, hw0, hw, hs1, ho0, ho, hs2, hv0, hv⟩

/-- `std::regex_search` finds nothing exactly when the string contains no
occurrence of the form identifier, operator, token. -/
theorem regexSearch_eq_none_iff (s : Str) : regexSearch s = none ↔ ¬ HasComparison s := by
  rw [hasComparison_iff]
  induction s with
  | nil =>
    simp only [regexSearch, true_iff, not_exists, not_and, not_not]
    intro pre suf h
    have : suf = [] := by
      have := congrArg List.length h
      simp at this
      exact List.length_eq_zero.mp (by omega)
    subst this
    rfl
  | cons c cs ih =>
    rw [regexSearch]
    cases hm : matchesHere (c :: cs) with
    | nil =>
      simp only [List.head?_nil, ih]
      constructor
      · rintro h ⟨pre, suf, hsplit, hne⟩
        cases pre with
        | nil =>
          simp only [List.nil_append] at hsplit
          subst hsplit
          exact hne hm
        | cons a pre =>
          simp only [List.cons_append, List.cons.injEq] at hsplit
          exact h ⟨pre, suf, hsplit.2, hne⟩
      · rintro h ⟨pre, suf, hsplit, hne⟩
        exact h ⟨c :: pre, suf, by simp [hsplit], hne⟩
    | cons m ms =>
      simp only [List.head?_cons, reduceCtorEq, false_iff, not_not]
      exact ⟨[], c :: cs, rfl, by simp [hm]⟩

theorem findColumn_eq_none (columns : List Column) (c : Str) (h : ∀ col ∈ columns, col.name ≠ c) :
    findColumn columns c = none := by
  induction columns with
  | nil => rfl
  | cons x xs ih =>
    have hx : ¬ x.name = c := h x (List.mem_cons_self _ _)
    simp [findColumn, hx, ih (fun col hcol => h col (List.mem_cons_of_mem _ hcol))]

theorem removeIf_all_false (pred : Row → Outcome Bool) (kept rows : List Row)
    (h : ∀ r ∈ rows, pred r = .ret false) : removeIf pred kept rows = (kept ++ rows, .ret 0) := by
  induction rows generalizing kept with
  | nil => simp [removeIf]
  | cons x xs ih =>
    rw [removeIf, h x (List.mem_cons_self _ _)]
    simp only
    rw [ih _ (fun r hr => h r (List.mem_cons_of_mem _ hr))]
    simp

theorem updateRows_all_false (columns : List Column) (cond : Str) (updates : List (Nat × Str))
    (done : List Row) (count : Nat) (rows : List Row)
    (h : ∀ r ∈ rows, evaluateCondition r columns cond = .ret false) :
    updateRows columns cond updates done count rows = (done ++ rows, .ret count) := by
  induction rows generalizing done with
  | nil => simp [updateRows]
  | cons x xs ih =>
    rw [updateRows, h x (List.mem_cons_self _ _)]
    simp only
    rw [ih _ (fun r hr => h r (List.mem_cons_of_mem _ hr))]
    simp

theorem selectRows_all_false (columns : List Column) (cond : Str) (printed rows : List Row)
    (h : ∀ r ∈ rows, evaluateCondition r columns cond = .ret false) :
    selectRows columns cond printed rows = .ret printed := by
  induction rows with
  | nil => simp [selectRows]
  | cons x xs ih =>
    rw [selectRows, h x (List.mem_cons_self _ _)]
    simp only
    exact ih (fun r hr => h r (List.mem_cons_of_mem _ hr))

/-- C10: for a non-empty predicate string that contains no occurrence of the
form identifier, operator, token, or whose first occurrence names no column of
the table, `evaluateCondition` returns false on every row and raises nothing;
hence the row loops of SELECT, DELETE and UPDATE match no row: nothing is
printed, nothing removed or moved, nothing updated, and the counts are 0. -/
theorem evaluateCondition_unmatched (columns : List Column) (cond : Str) (hne : cond ≠ [])
    (h : ¬ HasComparison cond
      ∨ ∃ c op value, regexSearch cond = some (c, op, value) ∧ ∀ col ∈ columns, col.name ≠ c) :
    (∀ row, evaluateCondition row columns cond = .ret false)
    ∧ (∀ rows, selectRows columns cond [] rows = .ret [])
    ∧ (∀ rows, removeIf (fun row => evaluateCondition row columns cond) [] rows = (rows, .ret 0))
    ∧ (∀ rows updates, updateRows columns cond updates [] 0 rows = (rows, .ret 0)) := by
  have hall : ∀ row, evaluateCondition row columns cond = .ret false := by
    intro row
    rcases h with h | ⟨c, op, value, hs, hcol⟩
    · exact evaluateCondition_no_match row columns cond hne ((regexSearch_eq_none_iff cond).mpr h)
    · exact evaluateCondition_no_column row columns cond c op value hne hs
        (findColumn_eq_none columns c hcol)
  refine ⟨hall, ?_, ?_, ?_⟩
  · intro rows
    exact selectRows_all_false columns cond [] rows (fun r _ => hall r)
  · intro rows
    have := removeIf_all_false (fun row => evaluateCondition row columns cond) [] rows
      (fun r _ => hall r)
    simpa using this
  · intro rows updates
    have := updateRows_all_false columns cond updates [] 0 rows (fun r _ => hall r)
    simpa using this

/-! ## INSERT: a rejected command -/

/-- C2, at the failing input: on the table `t (a INT)` with `next_id` 1 the
commands `INSERT INTO t VALUES (x)` (type error) and
`INSERT INTO t VALUES (1, 2)` (wrong value count) are rejected and add no row,
yet leave `next_id` at 2. -/
theorem handleInsert_rejected_advances_next_id :
    handleInsert [("t".toList, tableA)] "INSERT INTO t VALUES (x)".toList
      = .ret ([("t".toList, { tableA with next_id := 2 })],
          .valueNotValid "x".toList "a".toList "INT".toList)
    ∧ handleInsert [("t".toList, tableA)] "INSERT INTO t VALUES (1, 2)".toList
      = .ret ([("t".toList, { tableA with next_id := 2 })], .expectedValues 1 2)
    ∧ tableA.next_id = 1 := by
  refine ⟨by decide, by decide, rfl⟩

/-! ## Reaching a table with a half-removed row -/

theorem reachable_threeRows : Reachable threeRows := by
  have h0 := Reachable.create [] "CREATE TABLE t (a INT)".toList Reachable.empty
  have h1 := Reachable.insert _ [("t".toList, { tableA with
      rows := [{ values := ["5".toList], id := 1 }], next_id := 2 })]
    "INSERT INTO t VALUES (5)".toList (.rowInserted "t".toList 1) h0 (by decide)
  have h2 := Reachable.insert _ [("t".toList, { tableA with
      rows := [{ values := ["5".toList], id := 1 }, { values := ["1".toList], id := 2 }],
      next_id := 3 })]
    "INSERT INTO t VALUES (1)".toList (.rowInserted "t".toList 2) h1 (by decide)
  exact Reachable.insert _ threeRows
    "INSERT INTO t VALUES (99999999999)".toList (.rowInserted "t".toList 3) h2 (by decide)

theorem handleDelete_threeRows :
    handleDelete threeRows "DELETE FROM t WHERE a > 3".toList
      = .ret (afterFailedDelete, .errorDelete "stoi".toList) := by
  decide

theorem reachable_afterFailedDelete : Reachable afterFailedDelete :=
  Reachable.delete threeRows afterFailedDelete "DELETE FROM t WHERE a > 3".toList
    (.errorDelete "stoi".toList) reachable_threeRows handleDelete_threeRows

/-- C3, at the failing input: after `CREATE TABLE t (a INT)`, the inserts of
5, 1 and 99999999999 and `DELETE FROM t WHERE a > 3` (which prints an error),
the rows of `t` carry the ids 2, 2, 3: two rows share an id. -/
theorem reachable_duplicate_ids :
    ∃ db t, Reachable db ∧ dbFind db "t".toList = some t
      ∧ t.rows.map Row.id = [2, 2, 3] ∧ ¬ (t.rows.map Row.id).Nodup := by
  refine ⟨afterFailedDelete, _, reachable_afterFailedDelete, rfl, rfl, by decide⟩

/-- C4, at the failing input: in the same reachable store the second row of
`t` has no values while `t` has one column. -/
theorem reachable_row_without_values :
    ∃ db t row, Reachable db ∧ dbFind db "t".toList = some t ∧ row ∈ t.rows
      ∧ row.values.length = 0 ∧ t.columns.length = 1 := by
  refine ⟨afterFailedDelete, _, { values := [], id := 2 }, reachable_afterFailedDelete, rfl,
    by decide, rfl, rfl⟩

/-! ## CREATE TABLE: the columns of the new table -/

theorem parseColumns_names (pieces : List Str) (acc columns : List Column)
    (h : parseColumns pieces acc = .ok columns) :
    columns.map Column.name
      = acc.map Column.name ++ pieces.filterMap fun piece =>
          if trim piece = [] then none else some (IStream.extract { buf := trim piece } []).2 := by
  induction pieces generalizing acc with
  | nil =>
    simp only [parseColumns, Except.ok.injEq] at h
    simp [h]
  | cons piece rest ih =>
    rw [parseColumns] at h
    simp only at h
    split at h
    · rename_i hblank
      rw [ih acc h]
      simp [List.filterMap_cons, hblank]
    · rename_i hblank
      split at h
      · exact absurd h (by simp)
      · split at h
        · exact absurd h (by simp)
        · rw [ih _ h]
          simp [List.filterMap_cons, hblank]

/-- What a successful `handleCreate` did. -/
theorem handleCreate_created (db db2 : Database) (command name : Str)
    (h : handleCreate db command = (db2, .tableCreated name)) :
    ∃ columns, columns ≠ [] ∧ columns.map Column.name = writtenColumnNames command
      ∧ dbFind db name = none
      ∧ db2 = dbSet db name { name := name, columns := columns } := by
  unfold handleCreate at h
  simp only at h
  split at h
  · simp at h
  · split at h
    · simp at h
    · rename_i hfind
      split at h
      · simp at h
      · split at h
        · rename_i msg hparse
          simp only [Prod.mk.injEq] at h
          obtain ⟨_, hmsg⟩ := h
          subst hmsg
          exfalso
          revert hparse
          generalize getlines ',' _ = pieces
          generalize ([] : List Column) = acc
          intro hparse
          induction pieces generalizing acc with
          | nil => simp [parseColumns] at hparse
          | cons piece rest ih =>
            rw [parseColumns] at hparse
            simp only at hparse
            split at hparse
            · exact ih acc hparse
            · split at hparse
              · simp at hparse
              · split at hparse
                · simp at hparse
                · exact ih _ hparse
        · rename_i columns hparse
          split at h
          · simp at h
          · rename_i hcols
            simp only [Prod.mk.injEq, Msg.tableCreated.injEq] at h
            obtain ⟨hdb, hname⟩ := h
            refine ⟨columns, hcols, ?_, ?_, ?_⟩
            · have := parseColumns_names _ _ _ hparse
              simpa [writtenColumnNames] using this
            · rw [← hname]
              simpa using hfind
            · rw [← hdb, ← hname]

theorem dbFind_dbSet_self (db : Database) (k : Str) (t : Table) : dbFind (dbSet db k t) k = some t := by
  induction db with
  | nil => simp [dbSet, dbFind]
  | cons kv db ih =>
    obtain ⟨k0, t0⟩ := kv
    by_cases hk : k0 = k
    · simp [dbSet, dbFind, hk]
    · simp [dbSet, dbFind, hk, ih]

theorem mem_dbSet (db : Database) (k : Str) (t : Table) (kv : Str × Table)
    (h : kv ∈ dbSet db k t) : kv ∈ db ∨ kv.2 = t := by
  induction db with
  | nil =>
    simp only [dbSet, List.mem_singleton] at h
    right
    rw [h]
  | cons kv0 db ih =>
    obtain ⟨k0, t0⟩ := kv0
    by_cases hk : k0 = k
    · simp only [dbSet, hk, if_true, List.mem_cons] at h
      rcases h with h | h
      · right
        rw [h]
      · left
        exact List.mem_cons_of_mem _ h
    · simp only [dbSet, hk, if_false, List.mem_cons] at h
      rcases h with h | h
      · left
        rw [h]
        exact List.mem_cons_self _ _
      · rcases ih h with h2 | h2
        · left
          exact List.mem_cons_of_mem _ h2
        · right
          exact h2

theorem dbFind_mem (db : Database) (k : Str) (t : Table) (h : dbFind db k = some t) :
    (k, t) ∈ db := by
  induction db with
  | nil => simp [dbFind] at h
  | cons kv db ih =>
    obtain ⟨k0, t0⟩ := kv
    by_cases hk : k0 = k
    · simp only [dbFind, hk, if_true, Option.some.injEq] at h
      rw [hk, h]
      exact List.mem_cons_self _ _
    · simp only [dbFind, hk, if_false] at h
      exact List.mem_cons_of_mem _ (ih h)

theorem valuesValid_dbSet (db : Database) (k : Str) (t : Table) (h : ValuesValid db)
    (ht : ∀ row ∈ t.rows, RowValid t.columns row) : ValuesValid (dbSet db k t) := by
  intro kv hkv
  rcases mem_dbSet db k t kv hkv with h1 | h1
  · exact h kv h1
  · rw [h1]
    exact ht

theorem valuesValid_find (db : Database) (k : Str) (t : Table) (h : ValuesValid db)
    (hf : dbFind db k = some t) : ∀ row ∈ t.rows, RowValid t.columns row :=
  h (k, t) (dbFind_mem db k t hf)

theorem handleCreate_db (db : Database) (command : Str) :
    (handleCreate db command).1 = db
      ∨ ∃ name columns, (handleCreate db command).1 = dbSet db name { name := name, columns := columns } := by
  unfold handleCreate
  simp only
  split
  · left; rfl
  · split
    · left; rfl
    · split
      · left; rfl
      · split
        · left; rfl
        · split
          · left; rfl
          · right; exact ⟨_, _, rfl⟩

theorem firstInvalid_none (values : List Str) (columns : List Column)
    (h : firstInvalid values columns = none) (i : Nat) (v : Str) (col : Column)
    (hv : values[i]? = some v) (hc : columns[i]? = some col) : validateDataType v col.type = true := by
  induction values generalizing columns i with
  | nil => simp at hv
  | cons x xs ih =>
    cases columns with
    | nil => simp at hc
    | cons c cs =>
      simp only [firstInvalid] at h
      split at h
      · rename_i hx
        cases i with
        | zero =>
          simp only [List.getElem?_cons_zero, Option.some.injEq] at hv hc
          rw [← hv, ← hc]
          exact hx
        | succ i =>
          exact ih cs h i (by simpa using hv) (by simpa using hc)
      · simp at h

/-- What `handleInsert` does to the store when it returns. -/
theorem handleInsert_db (db db2 : Database) (command : Str) (msg : Msg)
    (h : handleInsert db command = .ret (db2, msg)) :
    db2 = db ∨ ∃ name table, dbFind db name = some table ∧ table.next_id ≠ INT_MAX
      ∧ (db2 = dbSet db name { table with next_id := table.next_id + 1 }
        ∨ ∃ values, values.length = table.columns.length
            ∧ firstInvalid values table.columns = none
            ∧ msg = .rowInserted name table.next_id
            ∧ db2 = dbSet db name { table with
                next_id := table.next_id + 1,
                rows := table.rows ++ [{ values := values, id := table.next_id }] }) := by
  unfold handleInsert at h
  simp only at h
  split at h
  · left
    simp only [Outcome.ret.injEq, Prod.mk.injEq] at h
    exact h.1.symm
  · rename_i table hfind
    split at h
    · left
      simp only [Outcome.ret.injEq, Prod.mk.injEq] at h
      exact h.1.symm
    · split at h
      · simp at h
      · rename_i hmax
        right
        refine ⟨_, table, hfind, hmax, ?_⟩
        split at h
        · left
          simp only [Outcome.ret.injEq, Prod.mk.injEq] at h
          exact h.1.symm
        · rename_i hlen
          split at h
          · left
            simp only [Outcome.ret.injEq, Prod.mk.injEq] at h
            exact h.1.symm
          · rename_i hvalid
            right
            simp only [Outcome.ret.injEq, Prod.mk.injEq] at h
            refine ⟨_, ?_, hvalid, h.2.symm, h.1.symm⟩
            simpa using hlen

theorem handleInsert_valuesValid (db db2 : Database) (command : Str) (msg : Msg)
    (hinv : ValuesValid db) (h : handleInsert db command = .ret (db2, msg)) : ValuesValid db2 := by
  rcases handleInsert_db db db2 command msg h with rfl | ⟨name, table, hfind, _, hcase⟩
  · exact hinv
  · have hrows := valuesValid_find db name table hinv hfind
    rcases hcase with rfl | ⟨values, _, hvalid, _, rfl⟩
    · exact valuesValid_dbSet db name _ hinv hrows
    · apply valuesValid_dbSet db name _ hinv
      intro row hrow
      simp only [List.mem_append, List.mem_singleton] at hrow
      rcases hrow with hrow | rfl
      · exact hrows row hrow
      · intro i v col hv hc
        exact firstInvalid_none values table.columns hvalid i v col hv hc

theorem parseAssignments_valid (columns : List Column) (pieces : List Str)
    (acc updates : List (Nat × Str)) (hacc : UpdatesValid columns acc)
    (h : parseAssignments columns pieces acc = .ok updates) : UpdatesValid columns updates := by
  induction pieces generalizing acc with
  | nil =>
    simp only [parseAssignments, Except.ok.injEq] at h
    rw [← h]
    exact hacc
  | cons piece rest ih =>
    rw [parseAssignments] at h
    simp only at h
    split at h
    · simp at h
    · split at h
      · simp at h
      · rename_i colIndex _
        split at h
        · simp at h
        · rename_i col hcol
          split at h
          · simp at h
          · rename_i hvalid
            apply ih _ _ h
            intro u hu
            simp only [List.mem_append, List.mem_singleton] at hu
            rcases hu with hu | rfl
            · exact hacc u hu
            · exact ⟨col, hcol, by simpa using hvalid⟩

theorem applyUpdates_valid (columns : List Column) (updates : List (Nat × Str))
    (values values2 : List Str) (id id2 : Int) (hu : UpdatesValid columns updates)
    (hv : RowValid columns { values := values, id := id })
    (h : applyUpdates updates values = some values2) :
    RowValid columns { values := values2, id := id2 } := by
  induction updates generalizing values with
  | nil =>
    simp only [applyUpdates, Option.some.injEq] at h
    rw [← h]
    exact hv
  | cons u us ih =>
    obtain ⟨i, v⟩ := u
    simp only [applyUpdates] at h
    split at h
    · rename_i hi
      apply ih (values.set i v) (fun w hw => hu w (List.mem_cons_of_mem _ hw)) _ h
      intro j w col hw hc
      simp only [List.getElem?_set] at hw
      split at hw
      · rename_i hij
        subst hij
        obtain ⟨col2, hc2, hval⟩ := hu (i, v) (List.mem_cons_self _ _)
        simp only [hi, if_true, Option.some.injEq] at hw
        simp only at hc2
        rw [hc2] at hc
        simp only [Option.some.injEq] at hc
        rw [← hw, ← hc]
        exact hval
      · exact hv j w col hw hc
    · simp at h

theorem updateRows_valid (columns : List Column) (condition : Str) (updates : List (Nat × Str))
    (done : List Row) (count : Nat) (rows : List Row) (hu : UpdatesValid columns updates)
    (hdone : ∀ r ∈ done, RowValid columns r) (hrows : ∀ r ∈ rows, RowValid columns r) :
    ∀ r ∈ (updateRows columns condition updates done count rows).1, RowValid columns r := by
  induction rows generalizing done count with
  | nil => simpa [updateRows] using hdone
  | cons row rest ih =>
    have hrest : ∀ r ∈ rest, RowValid columns r := fun r hr => hrows r (List.mem_cons_of_mem _ hr)
    have hrow : RowValid columns row := hrows row (List.mem_cons_self _ _)
    have hall : ∀ r ∈ done ++ row :: rest, RowValid columns r := by
      intro r hr
      rcases List.mem_append.mp hr with h1 | h1
      · exact hdone r h1
      · exact hrows r h1
    rw [updateRows]
    split
    · split
      · rename_i values happly
        apply ih _ _ _ hrest
        intro r hr
        simp only [List.mem_append, List.mem_singleton] at hr
        rcases hr with hr | rfl
        · exact hdone r hr
        · exact applyUpdates_valid columns updates row.values values row.id row.id hu hrow happly
      · exact hall
    · apply ih _ _ _ hrest
      intro r hr
      simp only [List.mem_append, List.mem_singleton] at hr
      rcases hr with hr | rfl
      · exact hdone r hr
      · exact hrow
    · exact hall
    · exact hall

/-- What `handleUpdate` does to the store when it returns. -/
theorem handleUpdate_db (db db2 : Database) (command : Str) (msg : Msg)
    (h : handleUpdate db command = .ret (db2, msg)) :
    db2 = db ∨ ∃ name table pieces updates condition, dbFind db name = some table
      ∧ parseAssignments table.columns pieces [] = .ok updates
      ∧ db2 = dbSet db name { table with
          rows := (updateRows table.columns condition updates [] 0 table.rows).1 } := by
  unfold handleUpdate at h
  simp only at h
  split at h
  · left
    simp only [Outcome.ret.injEq, Prod.mk.injEq] at h
    exact h.1.symm
  · rename_i table hfind
    split at h
    · left
      simp only [Outcome.ret.injEq, Prod.mk.injEq] at h
      exact h.1.symm
    · rename_i updates hparse
      split at h
      · left
        simp only [Outcome.ret.injEq, Prod.mk.injEq] at h
        exact h.1.symm
      · right
        split at h
        · rename_i rows n hrun
          have key := congrArg Prod.fst hrun
          simp only [Outcome.ret.injEq, Prod.mk.injEq] at h key
          rw [← key] at h
          exact ⟨_, table, _, updates, _, hfind, hparse, h.1.symm⟩
        · rename_i rows w hrun
          have key := congrArg Prod.fst hrun
          simp only [Outcome.ret.injEq, Prod.mk.injEq] at h key
          rw [← key] at h
          exact ⟨_, table, _, updates, _, hfind, hparse, h.1.symm⟩
        · simp at h

theorem handleUpdate_valuesValid (db db2 : Database) (command : Str) (msg : Msg)
    (hinv : ValuesValid db) (h : handleUpdate db command = .ret (db2, msg)) : ValuesValid db2 := by
  rcases handleUpdate_db db db2 command msg h with rfl | ⟨name, table, pieces, updates, cond,
    hfind, hparse, rfl⟩
  · exact hinv
  · have hrows := valuesValid_find db name table hinv hfind
    have hu := parseAssignments_valid table.columns pieces [] updates (by intro u hu; simp at hu) hparse
    apply valuesValid_dbSet db name _ hinv
    exact updateRows_valid table.columns cond updates [] 0 table.rows hu (by simp) hrows

theorem removeShift_mem (pred : Row → Outcome Bool) (kept gap rows : List Row) (r : Row)
    (h : r ∈ (removeShift pred kept gap rows).1) :
    r ∈ kept ∨ r ∈ gap ∨ r ∈ rows ∨ ∃ r0 ∈ rows, r = movedFrom r0 := by
  induction rows generalizing kept gap with
  | nil =>
    simp only [removeShift, List.mem_append] at h
    rcases h with h | h
    · exact Or.inl h
    · exact Or.inr (Or.inl h)
  | cons x rest ih =>
    rw [removeShift] at h
    split at h
    · rcases ih _ _ h with h1 | h1 | h1 | ⟨r0, h1, h2⟩
      · exact Or.inl h1
      · simp only [List.mem_append, List.mem_singleton] at h1
        rcases h1 with h1 | rfl
        · exact Or.inr (Or.inl h1)
        · exact Or.inr (Or.inr (Or.inl (List.mem_cons_self _ _)))
      · exact Or.inr (Or.inr (Or.inl (List.mem_cons_of_mem _ h1)))
      · exact Or.inr (Or.inr (Or.inr ⟨r0, List.mem_cons_of_mem _ h1, h2⟩))
    · rcases ih _ _ h with h1 | h1 | h1 | ⟨r0, h1, h2⟩
      · simp only [List.mem_append, List.mem_singleton] at h1
        rcases h1 with h1 | rfl
        · exact Or.inl h1
        · exact Or.inr (Or.inr (Or.inl (List.mem_cons_self _ _)))
      · simp only [List.mem_append, List.mem_singleton] at h1
        rcases h1 with h1 | rfl
        · exact Or.inr (Or.inl (List.mem_of_mem_tail h1))
        · exact Or.inr (Or.inr (Or.inr ⟨x, List.mem_cons_self _ _, rfl⟩))
      · exact Or.inr (Or.inr (Or.inl (List.mem_cons_of_mem _ h1)))
      · exact Or.inr (Or.inr (Or.inr ⟨r0, List.mem_cons_of_mem _ h1, h2⟩))
    · simp only [List.mem_append] at h
      rcases h with (h | h) | h
      · exact Or.inl h
      · exact Or.inr (Or.inl h)
      · exact Or.inr (Or.inr (Or.inl h))
    · simp only [List.mem_append] at h
      rcases h with (h | h) | h
      · exact Or.inl h
      · exact Or.inr (Or.inl h)
      · exact Or.inr (Or.inr (Or.inl h))

theorem removeIf_mem (pred : Row → Outcome Bool) (kept rows : List Row) (r : Row)
    (h : r ∈ (removeIf pred kept rows).1) :
    r ∈ kept ∨ r ∈ rows ∨ ∃ r0 ∈ rows, r = movedFrom r0 := by
  induction rows generalizing kept with
  | nil =>
    simp only [removeIf] at h
    exact Or.inl h
  | cons x rest ih =>
    rw [removeIf] at h
    split at h
    · rcases removeShift_mem pred kept [x] rest r h with h1 | h1 | h1 | ⟨r0, h1, h2⟩
      · exact Or.inl h1
      · simp only [List.mem_singleton] at h1
        subst h1
        exact Or.inr (Or.inl (List.mem_cons_self _ _))
      · exact Or.inr (Or.inl (List.mem_cons_of_mem _ h1))
      · exact Or.inr (Or.inr ⟨r0, List.mem_cons_of_mem _ h1, h2⟩)
    · rcases ih _ h with h1 | h1 | ⟨r0, h1, h2⟩
      · simp only [List.mem_append, List.mem_singleton] at h1
        rcases h1 with h1 | rfl
        · exact Or.inl h1
        · exact Or.inr (Or.inl (List.mem_cons_self _ _))
      · exact Or.inr (Or.inl (List.mem_cons_of_mem _ h1))
      · exact Or.inr (Or.inr ⟨r0, List.mem_cons_of_mem _ h1, h2⟩)
    · simp only [List.mem_append] at h
      rcases h with h | h
      · exact Or.inl h
      · exact Or.inr (Or.inl h)
    · simp only [List.mem_append] at h
      rcases h with h | h
      · exact Or.inl h
      · exact Or.inr (Or.inl h)

/-- What `handleDelete` does to the store when it returns: the rows left in
the table are rows it had, or moved-from copies of them. -/
theorem handleDelete_db (db db2 : Database) (command : Str) (msg : Msg)
    (h : handleDelete db command = .ret (db2, msg)) :
    db2 = db ∨ ∃ name table rows, dbFind db name = some table
      ∧ db2 = dbSet db name { table with rows := rows }
      ∧ ∀ r ∈ rows, r ∈ table.rows ∨ ∃ r0 ∈ table.rows, r = movedFrom r0 := by
  unfold handleDelete at h
  simp only at h
  split at h
  · left
    simp only [Outcome.ret.injEq, Prod.mk.injEq] at h
    exact h.1.symm
  · rename_i table hfind
    right
    split at h
    · simp only [Outcome.ret.injEq, Prod.mk.injEq] at h
      exact ⟨_, table, [], hfind, h.1.symm, by simp⟩
    · split at h
      · rename_i rows n hrun
        simp only [Outcome.ret.injEq, Prod.mk.injEq] at h
        refine ⟨_, table, _, hfind, h.1.symm, ?_⟩
        intro r hr
        have key : (removeIf _ [] table.rows).1 = rows := congrArg Prod.fst hrun
        have hr2 := List.mem_of_mem_take hr
        rw [← key] at hr2
        rcases removeIf_mem _ _ _ r hr2 with h1 | h1 | h1
        · simp at h1
        · exact Or.inl h1
        · exact Or.inr h1
      · rename_i rows w hrun
        simp only [Outcome.ret.injEq, Prod.mk.injEq] at h
        refine ⟨_, table, _, hfind, h.1.symm, ?_⟩
        intro r hr
        have key : (removeIf _ [] table.rows).1 = rows := congrArg Prod.fst hrun
        have hr2 := hr
        rw [← key] at hr2
        rcases removeIf_mem _ _ _ r hr2 with h1 | h1 | h1
        · simp at h1
        · exact Or.inl h1
        · exact Or.inr h1
      · simp at h

theorem handleDelete_valuesValid (db db2 : Database) (command : Str) (msg : Msg)
    (hinv : ValuesValid db) (h : handleDelete db command = .ret (db2, msg)) : ValuesValid db2 := by
  rcases handleDelete_db db db2 command msg h with rfl | ⟨name, table, rows, hfind, rfl, hmem⟩
  · exact hinv
  · have hrows := valuesValid_find db name table hinv hfind
    apply valuesValid_dbSet db name _ hinv
    intro row hrow
    rcases hmem row hrow with h1 | ⟨r0, _, rfl⟩
    · exact hrows row h1
    · intro i v col hv _
      simp [movedFrom] at hv

theorem reachable_valuesValid (db : Database) (h : Reachable db) : ValuesValid db := by
  induction h with
  | empty =>
    intro kv hkv
    simp at hkv
  | create db command _ ih =>
    rcases handleCreate_db db command with h1 | ⟨name, columns, h1⟩
    · rw [h1]
      exact ih
    · rw [h1]
      apply valuesValid_dbSet db name _ ih
      intro row hrow
      simp at hrow
  | insert db db2 command msg _ hstep ih => exact handleInsert_valuesValid db db2 command msg ih hstep
  | update db db2 command msg _ hstep ih => exact handleUpdate_valuesValid db db2 command msg ih hstep
  | delete db db2 command msg _ hstep ih => exact handleDelete_valuesValid db db2 command msg ih hstep

/-- C5: in every store reachable from the empty one by CREATE TABLE, INSERT,
UPDATE and DELETE commands, every value a row stores at a column position
passes `validateDataType` for that column's type; a value stored in an INT
column is a non-empty all-digit string. -/
theorem reachable_values_validate (db : Database) (h : Reachable db) (key : Str) (t : Table)
    (ht : (key, t) ∈ db) (row : Row) (hrow : row ∈ t.rows) (i : Nat) (v : Str) (col : Column)
    (hv : row.values[i]? = some v) (hc : t.columns[i]? = some col) :
    validateDataType v col.type = true
      ∧ (col.type = "INT".toList → v ≠ [] ∧ ∀ c ∈ v, '0' ≤ c ∧ c ≤ '9') := by
  have hvalid := reachable_valuesValid db h (key, t) ht row hrow i v col hv hc
  refine ⟨hvalid, ?_⟩
  intro hint
  rw [hint] at hvalid
  exact (validateDataType_int_iff v).mp hvalid

/-! ## Every reachable store holds each table under its own name -/

theorem mem_dbSet_pair (db : Database) (k : Str) (t : Table) (kv : Str × Table)
    (h : kv ∈ dbSet db k t) : kv ∈ db ∨ kv = (k, t) := by
  induction db with
  | nil =>
    simp only [dbSet, List.mem_singleton] at h
    exact Or.inr h
  | cons kv0 db ih =>
    obtain ⟨k0, t0⟩ := kv0
    by_cases hk : k0 = k
    · simp only [dbSet, hk, if_true, List.mem_cons] at h
      rcases h with h | h
      · exact Or.inr h
      · exact Or.inl (List.mem_cons_of_mem _ h)
    · simp only [dbSet, hk, if_false, List.mem_cons] at h
      rcases h with h | h
      · left
        rw [h]
        exact List.mem_cons_self _ _
      · rcases ih h with h2 | h2
        · exact Or.inl (List.mem_cons_of_mem _ h2)
        · exact Or.inr h2

theorem keys_dbSet (db : Database) (k : Str) (t : Table) :
    (dbSet db k t).map Prod.fst
      = if k ∈ db.map Prod.fst then db.map Prod.fst else db.map Prod.fst ++ [k] := by
  induction db with
  | nil => simp [dbSet]
  | cons kv db ih =>
    obtain ⟨k0, t0⟩ := kv
    by_cases hk : k0 = k
    · subst hk
      simp only [dbSet, if_true, List.map_cons, List.mem_cons, true_or]
    · have hk2 : ¬ k = k0 := fun e => hk e.symm
      simp only [dbSet, hk, if_false, List.map_cons, ih, List.mem_cons, hk2, false_or]
      split
      · rfl
      · rfl

theorem keyed_dbSet (db : Database) (k : Str) (t : Table) (h : Keyed db) (hk : k = t.name) :
    Keyed (dbSet db k t) := by
  obtain ⟨hnd, hname⟩ := h
  constructor
  · rw [keys_dbSet]
    split
    · exact hnd
    · rename_i hnot
      rw [List.nodup_append]
      refine ⟨hnd, List.nodup_singleton k, ?_⟩
      intro x hx hx2
      simp only [List.mem_singleton] at hx2
      subst hx2
      exact hnot hx
  · intro kv hkv
    rcases mem_dbSet_pair db k t kv hkv with h1 | h1
    · exact hname kv h1
    · rw [h1]
      exact hk

theorem keyed_find (db : Database) (k : Str) (t : Table) (h : Keyed db)
    (hf : dbFind db k = some t) : k = t.name :=
  h.2 (k, t) (dbFind_mem db k t hf)

/-- The stores the four handlers reach keep the keys distinct and each table
under its own name. -/
theorem reachable_keyed (db : Database) (h : Reachable db) : Keyed db := by
  induction h with
  | empty => exact ⟨List.nodup_nil, by simp⟩
  | create db command _ ih =>
    rcases handleCreate_db db command with h1 | ⟨name, columns, h1⟩
    · rw [h1]
      exact ih
    · rw [h1]
      exact keyed_dbSet db name _ ih rfl
  | insert db db2 command msg _ hstep ih =>
    rcases handleInsert_db db db2 command msg hstep with rfl | ⟨name, table, hfind, _, hcase⟩
    · exact ih
    · have hk := keyed_find db name table ih hfind
      rcases hcase with rfl | ⟨values, _, _, _, rfl⟩
      · exact keyed_dbSet db name _ ih hk
      · exact keyed_dbSet db name _ ih hk
  | update db db2 command msg _ hstep ih =>
    rcases handleUpdate_db db db2 command msg hstep with rfl | ⟨name, table, _, _, _, hfind, _, rfl⟩
    · exact ih
    · exact keyed_dbSet db name _ ih (keyed_find db name table ih hfind)
  | delete db db2 command msg _ hstep ih =>
    rcases handleDelete_db db db2 command msg hstep with rfl | ⟨name, table, rows, hfind, rfl, _⟩
    · exact ih
    · exact keyed_dbSet db name _ ih (keyed_find db name table ih hfind)

/-! ## Instances of the theorems on concrete inputs -/

theorem storeOk_usersStore : StoreOk usersStore := by
  simp only [StoreOk, Table.Representable, Row.Representable, Column.Representable, fitsSize,
    fitsInt, INT_MIN, INT_MAX]
  decide

theorem save_load_roundtrip_witness :
    StoreOk usersStore
    ∧ ∃ S2, loadBytes [("t".toList, tableA)] (saveBytes usersStore) = some S2
      ∧ (∀ name, dbFind S2 name = dbFind usersStore name)
      ∧ (S2.map Prod.fst).Nodup ∧ S2.length = usersStore.length :=
  ⟨storeOk_usersStore, save_load_roundtrip usersStore [("t".toList, tableA)] storeOk_usersStore⟩

theorem reachable_values_validate_witness :
    validateDataType "5".toList "INT".toList = true
      ∧ ("INT".toList = "INT".toList → "5".toList ≠ [] ∧ ∀ c ∈ "5".toList, '0' ≤ c ∧ c ≤ '9') :=
  reachable_values_validate threeRows reachable_threeRows "t".toList
    { tableA with
      rows := [{ values := ["5".toList], id := 1 }, { values := ["1".toList], id := 2 },
        { values := ["99999999999".toList], id := 3 }],
      next_id := 4 }
    (by decide) { values := ["5".toList], id := 1 } (by decide) 0 "5".toList
    { name := "a".toList, type := "INT".toList } (by decide) (by decide)

theorem evaluateCondition_unmatched_witness :
    (∀ row, evaluateCondition row tableA.columns "zzz = 1".toList = .ret false)
    ∧ (∀ rows, selectRows tableA.columns "zzz = 1".toList [] rows = .ret [])
    ∧ (∀ rows, removeIf (fun row => evaluateCondition row tableA.columns "zzz = 1".toList) [] rows
        = (rows, .ret 0))
    ∧ (∀ rows updates, updateRows tableA.columns "zzz = 1".toList updates [] 0 rows
        = (rows, .ret 0)) :=
  evaluateCondition_unmatched tableA.columns "zzz = 1".toList (by decide)
    (Or.inr ⟨"zzz".toList, "=".toList, "1".toList, by decide, by decide⟩)

/-! ## Only the first comparison of a WHERE string is used -/

theorem evaluateCondition_congr (row : Row) (columns : List Column) (cond1 cond2 : Str)
    (h1 : cond1 ≠ []) (h2 : cond2 ≠ []) (hs : regexSearch cond1 = regexSearch cond2) :
    evaluateCondition row columns cond1 = evaluateCondition row columns cond2 := by
  simp only [evaluateCondition, h1, h2, if_false, hs]

/-- C11: for a predicate `c op lit` with a non-empty whitespace-free literal,
whitespace `ws` and any string `R`, `evaluateCondition` gives on
`c op lit ws R` the result it gives on `c op lit`, for every row and every
column list, exceptions included: what follows the first comparison is
ignored (`a=1 AND b=2` is true on a row with `a` = 1 and `b` = 3). -/
theorem evaluateCondition_ignores_rest (row : Row) (columns : List Column)
    (c ws1 op ws2 b ws R : Str) (hform : PredicateForm c ws1 op ws2 b) (hb : b ≠ [])
    (hws : ws ≠ []) (hsp : ∀ ch ∈ ws, isspace ch = true) :
    evaluateCondition row columns (c ++ (ws1 ++ (op ++ (ws2 ++ (b ++ (ws ++ R))))))
        = evaluateCondition row columns (c ++ (ws1 ++ (op ++ (ws2 ++ b))))
    ∧ evaluateCondition { values := ["1".toList, "3".toList], id := 1 } columnsAB
        "a=1 AND b=2".toList = .ret true
    ∧ evaluateCondition { values := ["1".toList, "3".toList], id := 1 } columnsAB
        "b=2".toList = .ret false := by
  refine ⟨?_, by decide, by decide⟩
  have hpost : (ws ++ R).takeWhile isNonSpace = [] :=
    takeWhile_append_nil _ _ _ (fun ch hch => by simp [isNonSpace, hsp ch hch])
      (fun e => absurd e hws)
  have h1 := regexSearch_form c ws1 op ws2 b (ws ++ R) hform hb hpost
  have h2 := regexSearch_form c ws1 op ws2 b [] hform hb rfl
  simp only [List.append_nil] at h2
  exact evaluateCondition_congr row columns _ _ (form_ne_nil _ _ hform.name_ne)
    (form_ne_nil _ _ hform.name_ne) (h1.trans h2.symm)

theorem evaluateCondition_ignores_rest_witness :
    evaluateCondition { values := ["1".toList, "3".toList], id := 1 } columnsAB
        ("a".toList ++ ([] ++ ("=".toList ++ ([] ++ ("1".toList ++ (" ".toList ++ "AND b=2".toList))))))
        = evaluateCondition { values := ["1".toList, "3".toList], id := 1 } columnsAB
            ("a".toList ++ ([] ++ ("=".toList ++ ([] ++ "1".toList))))
    ∧ evaluateCondition { values := ["1".toList, "3".toList], id := 1 } columnsAB
        "a=1 AND b=2".toList = .ret true
    ∧ evaluateCondition { values := ["1".toList, "3".toList], id := 1 } columnsAB
        "b=2".toList = .ret false :=
  evaluateCondition_ignores_rest { values := ["1".toList, "3".toList], id := 1 } columnsAB
    "a".toList [] "=".toList [] "1".toList " ".toList "AND b=2".toList
    ⟨by decide, by decide, by decide, by decide, by decide, by decide, by decide,
      Or.inr (by decide)⟩
    (by decide) (by decide) (by decide)

/-! ## UPDATE: validation of the SET clause -/

theorem handleUpdate_eq (db : Database) (command : Str) :
    handleUpdate db command
      = match dbFind db (updateTableName command) with
        | none => .ret (db, .tableNotFound (updateTableName command))
        | some table =>
          match parseAssignments table.columns (updateAssignments command) [] with
          | .error msg => .ret (db, msg)
          | .ok updates =>
            if updates = [] then .ret (db, .noValidUpdates)
            else
              match updateRows table.columns (updateCondition command) updates [] 0 table.rows with
              | (rows, .ret updatedCount) =>
                .ret (dbSet db (updateTableName command) { table with rows := rows },
                  .rowsUpdated updatedCount (updateTableName command))
              | (rows, .raise w) =>
                .ret (dbSet db (updateTableName command) { table with rows := rows }, .errorUpdate w)
              | (_, .undefined) => .undefined := by
  rfl

theorem findColumn_some (columns : List Column) (c : Str) (i : Nat)
    (h : findColumn columns c = some i) : ∃ col, columns[i]? = some col ∧ col.name = c := by
  induction columns generalizing i with
  | nil => simp [findColumn] at h
  | cons x xs ih =>
    simp only [findColumn] at h
    split at h
    · rename_i hx
      simp only [Option.some.injEq] at h
      subst h
      exact ⟨x, by simp, hx⟩
    · cases hf : findColumn xs c with
      | none => simp [hf] at h
      | some k =>
        simp only [hf, Option.map_some', Option.some.injEq] at h
        subst h
        obtain ⟨col, hcol, hname⟩ := ih k hf
        exact ⟨col, by simpa using hcol, hname⟩

theorem parseAssignments_cons (columns : List Column) (assignment : Str) (rest : List Str)
    (acc : List (Nat × Str)) :
    parseAssignments columns (assignment :: rest) acc
      = if '=' ∉ trim assignment then .error .invalidSetClause
        else
          match findColumn columns (assignmentColumn assignment) with
          | none => .error (.columnNotFound (assignmentColumn assignment))
          | some colIndex =>
            match columns[colIndex]? with
            | none => .error (.columnNotFound (assignmentColumn assignment))
            | some col =>
              if !validateDataType (assignmentValue assignment) col.type then
                .error (.valueNotValid (assignmentValue assignment) (assignmentColumn assignment)
                  col.type)
              else parseAssignments columns rest (acc ++ [(colIndex, assignmentValue assignment)]) := by
  rw [parseAssignments]
  rfl

/-- One rejected assignment anywhere in the list makes the whole parse fail. -/
theorem parseAssignments_rejected (columns : List Column) (pieces : List Str)
    (acc : List (Nat × Str)) (h : ∃ a ∈ pieces, AssignmentRejected columns a) :
    ∃ msg, parseAssignments columns pieces acc = .error msg
      ∧ (msg = .invalidSetClause ∨ (∃ c, msg = .columnNotFound c)
          ∨ ∃ v c t, msg = .valueNotValid v c t) := by
  induction pieces generalizing acc with
  | nil =>
    obtain ⟨a, ha, _⟩ := h
    simp at ha
  | cons piece rest ih =>
    rw [parseAssignments_cons]
    split
    · exact ⟨_, rfl, Or.inl rfl⟩
    · rename_i heq
      split
      · exact ⟨_, rfl, Or.inr (Or.inl ⟨_, rfl⟩)⟩
      · rename_i colIndex hfind
        split
        · exact ⟨_, rfl, Or.inr (Or.inl ⟨_, rfl⟩)⟩
        · rename_i col hcol
          split
          · exact ⟨_, rfl, Or.inr (Or.inr ⟨_, _, _, rfl⟩)⟩
          · rename_i hvalid
            apply ih
            obtain ⟨a, ha, hrej⟩ := h
            rcases List.mem_cons.mp ha with rfl | ha
            · exfalso
              rcases hrej with h1 | h1 | ⟨i, col2, hcol2, hname2, hfirst2, hbad⟩
              · exact heq h1
              · obtain ⟨col3, hcol3, hname3⟩ := findColumn_some _ _ _ hfind
                exact h1 col3 (List.getElem?_mem hcol3) hname3
              · have := findColumn_first columns _ i col2 hcol2 hname2 hfirst2
                rw [hfind] at this
                simp only [Option.some.injEq] at this
                subst this
                rw [hcol] at hcol2
                simp only [Option.some.injEq] at hcol2
                subst hcol2
                rw [hbad] at hvalid
                exact hvalid rfl
            · exact ⟨a, ha, hrej⟩

/-- When the table exists and one of the pieces the handler cuts the SET
clause into is rejected, the command is rejected with the matching message
and the store is unchanged. -/
theorem handleUpdate_rejected_pieces (db : Database) (command : Str) (table : Table)
    (hfind : dbFind db (updateTableName command) = some table)
    (hbad : ∃ a ∈ updateAssignments command, AssignmentRejected table.columns a) :
    ∃ msg, handleUpdate db command = .ret (db, msg)
      ∧ (msg = .invalidSetClause ∨ (∃ c, msg = .columnNotFound c)
          ∨ ∃ v c t, msg = .valueNotValid v c t) := by
  obtain ⟨msg, hparse, hmsg⟩ := parseAssignments_rejected table.columns _ [] hbad
  refine ⟨msg, ?_, hmsg⟩
  rw [handleUpdate_eq, hfind]
  simp only [hparse]

/-! ## UPDATE: a command that succeeds -/

theorem dbFind_dbSet_ne (db : Database) (k key : Str) (t : Table) (h : key ≠ k) :
    dbFind (dbSet db k t) key = dbFind db key := by
  induction db with
  | nil =>
    have hk : ¬ k = key := fun e => h e.symm
    simp [dbSet, dbFind, hk]
  | cons kv db ih =>
    obtain ⟨k0, t0⟩ := kv
    by_cases hk : k0 = k
    · subst hk
      have hk2 : ¬ k0 = key := fun e => h e.symm
      simp only [dbSet, if_true, dbFind, hk2, if_false]
    · by_cases hk3 : k0 = key
      · subst hk3
        simp only [dbSet, hk, if_false, dbFind, if_true]
      · simp only [dbSet, hk, if_false, dbFind, hk3, ih]

theorem handleUpdate_success_example :
    handleUpdate usersStore "UPDATE users SET name=\"Bob\" WHERE id=1".toList
      = .ret ([("users".toList, { name := "users".toList, columns := usersColumns, rows := [{ values := ["1".toList, "Bob".toList], id := 1 }], next_id := 2 })],
          .rowsUpdated 1 "users".toList) := by
  decide

/-! ## An exception of the predicate during the row scan -/

/-- C14, at the failing input: on the table `t (a INT)` with the rows 5, 1,
99999999999 the command `UPDATE t SET a=0 WHERE a > 3` reports the error
`stoi` raised on the third row, and the first row stays updated to 0: the
store is not the one before the command. -/
theorem handleUpdate_error_keeps_partial_update :
    handleUpdate threeRows "UPDATE t SET a=0 WHERE a > 3".toList
      = .ret (afterFailedUpdate, .errorUpdate "stoi".toList)
    ∧ afterFailedUpdate ≠ threeRows := by
  refine ⟨by decide, by decide⟩

/-- C15, at the failing input: on `users` with the rows `(1, Alice)` and
`(2, Carol)`, `UPDATE users SET name="Bob" WHERE id=1` updates one row to
`Bob`, while the same command with `where` in lower case finds no WHERE and
writes the text `"Bob" where id=1` into the name of both rows. -/
theorem handleUpdate_lowercase_where :
    handleUpdate twoUsers "UPDATE users SET name=\"Bob\" WHERE id=1".toList
      = .ret ([("users".toList, { name := "users".toList, columns := usersColumns, rows := twoUsersBob, next_id := 3 })],
          .rowsUpdated 1 "users".toList)
    ∧ handleUpdate twoUsers "UPDATE users SET name=\"Bob\" where id=1".toList
      = .ret ([("users".toList, { name := "users".toList, columns := usersColumns, rows := twoUsersOverwritten, next_id := 3 })],
          .rowsUpdated 2 "users".toList)
    ∧ twoUsersBob ≠ twoUsersOverwritten := by
  refine ⟨by decide, by decide, by decide⟩

/-- C16, at the failing input: on the table `t (a INT)` with the rows 5, 1,
99999999999 the command `DELETE FROM t WHERE a > 3` reports the error `stoi`
and no count; the rows left are the row with id 2, a row with id 2 and no
values, and the row with id 3, not the one row (id 2, value 1) for which the
predicate is false. -/
theorem handleDelete_error_leaves_shifted_rows :
    handleDelete threeRows "DELETE FROM t WHERE a > 3".toList
      = .ret (afterFailedDelete, .errorDelete "stoi".toList)
    ∧ (∃ t, dbFind afterFailedDelete "t".toList = some t
        ∧ t.rows = [{ values := ["1".toList], id := 2 }, { values := [], id := 2 },
            { values := ["99999999999".toList], id := 3 }])
    ∧ evaluateCondition { values := ["5".toList], id := 1 } tableA.columns "a > 3".toList
        = .ret true
    ∧ evaluateCondition { values := ["1".toList], id := 2 } tableA.columns "a > 3".toList
        = .ret false
    ∧ evaluateCondition { values := ["99999999999".toList], id := 3 } tableA.columns
        "a > 3".toList = .raise "stoi".toList := by
  refine ⟨by decide, ⟨_, rfl, rfl⟩, by decide, by decide, by decide⟩

theorem reachable_bigFirst : Reachable bigFirst := by
  have h0 := Reachable.create [] "CREATE TABLE t (a INT)".toList Reachable.empty
  have h1 := Reachable.insert _ [("t".toList, { tableA with rows := [{ values := ["99999999999".toList], id := 1 }], next_id := 2 })]
    "INSERT INTO t VALUES (99999999999)".toList (.rowInserted "t".toList 1) h0 (by decide)
  exact Reachable.insert _ bigFirst
    "INSERT INTO t VALUES (5)".toList (.rowInserted "t".toList 2) h1 (by decide)

/-- C20, at the failing input: on the table `t (a INT)` with the rows
99999999999 and 5 the command `SELECT * FROM t WHERE a > 3` reports the error
`stoi` raised on the first row: nothing is printed and no count is reported,
although the predicate is true for the second row (the store is unchanged). -/
theorem handleSelect_error_reports_no_count :
    handleSelect bigFirst "SELECT * FROM t WHERE a > 3".toList
      = .ret (bigFirst, .errorSelect "stoi".toList)
    ∧ selectScan tableA.columns "a > 3".toList []
        [{ values := ["99999999999".toList], id := 1 }, { values := ["5".toList], id := 2 }]
      = ([], .raise "stoi".toList)
    ∧ evaluateCondition { values := ["5".toList], id := 2 } tableA.columns "a > 3".toList
      = .ret true := by
  refine ⟨by decide, by decide, by decide⟩

/-! ## INSERT: a command that succeeds -/

/-- What `handleInsert` did when it reports an inserted row. -/
theorem handleInsert_inserted (db db2 : Database) (command name : Str) (id : Int)
    (h : handleInsert db command = .ret (db2, .rowInserted name id)) :
    ∃ table values, dbFind db name = some table ∧ id = table.next_id
      ∧ table.next_id ≠ INT_MAX
      ∧ values.length = table.columns.length ∧ firstInvalid values table.columns = none
      ∧ db2 = dbSet db name { table with
          next_id := table.next_id + 1,
          rows := table.rows ++ [{ values := values, id := table.next_id }] } := by
  unfold handleInsert at h
  simp only at h
  split at h
  · simp at h
  · rename_i table hfind
    split at h
    · simp at h
    · split at h
      · simp at h
      · rename_i hmax
        split at h
        · simp at h
        · rename_i hlen
          split at h
          · simp at h
          · rename_i hvalid
            simp only [Outcome.ret.injEq, Prod.mk.injEq, Msg.rowInserted.injEq] at h
            obtain ⟨hdb, hname, hid⟩ := h
            refine ⟨table, _, by rw [← hname]; exact hfind, hid.symm, hmax, ?_, hvalid, ?_⟩
            · simpa using hlen
            · rw [← hdb, ← hname]

/-! ## CREATE TABLE: failures and the created table -/

theorem parseColumns_types (pieces : List Str) (acc columns : List Column)
    (hacc : ∀ c ∈ acc, c.type = "INT".toList ∨ c.type = "TEXT".toList)
    (h : parseColumns pieces acc = .ok columns) :
    ∀ c ∈ columns, c.type = "INT".toList ∨ c.type = "TEXT".toList := by
  induction pieces generalizing acc with
  | nil =>
    simp only [parseColumns, Except.ok.injEq] at h
    rw [← h]
    exact hacc
  | cons piece rest ih =>
    rw [parseColumns] at h
    simp only at h
    split at h
    · exact ih acc hacc h
    · split at h
      · simp at h
      · split at h
        · simp at h
        · rename_i htype
          apply ih _ _ h
          intro c hc
          simp only [List.mem_append, List.mem_singleton] at hc
          rcases hc with hc | rfl
          · exact hacc c hc
          · simp only [ne_eq, not_and_or, not_not] at htype
            exact htype

theorem parseColumns_error (pieces : List Str) (acc : List Column) (msg : Msg)
    (h : parseColumns pieces acc = .error msg) :
    (∃ d, msg = .invalidColumnDefinition d) ∨ ∃ t, msg = .unsupportedDataType t := by
  induction pieces generalizing acc with
  | nil => simp [parseColumns] at h
  | cons piece rest ih =>
    rw [parseColumns] at h
    simp only at h
    split at h
    · exact ih acc h
    · split at h
      · simp only [Except.error.injEq] at h
        exact Or.inl ⟨_, h.symm⟩
      · split at h
        · simp only [Except.error.injEq] at h
          exact Or.inr ⟨_, h.symm⟩
        · exact ih _ h

theorem handleCreate_cases (db : Database) (command : Str) :
    (CreateFailure (handleCreate db command).2 ∧ (handleCreate db command).1 = db)
    ∨ ∃ name columns, handleCreate db command
        = (dbSet db name { name := name, columns := columns }, .tableCreated name)
      ∧ dbFind db name = none ∧ columns ≠ []
      ∧ ∀ c ∈ columns, c.type = "INT".toList ∨ c.type = "TEXT".toList := by
  unfold handleCreate
  simp only
  split
  · exact Or.inl ⟨Or.inl rfl, rfl⟩
  · split
    · exact Or.inl ⟨Or.inr (Or.inl ⟨_, rfl⟩), rfl⟩
    · rename_i hfind
      split
      · exact Or.inl ⟨Or.inr (Or.inr (Or.inl rfl)), rfl⟩
      · split
        · rename_i msg hparse
          rcases parseColumns_error _ _ _ hparse with ⟨d, rfl⟩ | ⟨t, rfl⟩
          · exact Or.inl ⟨Or.inr (Or.inr (Or.inr (Or.inl ⟨_, rfl⟩))), rfl⟩
          · exact Or.inl ⟨Or.inr (Or.inr (Or.inr (Or.inr (Or.inl ⟨_, rfl⟩)))), rfl⟩
        · rename_i columns hparse
          split
          · exact Or.inl ⟨Or.inr (Or.inr (Or.inr (Or.inr (Or.inr rfl)))), rfl⟩
          · rename_i hcols
            refine Or.inr ⟨_, columns, rfl, by simpa using hfind, hcols, ?_⟩
            exact parseColumns_types _ [] columns (by simp) hparse

/-- C19: a CREATE TABLE command either reports one of the failures (table name
missing, table already in the store, no parentheses, a column definition
without name or type, a type that is not INT or TEXT in any letter case, no
column) and leaves the store as it was, or creates a table that was not
there, with at least one column, only the types `INT` and `TEXT`, no rows and
`next_id` 1, leaving every other table unchanged.  `CREATE TABLE t (x FLOAT)`
is rejected, also after a valid first column. -/
theorem handleCreate_failure_unchanged (db db2 : Database) (command : Str) (msg : Msg)
    (h : handleCreate db command = (db2, msg)) :
    ((CreateFailure msg ∧ db2 = db)
      ∨ ∃ name t, msg = .tableCreated name ∧ dbFind db name = none
          ∧ dbFind db2 name = some t ∧ t.name = name ∧ t.columns ≠ []
          ∧ (∀ c ∈ t.columns, c.type = "INT".toList ∨ c.type = "TEXT".toList)
          ∧ t.rows = [] ∧ t.next_id = 1
          ∧ ∀ key, key ≠ name → dbFind db2 key = dbFind db key)
    ∧ handleCreate usersStore "CREATE TABLE t (x FLOAT)".toList
        = (usersStore, .unsupportedDataType "FLOAT".toList)
    ∧ handleCreate usersStore "CREATE TABLE t (a INT, x float)".toList
        = (usersStore, .unsupportedDataType "FLOAT".toList)
    ∧ handleCreate usersStore "CREATE TABLE users (a INT)".toList
        = (usersStore, .tableAlreadyExists "users".toList)
    ∧ handleCreate usersStore "CREATE TABLE".toList = (usersStore, .tableNameRequired)
    ∧ handleCreate usersStore "CREATE TABLE t a INT".toList
        = (usersStore, .columnsNeedParentheses)
    ∧ handleCreate usersStore "CREATE TABLE t (a)".toList
        = (usersStore, .invalidColumnDefinition "a".toList)
    ∧ handleCreate usersStore "CREATE TABLE t ()".toList = (usersStore, .noValidColumns) := by
  refine ⟨?_, by decide, by decide, by decide, by decide, by decide, by decide, by decide⟩
  rcases handleCreate_cases db command with ⟨hfail, hdb⟩ | ⟨name, columns, heq, hnew, hcols, htypes⟩
  · left
    rw [h] at hfail hdb
    exact ⟨hfail, hdb⟩
  · right
    rw [h] at heq
    simp only [Prod.mk.injEq] at heq
    obtain ⟨hdb, hmsg⟩ := heq
    refine ⟨name, { name := name, columns := columns }, hmsg, hnew, ?_, rfl, hcols, htypes,
      rfl, rfl, ?_⟩
    · rw [hdb]
      exact dbFind_dbSet_self db name _
    · intro key hkey
      rw [hdb]
      exact dbFind_dbSet_ne db name key _ hkey

/-! ## INSERT: the values of the command line -/

theorem handleInsert_eq (db : Database) (command : Str) :
    handleInsert db command
      = match dbFind db (insertTableName command) with
        | none => .ret (db, .tableDoesNotExist (insertTableName command))
        | some table =>
          if '(' ∉ insertRest command ∨ ')' ∉ insertRest command then
            .ret (db, .valuesNeedParentheses)
          else if table.next_id = INT_MAX then .undefined
          else if (insertValues command).length ≠ table.columns.length then
            .ret (dbSet db (insertTableName command) { table with next_id := table.next_id + 1 },
              .expectedValues table.columns.length (insertValues command).length)
          else
            match firstInvalid (insertValues command) table.columns with
            | some (v, c) =>
              .ret (dbSet db (insertTableName command) { table with next_id := table.next_id + 1 },
                .valueNotValid v c.name c.type)
            | none =>
              .ret (dbSet db (insertTableName command) { table with
                  next_id := table.next_id + 1,
                  rows := table.rows ++ [{ values := insertValues command, id := table.next_id }] },
                .rowInserted (insertTableName command) table.next_id) := by
  rfl

/-- `ss >> word` on a good stream: leading whitespace is skipped and the next
token is read up to the following whitespace or the end. -/
theorem extract_token (ws tok rest word : Str) (hws : ∀ c ∈ ws, isspace c = true)
    (htok : tok ≠ []) (hns : ∀ c ∈ tok, isspace c = false)
    (hrest : rest.takeWhile isNonSpace = []) :
    IStream.extract { buf := ws ++ (tok ++ rest) } word
      = ({ buf := rest, eofbit := rest.isEmpty, failbit := false }, tok) := by
  have hnsp : ∀ c ∈ tok, isNonSpace c = true := fun c hc => by simp [isNonSpace, hns c hc]
  have h1 : (tok ++ rest).takeWhile isspace = [] :=
    takeWhile_append_nil _ _ _ hns (fun e => absurd e htok)
  have hb : (ws ++ (tok ++ rest)).dropWhile isspace = tok ++ rest := dropWhile_run _ _ _ hws h1
  have hne : tok ++ rest ≠ [] := form_ne_nil tok rest htok
  simp only [IStream.extract, IStream.good, Bool.not_false, Bool.and_self, Bool.not_true,
    Bool.false_eq_true, if_false, hb, hne, dropWhile_run _ _ _ hnsp hrest,
    takeWhile_run _ _ _ hnsp hrest]

theorem getline_line (buf str : Str) (delim : Char) (h : ∀ c ∈ buf, c ≠ delim) :
    (IStream.getline { buf := buf } str delim).2 = buf := by
  have htake : buf.takeWhile (fun c => c != delim) = buf :=
    List.takeWhile_eq_self_iff.mpr (fun c hc => by simpa using h c hc)
  simp only [IStream.getline, IStream.good, Bool.not_false, Bool.and_self, Bool.not_true,
    Bool.false_eq_true, if_false]
  split <;> exact htake

theorem handleCreate_failure_unchanged_witness :
    ((CreateFailure (.unsupportedDataType "FLOAT".toList) ∧ usersStore = usersStore)
      ∨ ∃ name t, Msg.unsupportedDataType "FLOAT".toList = .tableCreated name
          ∧ dbFind usersStore name = none
          ∧ dbFind usersStore name = some t ∧ t.name = name ∧ t.columns ≠ []
          ∧ (∀ c ∈ t.columns, c.type = "INT".toList ∨ c.type = "TEXT".toList)
          ∧ t.rows = [] ∧ t.next_id = 1
          ∧ ∀ key, key ≠ name → dbFind usersStore key = dbFind usersStore key)
    ∧ handleCreate usersStore "CREATE TABLE t (x FLOAT)".toList
        = (usersStore, .unsupportedDataType "FLOAT".toList)
    ∧ handleCreate usersStore "CREATE TABLE t (a INT, x float)".toList
        = (usersStore, .unsupportedDataType "FLOAT".toList)
    ∧ handleCreate usersStore "CREATE TABLE users (a INT)".toList
        = (usersStore, .tableAlreadyExists "users".toList)
    ∧ handleCreate usersStore "CREATE TABLE".toList = (usersStore, .tableNameRequired)
    ∧ handleCreate usersStore "CREATE TABLE t a INT".toList
        = (usersStore, .columnsNeedParentheses)
    ∧ handleCreate usersStore "CREATE TABLE t (a)".toList
        = (usersStore, .invalidColumnDefinition "a".toList)
    ∧ handleCreate usersStore "CREATE TABLE t ()".toList = (usersStore, .noValidColumns) :=
  handleCreate_failure_unchanged usersStore usersStore "CREATE TABLE t (x FLOAT)".toList
    (.unsupportedDataType "FLOAT".toList) (by decide)

/-! ## DELETE and SELECT when the predicate raises nothing -/

theorem handleDelete_eq (db : Database) (command : Str) :
    handleDelete db command
      = match dbFind db (deleteTableName command) with
        | none => .ret (db, .tableNotFound (deleteTableName command))
        | some table =>
          if deleteCondition command = [] then
            .ret (dbSet db (deleteTableName command) { table with rows := [] },
              .rowsDeleted table.rows.length (deleteTableName command))
          else
            match removeIf (fun row => evaluateCondition row table.columns (deleteCondition command))
                [] table.rows with
            | (rows, .ret deletedCount) =>
              .ret (dbSet db (deleteTableName command)
                  { table with rows := rows.take (rows.length - deletedCount) },
                .rowsDeleted deletedCount (deleteTableName command))
            | (rows, .raise w) =>
              .ret (dbSet db (deleteTableName command) { table with rows := rows }, .errorDelete w)
            | (_, .undefined) => .undefined := by
  rfl

theorem handleSelect_eq (db : Database) (command : Str) :
    handleSelect db command
      = match dbFind db (selectTableName command) with
        | none => .ret (db, .tableNotFound (selectTableName command))
        | some table =>
          if table.rows = [] then .ret (db, .tableIsEmpty (selectTableName command))
          else
            match selectRows table.columns (selectCondition command) [] table.rows with
            | .ret printed => .ret (db, .rowsReturned printed printed.length)
            | .raise w => .ret (db, .errorSelect w)
            | .undefined => .undefined := by
  rfl

theorem removeShift_ret (pred : Row → Outcome Bool) (kept gap rows v : List Row) (n : Nat)
    (hgap : gap ≠ []) (h : removeShift pred kept gap rows = (v, .ret n)) :
    ∃ tail, v = (kept ++ rows.filter (fun r => decide (pred r = .ret false))) ++ tail
      ∧ tail.length = gap.length + rows.countP (fun r => decide (pred r = .ret true))
      ∧ n = tail.length
      ∧ ∀ r ∈ rows, pred r = .ret true ∨ pred r = .ret false := by
  induction rows generalizing kept gap with
  | nil =>
    simp only [removeShift, Prod.mk.injEq, Outcome.ret.injEq] at h
    exact ⟨gap, by simp [h.1], by simp, h.2.symm, by simp⟩
  | cons x rest ih =>
    rw [removeShift] at h
    split at h
    · rename_i htrue
      obtain ⟨tail, hv, hlen, hn, hall⟩ := ih kept (gap ++ [x]) (by simp) h
      refine ⟨tail, ?_, ?_, hn, ?_⟩
      · rw [hv, List.filter_cons_of_neg (by simp [htrue])]
      · rw [hlen, List.countP_cons_of_pos _ _ (by simp [htrue])]
        simp only [List.length_append, List.length_singleton]
        omega
      · intro r hr
        rcases List.mem_cons.mp hr with rfl | hr
        · exact Or.inl htrue
        · exact hall r hr
    · rename_i hfalse
      obtain ⟨tail, hv, hlen, hn, hall⟩ := ih (kept ++ [x]) (gap.tail ++ [movedFrom x]) (by simp) h
      refine ⟨tail, ?_, ?_, hn, ?_⟩
      · rw [hv, List.filter_cons_of_pos (by simp [hfalse])]
        simp
      · rw [hlen, List.countP_cons_of_neg _ _ (by simp [hfalse])]
        have : gap.length ≠ 0 := fun e => hgap (List.length_eq_zero.mp e)
        simp only [List.length_append, List.length_tail, List.length_singleton]
        omega
      · intro r hr
        rcases List.mem_cons.mp hr with rfl | hr
        · exact Or.inr hfalse
        · exact hall r hr
    · simp at h
    · simp at h

theorem removeIf_ret (pred : Row → Outcome Bool) (kept rows v : List Row) (n : Nat)
    (h : removeIf pred kept rows = (v, .ret n)) :
    ∃ tail, v = (kept ++ rows.filter (fun r => decide (pred r = .ret false))) ++ tail
      ∧ n = tail.length
      ∧ n = rows.countP (fun r => decide (pred r = .ret true))
      ∧ ∀ r ∈ rows, pred r = .ret true ∨ pred r = .ret false := by
  induction rows generalizing kept with
  | nil =>
    simp only [removeIf, Prod.mk.injEq, Outcome.ret.injEq] at h
    exact ⟨[], by simp [h.1], by simp [h.2], by simp [h.2], by simp⟩
  | cons x rest ih =>
    rw [removeIf] at h
    split at h
    · rename_i htrue
      obtain ⟨tail, hv, hlen, hn, hall⟩ := removeShift_ret pred kept [x] rest v n (by simp) h
      refine ⟨tail, ?_, hn, ?_, ?_⟩
      · rw [hv, List.filter_cons_of_neg (by simp [htrue])]
      · rw [hn, hlen, List.countP_cons_of_pos _ _ (by simp [htrue])]
        simp only [List.length_singleton]
        omega
      · intro r hr
        rcases List.mem_cons.mp hr with rfl | hr
        · exact Or.inl htrue
        · exact hall r hr
    · rename_i hfalse
      obtain ⟨tail, hv, hn, hcount, hall⟩ := ih (kept ++ [x]) h
      refine ⟨tail, ?_, hn, ?_, ?_⟩
      · rw [hv, List.filter_cons_of_pos (by simp [hfalse])]
        simp
      · rw [hcount, List.countP_cons_of_neg _ _ (by simp [hfalse])]
      · intro r hr
        rcases List.mem_cons.mp hr with rfl | hr
        · exact Or.inr hfalse
        · exact hall r hr
    · simp at h
    · simp at h

theorem length_filter_add_countP (pred : Row → Outcome Bool) (rows : List Row)
    (h : ∀ r ∈ rows, pred r = .ret true ∨ pred r = .ret false) :
    rows.length = (rows.filter (fun r => decide (pred r = .ret false))).length
      + rows.countP (fun r => decide (pred r = .ret true)) := by
  induction rows with
  | nil => rfl
  | cons x rest ih =>
    have ih2 := ih (fun r hr => h r (List.mem_cons_of_mem _ hr))
    rcases h x (List.mem_cons_self _ _) with hx | hx
    · rw [List.filter_cons_of_neg (by simp [hx]), List.countP_cons_of_pos _ _ (by simp [hx])]
      simp only [List.length_cons]
      omega
    · rw [List.filter_cons_of_pos (by simp [hx]), List.countP_cons_of_neg _ _ (by simp [hx])]
      simp only [List.length_cons]
      omega

/-- When DELETE reports a count: the rows left are the rows for which the
predicate is false, in their order and unchanged; the count is the number of
rows for which it is true; columns, `next_id` and other tables are as
before. -/
theorem handleDelete_deleted (db db2 : Database) (command name : Str) (n : Nat)
    (h : handleDelete db command = .ret (db2, .rowsDeleted n name)) :
    ∃ table, name = deleteTableName command ∧ dbFind db name = some table
      ∧ dbFind db2 name = some { table with rows := table.rows.filter (fun r =>
          decide (evaluateCondition r table.columns (deleteCondition command) = .ret false)) }
      ∧ n = table.rows.countP (fun r =>
          decide (evaluateCondition r table.columns (deleteCondition command) = .ret true))
      ∧ table.rows.length = (table.rows.filter (fun r =>
          decide (evaluateCondition r table.columns (deleteCondition command) = .ret false))).length + n
      ∧ (deleteCondition command = [] → n = table.rows.length)
      ∧ ∀ key, key ≠ name → dbFind db2 key = dbFind db key := by
  rw [handleDelete_eq] at h
  split at h
  · simp at h
  · rename_i table hfind
    split at h
    · rename_i hcond
      simp only [Outcome.ret.injEq, Prod.mk.injEq, Msg.rowsDeleted.injEq] at h
      obtain ⟨hdb, hn, hname⟩ := h
      have htrue : ∀ r ∈ table.rows,
          evaluateCondition r table.columns (deleteCondition command) = .ret true := by
        intro r _
        simp [evaluateCondition, hcond]
      have hfilter : table.rows.filter (fun r =>
          decide (evaluateCondition r table.columns (deleteCondition command) = .ret false)) = [] := by
        rw [List.filter_eq_nil_iff]
        intro r hr
        simp [htrue r hr]
      have hcount : table.rows.countP (fun r =>
          decide (evaluateCondition r table.columns (deleteCondition command) = .ret true))
          = table.rows.length := by
        rw [List.countP_eq_length]
        intro r hr
        simp [htrue r hr]
      refine ⟨table, hname.symm, by rw [← hname]; exact hfind, ?_, ?_, ?_, ?_, ?_⟩
      · rw [← hdb, ← hname, hfilter]
        exact dbFind_dbSet_self db _ _
      · rw [hcount, ← hn]
      · rw [hfilter, ← hn]
        simp
      · intro _
        exact hn.symm
      · intro key hkey
        rw [← hdb]
        exact dbFind_dbSet_ne db _ key _ (by rw [hname]; exact hkey)
    · rename_i hcond
      split at h
      · rename_i v count hrun
        simp only [Outcome.ret.injEq, Prod.mk.injEq, Msg.rowsDeleted.injEq] at h
        obtain ⟨hdb, hn, hname⟩ := h
        obtain ⟨tail, hv, hlen, hcount, hall⟩ := removeIf_ret _ _ _ _ _ hrun
        simp only [List.nil_append] at hv
        have htake : v.take (v.length - count) = table.rows.filter (fun r =>
            decide (evaluateCondition r table.columns (deleteCondition command) = .ret false)) := by
          rw [hv, hlen]
          simp
        subst hn
        refine ⟨table, hname.symm, by rw [← hname]; exact hfind, ?_, hcount, ?_, ?_, ?_⟩
        · rw [← hdb, ← hname, htake]
          exact dbFind_dbSet_self db _ _
        · rw [hcount]
          exact length_filter_add_countP _ _ hall
        · intro hc
          exact absurd hc hcond
        · intro key hkey
          rw [← hdb]
          exact dbFind_dbSet_ne db _ key _ (by rw [hname]; exact hkey)
      · simp at h
      · simp at h

theorem selectRows_ret (columns : List Column) (condition : Str) (printed rows result : List Row)
    (h : selectRows columns condition printed rows = .ret result) :
    result = printed ++ rows.filter
      (fun r => decide (evaluateCondition r columns condition = .ret true)) := by
  induction rows generalizing printed with
  | nil =>
    simp only [selectRows, Outcome.ret.injEq] at h
    simp [h]
  | cons x rest ih =>
    rw [selectRows] at h
    split at h
    · rename_i htrue
      rw [ih _ h, List.filter_cons_of_pos (by simp [htrue])]
      simp
    · rename_i hfalse
      rw [ih _ h, List.filter_cons_of_neg (by simp [hfalse])]
    · simp at h
    · simp at h

/-- SELECT never changes the store; when it reports rows, they are the rows
for which the predicate is true, in stored order, with their number; an empty
table is reported as empty whatever the predicate. -/
theorem handleSelect_result (db db2 : Database) (command : Str) (msg : Msg)
    (h : handleSelect db command = .ret (db2, msg)) :
    db2 = db
    ∧ (∀ table, dbFind db (selectTableName command) = some table → table.rows = [] →
        msg = .tableIsEmpty (selectTableName command))
    ∧ (∀ printed n, msg = .rowsReturned printed n →
        ∃ table, dbFind db (selectTableName command) = some table
          ∧ printed = table.rows.filter (fun r =>
              decide (evaluateCondition r table.columns (selectCondition command) = .ret true))
          ∧ n = printed.length) := by
  rw [handleSelect_eq] at h
  split at h
  · simp only [Outcome.ret.injEq, Prod.mk.injEq] at h
    refine ⟨h.1.symm, ?_, ?_⟩
    · intro table hfind
      rename_i hnone
      rw [hnone] at hfind
      simp at hfind
    · intro printed n hmsg
      rw [← h.2] at hmsg
      simp at hmsg
  · rename_i table hfind
    split at h
    · rename_i hempty
      simp only [Outcome.ret.injEq, Prod.mk.injEq] at h
      refine ⟨h.1.symm, fun _ _ _ => h.2.symm, ?_⟩
      intro printed n hmsg
      rw [← h.2] at hmsg
      simp at hmsg
    · rename_i hrows
      split at h
      · rename_i printed hrun
        simp only [Outcome.ret.injEq, Prod.mk.injEq] at h
        refine ⟨h.1.symm, ?_, ?_⟩
        · intro table2 hfind2 hempty
          rw [hfind] at hfind2
          simp only [Option.some.injEq] at hfind2
          rw [hfind2] at hrows
          exact absurd hempty hrows
        · intro printed2 n hmsg
          rw [← h.2] at hmsg
          simp only [Msg.rowsReturned.injEq] at hmsg
          have := selectRows_ret _ _ _ _ _ hrun
          simp only [List.nil_append] at this
          exact ⟨table, hfind, by rw [← hmsg.1, this], by rw [← hmsg.2, ← hmsg.1]⟩
      · simp only [Outcome.ret.injEq, Prod.mk.injEq] at h
        refine ⟨h.1.symm, ?_, ?_⟩
        · intro table2 hfind2 hempty
          rw [hfind] at hfind2
          simp only [Option.some.injEq] at hfind2
          rw [hfind2] at hrows
          exact absurd hempty hrows
        · intro printed n hmsg
          rw [← h.2] at hmsg
          simp at hmsg
      · simp at h

/-- `selectRows` is `selectScan` without the rows printed before an exception. -/
theorem selectRows_eq_scan (columns : List Column) (condition : Str) (printed rows : List Row) :
    selectRows columns condition printed rows
      = match (selectScan columns condition printed rows).2 with
        | .ret _ => .ret (selectScan columns condition printed rows).1
        | .raise w => .raise w
        | .undefined => .undefined := by
  induction rows generalizing printed with
  | nil => simp [selectRows, selectScan]
  | cons x rest ih =>
    rw [selectRows, selectScan]
    split
    · exact ih _
    · exact ih _
    · rfl
    · rfl

/-! ## SAVE and LOAD: the file that is opened -/

theorem filename_token (kw ws x rest : Str)
    (hkw : kw ≠ []) (hkws : ∀ c ∈ kw, isspace c = false)
    (hws : ws ≠ []) (hwss : ∀ c ∈ ws, isspace c = true)
    (hx : x ≠ []) (hxs : ∀ c ∈ x, isspace c = false)
    (hrest : rest.takeWhile isNonSpace = []) :
    (IStream.extract (IStream.extract { buf := kw ++ (ws ++ (x ++ rest)) } []).1 []).2 = x := by
  have hpost : (ws ++ (x ++ rest)).takeWhile isNonSpace = [] :=
    takeWhile_append_nil _ _ _ (fun c hc => by simp [isNonSpace, hwss c hc]) (fun e => absurd e hws)
  have h1 := extract_token [] kw (ws ++ (x ++ rest)) [] (by simp) hkw hkws hpost
  simp only [List.nil_append] at h1
  rw [h1]
  have hne : (ws ++ (x ++ rest)).isEmpty = false := by
    cases ws with
    | nil => exact absurd rfl hws
    | cons a l => rfl
  rw [hne]
  have h2 := extract_token ws x rest [] hwss hx hxs hrest
  rw [h2]

theorem givesName_token (command x : Str) (h : GivesName command x) :
    (IStream.extract (IStream.extract { buf := command } []).1 []).2 = x ∧ x ≠ [] := by
  obtain ⟨kw, ws, rest, rfl, hkw, hkws, hws, hwss, hx, hxs, hrest⟩ := h
  exact ⟨filename_token kw ws x rest hkw hkws hws hwss hx hxs hrest, hx⟩

theorem handleSave_file (db : Database) (fs : FileSystem) (command x : Str)
    (h : GivesName command x) :
    handleSave db fs command
      = if fs.writable (snapshotFile x) = true then
          (fs.write (snapshotFile x) (saveBytes db), .databaseSaved (snapshotFile x))
        else (fs, .couldNotOpenForWriting (snapshotFile x)) := by
  obtain ⟨htok, hx⟩ := givesName_token command x h
  unfold handleSave snapshotFile
  simp only [htok, hx, if_false]
  by_cases hdot : '.' ∈ x
  · simp only [hdot, not_true_eq_false, if_false, if_true]
    cases fs.writable x <;> simp
  · simp only [hdot, not_false_eq_true, if_false, if_true]
    cases fs.writable (x ++ ".db".toList) <;> simp

theorem handleLoad_file (db : Database) (fs : FileSystem) (command x : Str)
    (h : GivesName command x) :
    handleLoad db fs command
      = match fs.contents (snapshotFile x) with
        | none => .ret (db, .couldNotOpenForReading (snapshotFile x))
        | some bytes =>
          match readSize bytes with
          | none => .undefined
          | some (numTables, rest) =>
            match loadTables numTables rest [] with
            | none => .undefined
            | some loaded => .ret (loaded, .databaseLoaded (snapshotFile x) numTables) := by
  obtain ⟨htok, hx⟩ := givesName_token command x h
  unfold handleLoad snapshotFile
  simp only [htok, hx, if_false]
  by_cases hdot : '.' ∈ x <;> simp [hdot]

theorem givesName_command (kw x : Str) (hkw : kw ≠ []) (hkws : ∀ c ∈ kw, isspace c = false)
    (hx : x ≠ []) (hxs : ∀ c ∈ x, isspace c = false) :
    GivesName (kw ++ (' ' :: x)) x :=
  ⟨kw, [' '], [], by simp, hkw, hkws, by simp, by simp [isspace], hx, hxs, rfl⟩

/-- C21: for every name `x` given as the second word of the command line,
SAVE and LOAD open the same file: `x` itself when `x` contains a `.`
anywhere, `x` followed by `.db` otherwise.  SAVE writes the snapshot there
(or reports that this file does not open), LOAD reads that file (or reports
that it does not open), and a LOAD of `x` after a SAVE of `x` that opened
reads back the store that was saved.  `data` is saved as `data.db`,
`data.bin` and `v1.2/data` under their own names. -/
theorem save_load_same_file (db db0 : Database) (fs : FileSystem) (save load x : Str)
    (hsave : GivesName save x) (hload : GivesName load x) :
    (('.' ∈ x → snapshotFile x = x) ∧ ('.' ∉ x → snapshotFile x = x ++ ".db".toList))
    ∧ handleSave db fs save
        = (if fs.writable (snapshotFile x) = true then
            (fs.write (snapshotFile x) (saveBytes db), .databaseSaved (snapshotFile x))
          else (fs, .couldNotOpenForWriting (snapshotFile x)))
    ∧ handleLoad db0 fs load
        = (match fs.contents (snapshotFile x) with
          | none => .ret (db0, .couldNotOpenForReading (snapshotFile x))
          | some bytes =>
            match readSize bytes with
            | none => .undefined
            | some (numTables, rest) =>
              match loadTables numTables rest [] with
              | none => .undefined
              | some loaded => .ret (loaded, .databaseLoaded (snapshotFile x) numTables))
    ∧ (fs.writable (snapshotFile x) = true → StoreOk db →
        handleLoad db0 (handleSave db fs save).1 load
          = .ret (db, .databaseLoaded (snapshotFile x) db.length))
    ∧ (handleSave [] emptyFiles "SAVE data".toList).2 = .databaseSaved "data.db".toList
    ∧ (handleSave [] emptyFiles "SAVE data.bin".toList).2 = .databaseSaved "data.bin".toList
    ∧ (handleSave [] emptyFiles "SAVE v1.2/data".toList).2 = .databaseSaved "v1.2/data".toList := by
  refine ⟨⟨fun h => by simp [snapshotFile, h], fun h => by simp [snapshotFile, h]⟩,
    handleSave_file db fs save x hsave, handleLoad_file db0 fs load x hload, ?_,
    by decide, by decide, by decide⟩
  intro hw hok
  have hround := loadBytes_saveBytes db0 db hok
  have hsize : readSize (saveBytes db) = some (db.length, db.flatMap (fun kv => writeTable kv.2)) :=
    readSize_writeSize _ _ hok.2.1
  rw [loadBytes, hsize] at hround
  simp only [Option.some_bind] at hround
  rw [handleSave_file db fs save x hsave, handleLoad_file db0 _ load x hload]
  simp only [hw, if_true, FileSystem.write, hsize, hround]

theorem save_load_same_file_witness :
    GivesName "SAVE shop".toList "shop".toList ∧ GivesName "load shop".toList "shop".toList
    ∧ handleSave usersStore emptyFiles "SAVE shop".toList
        = (emptyFiles.write "shop.db".toList (saveBytes usersStore), .databaseSaved "shop.db".toList)
    ∧ handleLoad [] emptyFiles "load shop".toList
        = .ret ([], .couldNotOpenForReading "shop.db".toList)
    ∧ handleLoad [] (handleSave usersStore emptyFiles "SAVE shop".toList).1 "load shop".toList
        = .ret (usersStore, .databaseLoaded "shop.db".toList 1) := by
  have hs : GivesName "SAVE shop".toList "shop".toList :=
    givesName_command "SAVE".toList "shop".toList (by decide) (by decide) (by decide) (by decide)
  have hl : GivesName "load shop".toList "shop".toList :=
    givesName_command "load".toList "shop".toList (by decide) (by decide) (by decide) (by decide)
  have h := save_load_same_file usersStore [] emptyFiles "SAVE shop".toList "load shop".toList
    "shop".toList hs hl
  have hfile : snapshotFile "shop".toList = "shop.db".toList := by decide
  rw [hfile] at h
  exact ⟨hs, hl, h.2.1, h.2.2.1, h.2.2.2.1 rfl storeOk_usersStore⟩

/-! ## Operator runs that are none of the six operators -/

theorem findColumn_lt (columns : List Column) (c : Str) (i : Nat)
    (h : findColumn columns c = some i) : i < columns.length := by
  obtain ⟨col, hcol, _⟩ := findColumn_some columns c i h
  exact (List.getElem?_eq_some_iff.mp hcol).1

theorem evaluateCondition_other_operator (row : Row) (columns : List Column) (cond c op value : Str)
    (hne : cond ≠ []) (hs : regexSearch cond = some (c, op, value))
    (hop : op ∉ [['='], ['!', '='], ['>'], ['<'], ['>', '='], ['<', '=']])
    (harity : columns.length ≤ row.values.length) :
    evaluateCondition row columns cond = .ret false := by
  simp only [List.mem_cons, List.mem_singleton, List.not_mem_nil, or_false, not_or] at hop
  obtain ⟨h1, h2, h3, h4, h5, h6⟩ := hop
  cases hf : findColumn columns c with
  | none => exact evaluateCondition_no_column row columns cond c op value hne hs hf
  | some i =>
    have hi : i < row.values.length := Nat.lt_of_lt_of_le (findColumn_lt columns c i hf) harity
    have hv : row.values[i]? = some (row.values[i]) := List.getElem?_eq_getElem hi
    rw [evaluateCondition_of_search row columns cond c op value _ i hne hs hf hv]
    simp only [h1, h2, h3, h4, h5, h6, if_false]

/-- C22 as stated fails twice.  On `a !==` the operator run `!==` is none of
the six operators, yet the regex gives its last char back as the literal and
the predicate is evaluated as `a != =`: it is true on the stored value 1, and
`DELETE FROM t WHERE a !==` deletes every row.  And a row without a value at
the position of the column is read out of range instead of giving false. -/
theorem evaluateCondition_run_not_operator :
    regexSearch "a !==".toList = some ("a".toList, "!=".toList, "=".toList)
    ∧ evaluateCondition { values := ["1".toList], id := 2 } tableA.columns "a !==".toList
      = .ret true
    ∧ handleDelete threeRows "DELETE FROM t WHERE a !==".toList
      = .ret ([("t".toList, { tableA with rows := [], next_id := 4 })],
          .rowsDeleted 3 "t".toList)
    ∧ evaluateCondition { values := [], id := 2 } tableA.columns "a == 1".toList = .undefined := by
  refine ⟨by decide, by decide, by decide, by decide⟩

theorem dropWhile_append_last (q : Char → Bool) (p rest : Str) (l : Char)
    (hl : p.getLast? = some l) (hq : q l = false) :
    ∃ p2, p2 ≠ [] ∧ (∀ ch ∈ p2, ch ∈ p) ∧ (p ++ rest).dropWhile q = p2 ++ rest := by
  induction p with
  | nil => simp at hl
  | cons a t ih =>
    by_cases ha : q a = true
    · cases t with
      | nil =>
        simp only [List.getLast?_singleton, Option.some.injEq] at hl
        rw [hl, hq] at ha
        exact absurd ha (by simp)
      | cons b t2 =>
        have hl2 : (b :: t2).getLast? = some l := by
          rw [List.getLast?_cons_cons] at hl
          exact hl
        obtain ⟨p2, hne, hmem, heq⟩ := ih hl2
        refine ⟨p2, hne, fun ch hch => List.mem_cons_of_mem _ (hmem ch hch), ?_⟩
        rw [List.cons_append, List.dropWhile_cons_of_pos ha]
        exact heq
    · refine ⟨a :: t, by simp, fun ch hch => hch, ?_⟩
      rw [List.cons_append, List.dropWhile_cons_of_neg ha]

theorem dropWhile_append_cases (q : Char → Bool) (p rest : Str) :
    (∃ p2, p2 ≠ [] ∧ (∀ ch ∈ p2, ch ∈ p) ∧ (p ++ rest).dropWhile q = p2 ++ rest)
      ∨ (p ++ rest).dropWhile q = rest.dropWhile q := by
  induction p with
  | nil => exact Or.inr rfl
  | cons a t ih =>
    by_cases ha : q a = true
    · rw [List.cons_append, List.dropWhile_cons_of_pos ha]
      rcases ih with ⟨p2, hne, hmem, heq⟩ | heq
      · exact Or.inl ⟨p2, hne, fun ch hch => List.mem_cons_of_mem _ (hmem ch hch), heq⟩
      · exact Or.inr heq
    · refine Or.inl ⟨a :: t, by simp, fun ch hch => hch, ?_⟩
      rw [List.cons_append, List.dropWhile_cons_of_neg ha]

theorem takeWhile_op_of_head (s : Str) (h : ∀ ch, s.head? = some ch → isOpChar ch = false) :
    s.takeWhile isOpChar = [] := by
  cases s with
  | nil => rfl
  | cons a t =>
    have ha : ¬ isOpChar a = true := by simp [h a rfl]
    exact List.takeWhile_cons_of_neg ha

/-- No match of the regex starts inside a prefix that holds none of the chars
`= < > !` and does not end in a word char, when a word char follows it. -/
theorem scanHere_skip (p : Str) (c : Char) (cs : Str) (hne : p ≠ [])
    (hop : ∀ ch ∈ p, isOpChar ch = false)
    (hlast : ∀ ch, p.getLast? = some ch → isWordChar ch = false)
    (hc : isWordChar c = true) : scanHere (p ++ c :: cs) = none := by
  obtain ⟨l, hl⟩ : ∃ l, p.getLast? = some l := by
    cases hp : p.getLast? with
    | none => exact absurd (List.getLast?_eq_none_iff.mp hp) hne
    | some l => exact ⟨l, rfl⟩
  obtain ⟨p2, hne2, hmem2, heq2⟩ := dropWhile_append_last isWordChar p (c :: cs) l hl (hlast l hl)
  have hcsp : ¬ isspace c = true := by simp [isWordChar_not_space c hc]
  have hhead : ∀ ch, (((p ++ c :: cs).dropWhile isWordChar).dropWhile isspace).head? = some ch →
      isOpChar ch = false := by
    rw [heq2]
    intro ch hch
    rcases dropWhile_append_cases isspace p2 (c :: cs) with ⟨p3, hne3, hmem3, heq3⟩ | heq3
    · rw [heq3] at hch
      cases p3 with
      | nil => exact absurd rfl hne3
      | cons a t =>
        simp only [List.cons_append, List.head?_cons, Option.some.injEq] at hch
        subst hch
        exact hop _ (hmem2 _ (hmem3 _ (List.mem_cons_self _ _)))
    · rw [heq3, List.dropWhile_cons_of_neg hcsp] at hch
      simp only [List.head?_cons, Option.some.injEq] at hch
      subst hch
      exact isWordChar_not_op _ hc
  unfold scanHere
  simp only [takeWhile_op_of_head _ hhead, or_true, if_true]

theorem regexSearch_skip (pre : Str) (c : Char) (cs : Str)
    (hop : ∀ ch ∈ pre, isOpChar ch = false)
    (hlast : ∀ ch, pre.getLast? = some ch → isWordChar ch = false)
    (hc : isWordChar c = true) : regexSearch (pre ++ c :: cs) = regexSearch (c :: cs) := by
  induction pre with
  | nil => rfl
  | cons a t ih =>
    have hscan := scanHere_skip (a :: t) c cs (by simp) hop hlast hc
    rw [List.cons_append] at hscan ⊢
    rw [regexSearch_cons, hscan]
    apply ih (fun ch hch => hop ch (List.mem_cons_of_mem _ hch))
    intro ch hch
    apply hlast
    cases t with
    | nil => simp at hch
    | cons b t2 =>
      rw [List.getLast?_cons_cons]
      exact hch

/-- The first comparison of a predicate string that holds, after a prefix
without the chars `= < > !` that does not end in a word char, a column name,
an operator run and a non-empty literal: the operator the regex captures is
the whole run. -/
theorem regexSearch_first_comparison (pre c ws1 op ws2 b post : Str)
    (hform : PredicateForm c ws1 op ws2 b) (hb : b ≠ [])
    (hpost : post.takeWhile isNonSpace = [])
    (hpre : ∀ ch ∈ pre, isOpChar ch = false)
    (hlast : ∀ ch, pre.getLast? = some ch → isWordChar ch = false) :
    regexSearch (pre ++ (c ++ (ws1 ++ (op ++ (ws2 ++ (b ++ post)))))) = some (c, op, b) := by
  have h := regexSearch_form c ws1 op ws2 b post hform hb hpost
  cases hc : c with
  | nil => exact absurd hc hform.name_ne
  | cons x xs =>
    rw [hc] at h
    rw [List.cons_append] at h ⊢
    rw [regexSearch_skip pre x _ hpre hlast
      (hform.name_word x (by rw [hc]; exact List.mem_cons_self _ _))]
    exact h

/-- C22, amended: for every table, every predicate string whose first
comparison (the leftmost match of column name, operator, token, anywhere in
the string) has an operator that is none of `=`, `!=`, `>`, `<`, `>=`, `<=`,
and for every row with at least as many values as the table has columns,
`evaluateCondition` returns false, whatever the row stores, and a DELETE,
SELECT or UPDATE scan with such a predicate touches no row.  The operator of
the first comparison is the maximal run of the chars `= < > !` after the
column name whenever a non-empty literal follows the run, also after a prefix
such as `x ` or `(`; `a == 1`, `a <> 1`, `a => 1`, `a =< 1`, `a ! 1`,
`x a == 1` and `(a == 1)` are false on the stored value 1, and
`DELETE FROM t WHERE a == 1` deletes nothing from a table that holds a row
with `a` = 1. -/
theorem evaluateCondition_unknown_operator (columns : List Column) (rows : List Row)
    (cond c op value : Str) (hfirst : regexSearch cond = some (c, op, value))
    (hop : op ∉ [['='], ['!', '='], ['>'], ['<'], ['>', '='], ['<', '=']])
    (harity : ∀ row ∈ rows, columns.length ≤ row.values.length) :
    (∀ row ∈ rows, evaluateCondition row columns cond = .ret false)
    ∧ removeIf (fun row => evaluateCondition row columns cond) [] rows = (rows, .ret 0)
    ∧ selectRows columns cond [] rows = .ret []
    ∧ (∀ updates, updateRows columns cond updates [] 0 rows = (rows, .ret 0))
    ∧ (∀ pre c1 ws1 run ws2 b post, PredicateForm c1 ws1 run ws2 b → b ≠ [] →
        post.takeWhile isNonSpace = [] → (∀ ch ∈ pre, isOpChar ch = false) →
        (∀ ch, pre.getLast? = some ch → isWordChar ch = false) →
        regexSearch (pre ++ (c1 ++ (ws1 ++ (run ++ (ws2 ++ (b ++ post)))))) = some (c1, run, b))
    ∧ (∀ run ∈ ["==".toList, "<>".toList, "=>".toList, "=<".toList, "!".toList],
        ∀ pre ∈ ["".toList, "x ".toList, "(".toList],
        evaluateCondition { values := ["1".toList], id := 2 } tableA.columns
          (pre ++ ("a ".toList ++ (run ++ " 1".toList))) = .ret false)
    ∧ evaluateCondition { values := ["1".toList], id := 2 } tableA.columns "(a == 1)".toList
        = .ret false
    ∧ handleDelete threeRows "DELETE FROM t WHERE a == 1".toList
        = .ret (threeRows, .rowsDeleted 0 "t".toList) := by
  have hne : cond ≠ [] := by
    intro hnil
    rw [hnil] at hfirst
    simp [regexSearch] at hfirst
  have hall : ∀ row ∈ rows, evaluateCondition row columns cond = .ret false :=
    fun row hrow =>
      evaluateCondition_other_operator row columns cond c op value hne hfirst hop (harity row hrow)
  refine ⟨hall, ?_, selectRows_all_false columns _ [] rows hall, ?_,
    fun pre c1 ws1 run ws2 b post hform hb hpost hpre hlast =>
      regexSearch_first_comparison pre c1 ws1 run ws2 b post hform hb hpost hpre hlast,
    by decide, by decide, by decide⟩
  · have := removeIf_all_false (fun row => evaluateCondition row columns cond) [] rows hall
    simpa using this
  · intro updates
    have := updateRows_all_false columns _ updates [] 0 rows hall
    simpa using this

theorem evaluateCondition_unknown_operator_witness :
    regexSearch "x a == 1".toList = some ("a".toList, "==".toList, "1".toList)
    ∧ (∀ row ∈ [({ values := ["1".toList], id := 1 } : Row), { values := ["2".toList], id := 2 }],
      evaluateCondition row tableA.columns "x a == 1".toList = .ret false)
    ∧ removeIf (fun row => evaluateCondition row tableA.columns "x a == 1".toList)
        [] [({ values := ["1".toList], id := 1 } : Row), { values := ["2".toList], id := 2 }]
        = ([({ values := ["1".toList], id := 1 } : Row), { values := ["2".toList], id := 2 }], .ret 0)
    ∧ selectRows tableA.columns "x a == 1".toList
        [] [({ values := ["1".toList], id := 1 } : Row), { values := ["2".toList], id := 2 }] = .ret []
    ∧ (∀ updates, updateRows tableA.columns "x a == 1".toList
        updates [] 0 [({ values := ["1".toList], id := 1 } : Row), { values := ["2".toList], id := 2 }]
        = ([({ values := ["1".toList], id := 1 } : Row), { values := ["2".toList], id := 2 }], .ret 0)) := by
  have h := evaluateCondition_unknown_operator tableA.columns
    [{ values := ["1".toList], id := 1 }, { values := ["2".toList], id := 2 }]
    "x a == 1".toList "a".toList "==".toList "1".toList (by decide) (by decide) (by decide)
  exact ⟨by decide, h.1, h.2.1, h.2.2.1, h.2.2.2.1⟩

/-! ## Indexing of `row.values` -/

theorem stoi_defined (s : Str) : stoi s ≠ .undefined := by
  unfold stoi
  simp only
  split_ifs <;> simp

theorem compareInts_defined (rel : Int → Int → Bool) (a v : Str) :
    compareInts rel a v ≠ .undefined := by
  have ha := stoi_defined a
  have hv := stoi_defined v
  unfold compareInts
  split
  · cases hsa : stoi a <;> cases hsv : stoi v <;> simp_all
  · simp

/-- The read `row.values[colIndex]` of `evaluateCondition` is in range for a
row with at least as many values as the table has columns: the index is the
position of a column. -/
theorem evaluateCondition_index (row : Row) (columns : List Column) (cond c op value : Str)
    (i : Nat) (_hs : regexSearch cond = some (c, op, value))
    (hf : findColumn columns c = some i) (harity : columns.length ≤ row.values.length) :
    i < row.values.length :=
  Nat.lt_of_lt_of_le (findColumn_lt columns c i hf) harity

theorem evaluateCondition_defined (row : Row) (columns : List Column) (cond : Str)
    (harity : columns.length ≤ row.values.length) :
    evaluateCondition row columns cond ≠ .undefined := by
  by_cases hne : cond = []
  · simp [evaluateCondition, hne]
  · cases hs : regexSearch cond with
    | none => simp [evaluateCondition_no_match row columns cond hne hs]
    | some m =>
      obtain ⟨c, op, value⟩ := m
      cases hf : findColumn columns c with
      | none => simp [evaluateCondition_no_column row columns cond c op value hne hs hf]
      | some i =>
        have hi := evaluateCondition_index row columns cond c op value i hs hf harity
        have hv : row.values[i]? = some (row.values[i]) := List.getElem?_eq_getElem hi
        rw [evaluateCondition_of_search row columns cond c op value _ i hne hs hf hv]
        split
        · simp
        · split
          · simp
          · split
            · exact compareInts_defined _ _ _
            · split
              · exact compareInts_defined _ _ _
              · split
                · exact compareInts_defined _ _ _
                · split
                  · exact compareInts_defined _ _ _
                  · simp

theorem selectRows_defined (columns : List Column) (cond : Str) (printed rows : List Row)
    (h : ∀ r ∈ rows, evaluateCondition r columns cond ≠ .undefined) :
    selectRows columns cond printed rows ≠ .undefined := by
  induction rows generalizing printed with
  | nil => simp [selectRows]
  | cons x xs ih =>
    have hx := h x (List.mem_cons_self _ _)
    have hxs : ∀ r ∈ xs, evaluateCondition r columns cond ≠ .undefined :=
      fun r hr => h r (List.mem_cons_of_mem _ hr)
    rw [selectRows]
    split
    · exact ih _ hxs
    · exact ih _ hxs
    · simp
    · rename_i hu
      exact absurd hu hx

theorem removeShift_defined (pred : Row → Outcome Bool) (kept gap rows : List Row)
    (h : ∀ r ∈ rows, pred r ≠ .undefined) : (removeShift pred kept gap rows).2 ≠ .undefined := by
  induction rows generalizing kept gap with
  | nil => simp [removeShift]
  | cons x xs ih =>
    have hx := h x (List.mem_cons_self _ _)
    have hxs : ∀ r ∈ xs, pred r ≠ .undefined := fun r hr => h r (List.mem_cons_of_mem _ hr)
    rw [removeShift]
    split
    · exact ih _ _ hxs
    · exact ih _ _ hxs
    · simp
    · rename_i hu
      exact absurd hu hx

theorem removeIf_defined (pred : Row → Outcome Bool) (kept rows : List Row)
    (h : ∀ r ∈ rows, pred r ≠ .undefined) : (removeIf pred kept rows).2 ≠ .undefined := by
  induction rows generalizing kept with
  | nil => simp [removeIf]
  | cons x xs ih =>
    have hx := h x (List.mem_cons_self _ _)
    have hxs : ∀ r ∈ xs, pred r ≠ .undefined := fun r hr => h r (List.mem_cons_of_mem _ hr)
    rw [removeIf]
    split
    · exact removeShift_defined pred _ _ xs hxs
    · exact ih _ hxs
    · simp
    · rename_i hu
      exact absurd hu hx

/-- Each pair that the SET clause yields holds the position of a column. -/
theorem parseAssignments_index (columns : List Column) (pieces : List Str)
    (updates : List (Nat × Str)) (h : parseAssignments columns pieces [] = .ok updates) :
    ∀ u ∈ updates, u.1 < columns.length := by
  intro u hu
  have hvalid := parseAssignments_valid columns pieces [] updates
    (fun w hw => by simp at hw) h
  obtain ⟨col, hcol, _⟩ := hvalid u hu
  exact (List.getElem?_eq_some_iff.mp hcol).1

theorem applyUpdates_some (updates : List (Nat × Str)) (values : List Str)
    (h : ∀ u ∈ updates, u.1 < values.length) : ∃ values2, applyUpdates updates values = some values2 := by
  induction updates generalizing values with
  | nil => exact ⟨values, rfl⟩
  | cons u us ih =>
    obtain ⟨i, v⟩ := u
    have hi : i < values.length := h (i, v) (List.mem_cons_self _ _)
    simp only [applyUpdates, hi, if_true]
    apply ih
    intro w hw
    simpa using h w (List.mem_cons_of_mem _ hw)

theorem updateRows_defined (columns : List Column) (cond : Str) (updates : List (Nat × Str))
    (done : List Row) (count : Nat) (rows : List Row)
    (hu : ∀ u ∈ updates, u.1 < columns.length)
    (harity : ∀ r ∈ rows, columns.length ≤ r.values.length) :
    (updateRows columns cond updates done count rows).2 ≠ .undefined := by
  induction rows generalizing done count with
  | nil => simp [updateRows]
  | cons x xs ih =>
    have hx := harity x (List.mem_cons_self _ _)
    have hxs : ∀ r ∈ xs, columns.length ≤ r.values.length :=
      fun r hr => harity r (List.mem_cons_of_mem _ hr)
    obtain ⟨values2, hv2⟩ := applyUpdates_some updates x.values
      (fun u hmem => Nat.lt_of_lt_of_le (hu u hmem) hx)
    rw [updateRows]
    split
    · simp only [hv2]
      exact ih _ _ hxs
    · exact ih _ _ hxs
    · simp
    · rename_i hund
      exact absurd hund (evaluateCondition_defined x columns cond hx)

/-- In a store whose rows all have as many values as their table has columns,
no DELETE, UPDATE or SELECT command line reaches an access to `row.values`
that is out of range. -/
theorem arityOk_in_bounds (db : Database) (command : Str) (h : ArityOk db) :
    handleDelete db command ≠ .undefined ∧ handleUpdate db command ≠ .undefined
      ∧ handleSelect db command ≠ .undefined := by
  have hrows : ∀ name table, dbFind db name = some table →
      ∀ r ∈ table.rows, table.columns.length ≤ r.values.length := by
    intro name table hfind r hr
    exact Nat.le_of_eq (h (name, table) (dbFind_mem db name table hfind) r hr).symm
  refine ⟨?_, ?_, ?_⟩
  · rw [handleDelete_eq]
    split
    · simp
    · rename_i table hfind
      split
      · simp
      · have hd := removeIf_defined
          (fun row => evaluateCondition row table.columns (deleteCondition command)) [] table.rows
          (fun r hr => evaluateCondition_defined r table.columns _ (hrows _ table hfind r hr))
        split
        · simp
        · simp
        · rename_i hrun
          rw [hrun] at hd
          exact absurd rfl hd
  · rw [handleUpdate_eq]
    split
    · simp
    · rename_i table hfind
      split
      · simp
      · rename_i updates hparse
        split
        · simp
        · have hd := updateRows_defined table.columns (updateCondition command) updates [] 0
            table.rows (parseAssignments_index table.columns _ updates hparse)
            (hrows _ table hfind)
          split
          · simp
          · simp
          · rename_i hrun
            rw [hrun] at hd
            exact absurd rfl hd
  · rw [handleSelect_eq]
    split
    · simp
    · rename_i table hfind
      split
      · simp
      · have hd := selectRows_defined table.columns (selectCondition command) [] table.rows
          (fun r hr => evaluateCondition_defined r table.columns _ (hrows _ table hfind r hr))
        split
        · simp
        · simp
        · rename_i hrun
          exact absurd hrun hd

/-- C23, at the failing input: the store left by `CREATE TABLE t (a INT)`, the
inserts of 5, 1 and 99999999999 and `DELETE FROM t WHERE a > 3` is reachable
and holds a row without values in a table with one column.  On it the read
`row.values[0]` of `evaluateCondition` for `a = 1` and the write
`row.values[0]` of `UPDATE t SET a=7` are out of range, so DELETE, UPDATE and
SELECT command lines reach the out-of-range access. -/
theorem reachable_out_of_range :
    Reachable afterFailedDelete
    ∧ dbFind afterFailedDelete "t".toList
      = some { tableA with
          rows := [{ values := ["1".toList], id := 2 }, { values := [], id := 2 },
            { values := ["99999999999".toList], id := 3 }],
          next_id := 4 }
    ∧ regexSearch "a = 1".toList = some ("a".toList, "=".toList, "1".toList)
    ∧ findColumn tableA.columns "a".toList = some 0
    ∧ evaluateCondition { values := [], id := 2 } tableA.columns "a = 1".toList = .undefined
    ∧ parseAssignments tableA.columns ["a=7".toList] [] = .ok [(0, "7".toList)]
    ∧ applyUpdates [(0, "7".toList)] [] = none
    ∧ handleDelete afterFailedDelete "DELETE FROM t WHERE a = 1".toList = .undefined
    ∧ handleUpdate afterFailedDelete "UPDATE t SET a=7".toList = .undefined
    ∧ handleSelect afterFailedDelete "SELECT * FROM t WHERE a = 1".toList = .undefined := by
  refine ⟨reachable_afterFailedDelete, rfl, by decide, by decide, by decide, rfl, by decide,
    by decide, by decide, by decide⟩

/-! ## INSERT INTO: a command that succeeds -/

theorem handleInsert_appended (db db2 : Database) (command name : Str) (id : Int)
    (h : handleInsert db command = .ret (db2, .rowInserted name id)) :
    name = insertTableName command
    ∧ ∃ table, dbFind db name = some table ∧ id = table.next_id
      ∧ (insertValues command).length = table.columns.length
      ∧ db2 = dbSet db name { table with
          next_id := table.next_id + 1,
          rows := table.rows ++ [{ values := insertValues command, id := table.next_id }] } := by
  rw [handleInsert_eq] at h
  split at h
  · simp at h
  · rename_i table hfind
    split at h
    · simp at h
    · split at h
      · simp at h
      · split at h
        · simp at h
        · rename_i hlen
          split at h
          · simp at h
          · simp only [Outcome.ret.injEq, Prod.mk.injEq, Msg.rowInserted.injEq] at h
            obtain ⟨hdb, hname, hid⟩ := h
            refine ⟨hname.symm, table, by rw [← hname]; exact hfind, hid.symm, ?_, ?_⟩
            · simpa using hlen
            · rw [← hdb, ← hname]

/-- C17 as stated fails at the last id: in a store where `next_id` of `t` is
`INT_MAX` (2147483647) the increment `next_id++` of a well-formed
`INSERT INTO t VALUES (1)` overflows `int`, so there is no `next_id` that is
that value plus one: the result is not defined (a build that wraps around
reports the id 2147483647 and leaves `next_id` at -2147483648). -/
theorem handleInsert_next_id_overflow :
    dbFind tableAtMax "t".toList = some { tableA with next_id := INT_MAX }
    ∧ handleInsert tableAtMax "INSERT INTO t VALUES (1)".toList = .undefined
    ∧ ¬ fitsInt (INT_MAX + 1) := by
  refine ⟨rfl, by decide, ?_⟩
  simp only [fitsInt, INT_MIN, INT_MAX]
  omega

/-- C17, amended: when `next_id` of the table the command names is below
`INT_MAX` and an INSERT INTO succeeds (it reports the id `id` for the table
`name`): `name` is the table the command names (its third word) and it
existed; `id` is its `next_id` before the command; after the command the
table has the same name and columns, `next_id` is `id + 1` (still an `int`),
and its rows are the old rows followed by one new row with the id `id` and
the values of the command, one per column; every other table is unchanged;
and when the table was just created by CREATE TABLE the id is 1. -/
theorem handleInsert_success (db db2 : Database) (command name : Str) (id : Int)
    (hmax : ∀ table, dbFind db (insertTableName command) = some table → table.next_id < INT_MAX)
    (h : handleInsert db command = .ret (db2, .rowInserted name id)) :
    name = insertTableName command
    ∧ ∃ table, dbFind db name = some table ∧ id = table.next_id ∧ id + 1 ≤ INT_MAX
      ∧ (insertValues command).length = table.columns.length
      ∧ dbFind db2 name = some { table with rows := table.rows ++ [{ values := insertValues command, id := id }], next_id := id + 1 }
      ∧ (∀ key, key ≠ name → dbFind db2 key = dbFind db key)
      ∧ (∀ db0 command0, handleCreate db0 command0 = (db, .tableCreated name) → id = 1) := by
  obtain ⟨hname, table, hfind, hid, hlen, hdb⟩ := handleInsert_appended db db2 command name id h
  have hlt : table.next_id < INT_MAX := hmax table (by rw [← hname]; exact hfind)
  refine ⟨hname, table, hfind, hid, ?_, hlen, ?_, ?_, ?_⟩
  · rw [hid]
    exact hlt
  · rw [hdb, hid]
    exact dbFind_dbSet_self db name _
  · intro key hkey
    rw [hdb]
    exact dbFind_dbSet_ne db name key _ hkey
  · intro db0 command0 hcreate
    obtain ⟨columns, _, _, _, hdb0⟩ := handleCreate_created db0 db command0 name hcreate
    rw [hdb0, dbFind_dbSet_self] at hfind
    simp only [Option.some.injEq] at hfind
    rw [hid, ← hfind]

theorem handleInsert_success_witness :
    (∀ table, dbFind usersAndT (insertTableName "INSERT INTO users VALUES (3, \"Dave\")".toList)
        = some table → table.next_id < INT_MAX)
    ∧ handleInsert usersAndT "INSERT INTO users VALUES (3, \"Dave\")".toList
        = .ret (usersAndTDave, .rowInserted "users".toList 3)
    ∧ "users".toList = insertTableName "INSERT INTO users VALUES (3, \"Dave\")".toList
    ∧ ∃ table, dbFind usersAndT "users".toList = some table ∧ (3 : Int) = table.next_id
      ∧ (3 : Int) + 1 ≤ INT_MAX
      ∧ (insertValues "INSERT INTO users VALUES (3, \"Dave\")".toList).length = table.columns.length
      ∧ dbFind usersAndTDave "users".toList
          = some { table with rows := table.rows ++ [{ values := insertValues "INSERT INTO users VALUES (3, \"Dave\")".toList, id := 3 }], next_id := 3 + 1 }
      ∧ (∀ key, key ≠ "users".toList → dbFind usersAndTDave key = dbFind usersAndT key)
      ∧ (∀ db0 command0,
          handleCreate db0 command0 = (usersAndT, .tableCreated "users".toList) → (3 : Int) = 1) := by
  have hmax : ∀ table,
      dbFind usersAndT (insertTableName "INSERT INTO users VALUES (3, \"Dave\")".toList)
        = some table → table.next_id < INT_MAX := by
    intro table ht
    have e : dbFind usersAndT (insertTableName "INSERT INTO users VALUES (3, \"Dave\")".toList)
        = some { name := "users".toList, columns := usersColumns, rows := [{ values := ["1".toList, "Alice".toList], id := 1 }, { values := ["2".toList, "Carol".toList], id := 2 }], next_id := 3 } := by
      decide
    rw [e] at ht
    simp only [Option.some.injEq] at ht
    rw [← ht]
    decide
  have hrun : handleInsert usersAndT "INSERT INTO users VALUES (3, \"Dave\")".toList
      = .ret (usersAndTDave, .rowInserted "users".toList 3) := by decide
  exact ⟨hmax, hrun, handleInsert_success usersAndT usersAndTDave
    "INSERT INTO users VALUES (3, \"Dave\")".toList "users".toList 3 hmax hrun⟩

/-! ## `std::string::find` and the first ` WHERE ` -/

theorem isInfix_append_right (a b c : Str) (h : a <:+: b) : a <:+: b ++ c := by
  obtain ⟨s, t, rfl⟩ := h
  exact ⟨s, t ++ c, by simp⟩

theorem findSubstr_none (pat s : Str) (h : ¬ pat <:+: s) : findSubstr pat s = none := by
  induction s with
  | nil =>
    have hne : pat ≠ [] := fun e => h (e ▸ List.infix_refl _)
    simp [findSubstr, hne]
  | cons c cs ih =>
    have hpre : ¬ pat.isPrefixOf (c :: cs) = true := by
      intro hp
      exact h (List.isPrefixOf_iff_prefix.mp hp).isInfix
    have hcs : ¬ pat <:+: cs := fun hi => h (List.infix_cons hi)
    rw [findSubstr]
    simp [hpre, ih hcs]

theorem where_not_at_head (X rest : Str) (hX : X ≠ [])
    (h : ¬ [' ', 'W', 'H', 'E', 'R', 'E', ' '] <:+: X ++ [' ']) :
    ¬ List.isPrefixOf [' ', 'W', 'H', 'E', 'R', 'E', ' ']
        (X ++ ([' ', 'W', 'H', 'E', 'R', 'E', ' '] ++ rest)) = true := by
  intro hp
  have hpre := List.isPrefixOf_iff_prefix.mp hp
  by_cases hlen : 7 ≤ X.length
  · have hx : [' ', 'W', 'H', 'E', 'R', 'E', ' '] <+: X :=
      List.prefix_of_prefix_length_le hpre (List.prefix_append _ _) (by simpa using hlen)
    exact h (isInfix_append_right _ _ _ hx.isInfix)
  · rcases X with _ | ⟨x1, _ | ⟨x2, _ | ⟨x3, _ | ⟨x4, _ | ⟨x5, _ | ⟨x6, _ | ⟨x7, X2⟩⟩⟩⟩⟩⟩⟩
    · exact hX rfl
    · simp [List.isPrefixOf] at hp
    · simp [List.isPrefixOf] at hp
    · simp [List.isPrefixOf] at hp
    · simp [List.isPrefixOf] at hp
    · simp [List.isPrefixOf] at hp
    · simp only [List.isPrefixOf, List.cons_append, List.nil_append, Bool.and_eq_true,
        beq_iff_eq] at hp
      obtain ⟨h1, h2, h3, h4, h5, h6, _⟩ := hp
      subst h1 h2 h3 h4 h5 h6
      exact h (List.infix_refl _)
    · exact hlen (by simp)

theorem findSubstr_where (X rest : Str)
    (h : ¬ [' ', 'W', 'H', 'E', 'R', 'E', ' '] <:+: X ++ [' ']) :
    findSubstr [' ', 'W', 'H', 'E', 'R', 'E', ' ']
        (X ++ ([' ', 'W', 'H', 'E', 'R', 'E', ' '] ++ rest)) = some X.length := by
  induction X with
  | nil => simp [findSubstr, List.isPrefixOf]
  | cons x X2 ih =>
    have hp := where_not_at_head (x :: X2) rest (by simp) h
    have h2 : ¬ [' ', 'W', 'H', 'E', 'R', 'E', ' '] <:+: X2 ++ [' '] :=
      fun hi => h (by rw [List.cons_append]; exact List.infix_cons hi)
    rw [List.cons_append] at hp ⊢
    rw [findSubstr, if_neg hp, ih h2]
    rfl

/-! ## `trim` on the ends of a text -/

theorem dropWhile_append_cons_neg (p : Char → Bool) (l r : Str) (x : Char) (hx : p x = false) :
    (l ++ x :: r).dropWhile p = l.dropWhile p ++ x :: r := by
  induction l with
  | nil =>
    have : ¬ p x = true := by simp [hx]
    simp [List.dropWhile_cons_of_neg this]
  | cons a t ih =>
    by_cases ha : p a = true
    · simp only [List.cons_append, List.dropWhile_cons_of_pos ha, ih]
    · simp only [List.cons_append, List.dropWhile_cons_of_neg ha]

theorem rdropWhile_append_cons_neg (p : Char → Bool) (l r : Str) (x : Char) (hx : p x = false) :
    (l ++ x :: r).rdropWhile p = l ++ x :: r.rdropWhile p := by
  unfold List.rdropWhile
  have h := dropWhile_append_cons_neg p r.reverse l.reverse x hx
  have e : (l ++ x :: r).reverse = r.reverse ++ x :: l.reverse := by simp
  rw [e, h]
  simp

theorem rdropWhile_cons (p : Char → Bool) (a : Char) (t : Str) :
    (a :: t).rdropWhile p
      = if t.rdropWhile p = [] then (if p a = true then [] else [a]) else a :: t.rdropWhile p := by
  by_cases ht : t.rdropWhile p = []
  · have hall := List.rdropWhile_eq_nil_iff.mp ht
    simp only [ht, if_true]
    by_cases ha : p a = true
    · simp only [ha, if_true]
      apply List.rdropWhile_eq_nil_iff.mpr
      intro x hx
      rcases List.mem_cons.mp hx with rfl | hx
      · exact ha
      · exact hall x hx
    · simp only [ha, if_false]
      have hfalse : p a = false := by simpa using ha
      have := rdropWhile_append_cons_neg p [] t a hfalse
      simp only [List.nil_append] at this
      rw [this, ht]
      simp
  · simp only [ht, if_false]
    obtain ⟨x, hx, hpx⟩ : ∃ x ∈ t, ¬ p x = true := by
      by_contra hcon
      push_neg at hcon
      exact ht (List.rdropWhile_eq_nil_iff.mpr hcon)
    obtain ⟨s1, s2, rfl⟩ := List.append_of_mem hx
    have hfalse : p x = false := by simpa using hpx
    have h1 := rdropWhile_append_cons_neg p (a :: s1) s2 x hfalse
    have h2 := rdropWhile_append_cons_neg p s1 s2 x hfalse
    rw [List.cons_append] at h1
    rw [h1, h2]
    rfl

theorem dropWhile_rdropWhile_comm (p : Char → Bool) (l : Str) :
    (l.rdropWhile p).dropWhile p = (l.dropWhile p).rdropWhile p := by
  induction l with
  | nil => simp [List.rdropWhile]
  | cons a t ih =>
    rw [rdropWhile_cons]
    by_cases ha : p a = true
    · rw [List.dropWhile_cons_of_pos ha, ← ih]
      by_cases ht : t.rdropWhile p = []
      · simp [ht, ha]
      · simp only [ht, if_false, List.dropWhile_cons_of_pos ha]
    · rw [List.dropWhile_cons_of_neg ha, rdropWhile_cons]
      by_cases ht : t.rdropWhile p = []
      · simp [ht, ha]
      · simp only [ht, if_false, List.dropWhile_cons_of_neg ha]

theorem trim_dropWhile (s : Str) : trim (s.dropWhile isspace) = trim s := by
  unfold trim
  rw [List.dropWhile_idempotent]

theorem trim_rdropWhile (s : Str) : trim (s.rdropWhile isspace) = trim s := by
  unfold trim
  rw [dropWhile_rdropWhile_comm, List.rdropWhile_idempotent]

theorem trim_trim (s : Str) : trim (trim s) = trim s := by
  have h := trim_rdropWhile (s.dropWhile isspace)
  rw [trim_dropWhile] at h
  exact h

theorem trim_space_cons (sp : Char) (s : Str) (hsp : isspace sp = true) :
    trim (sp :: s) = trim s := by
  unfold trim
  rw [List.dropWhile_cons_of_pos hsp]

/-! ## The SET list cut at its commas -/

theorem assignmentsText_concat (init : List Str) (z : Str) (h : init ≠ []) :
    assignmentsText (init ++ [z]) = assignmentsText init ++ ',' :: z := by
  induction init with
  | nil => exact absurd rfl h
  | cons a t ih =>
    cases t with
    | nil => rfl
    | cons b r =>
      have := ih (by simp)
      simp only [List.cons_append] at this ⊢
      simp only [assignmentsText, this, List.append_assoc, List.cons_append]

theorem getlines_assignmentsText (assignments : List Str) (hne : assignments ≠ [])
    (hcomma : ∀ a ∈ assignments, ∀ ch ∈ a, ch ≠ ',')
    (hlast : ∀ z, assignments.getLast? = some z → z ≠ []) :
    getlines ',' (assignmentsText assignments) = assignments := by
  induction assignments with
  | nil => exact absurd rfl hne
  | cons a t ih =>
    have ha := hcomma a (List.mem_cons_self _ _)
    cases t with
    | nil =>
      simp only [assignmentsText]
      exact getlines_no_delim ',' a (hlast a rfl) ha
    | cons b r =>
      have ih2 := ih (by simp) (fun x hx => hcomma x (List.mem_cons_of_mem _ hx))
        (fun z hz => hlast z (by rw [List.getLast?_cons_cons]; exact hz))
      simp only [assignmentsText] at ih2 ⊢
      rw [getlines_piece ',' a _ ha]
      rw [show assignmentsText (b :: r) = assignmentsText (b :: r) from rfl] at ih2
      exact congrArg (List.cons a) ih2

theorem related_concat_same (R : Str → Str → Prop) (mid : List Str) (x y : Str)
    (hrefl : ∀ a, R a a) (hxy : R x y) : List.Forall₂ R (mid ++ [x]) (mid ++ [y]) := by
  induction mid with
  | nil => exact List.Forall₂.cons hxy List.Forall₂.nil
  | cons a t ih => exact List.Forall₂.cons (hrefl a) ih

theorem mem_dropWhile_of (p : Char → Bool) (s : Str) (ch : Char) (h : ch ∈ s.dropWhile p) :
    ch ∈ s :=
  (List.dropWhile_suffix p).subset h

theorem mem_rdropWhile_of (p : Char → Bool) (s : Str) (ch : Char) (h : ch ∈ s.rdropWhile p) :
    ch ∈ s :=
  (List.rdropWhile_prefix p s).subset h

theorem rdropWhile_written (z : Str) (h : ∃ ch ∈ z, isspace ch = false) :
    z.rdropWhile isspace ≠ [] := by
  intro hnil
  obtain ⟨ch, hch, hsp⟩ := h
  have := List.rdropWhile_eq_nil_iff.mp hnil ch hch
  rw [hsp] at this
  exact absurd this (by simp)

theorem trim_written (z : Str) (h : ∃ ch ∈ z, isspace ch = false) : trim z ≠ [] := by
  unfold trim
  obtain ⟨ch, hch, hsp⟩ := h
  have hd : z.dropWhile isspace ≠ [] := by
    intro hnil
    have := List.dropWhile_eq_nil_iff.mp hnil ch hch
    rw [hsp] at this
    exact absurd this (by simp)
  cases hz : z.dropWhile isspace with
  | nil => exact absurd hz hd
  | cons a t =>
    have ha : isspace a = false := by
      have := List.head?_dropWhile_not isspace z
      rw [hz] at this
      simpa using this
    exact rdropWhile_written (a :: t) ⟨a, List.mem_cons_self _ _, ha⟩

/-- The pieces the handler cuts the SET list into are the assignments as
written, up to the whitespace around them. -/
theorem getlines_trim_assignmentsText (assignments : List Str)
    (hcomma : ∀ a ∈ assignments, ∀ ch ∈ a, ch ≠ ',')
    (hlast : ∀ z, assignments.getLast? = some z → ∃ ch ∈ z, isspace ch = false) :
    List.Forall₂ (fun piece a => trim piece = trim a)
      (getlines ',' (trim (assignmentsText assignments))) assignments := by
  have hcs : isspace ',' = false := by decide
  cases assignments with
  | nil => exact List.Forall₂.nil
  | cons a t =>
    cases t with
    | nil =>
      have hne : trim a ≠ [] := trim_written a (hlast a rfl)
      have hc : ∀ ch ∈ trim a, ch ≠ ',' := fun ch hch =>
        hcomma a (List.mem_cons_self _ _) ch
          (mem_dropWhile_of isspace a ch (mem_rdropWhile_of isspace _ ch hch))
      simp only [assignmentsText]
      rw [getlines_no_delim ',' (trim a) hne hc]
      exact List.Forall₂.cons (trim_trim a) List.Forall₂.nil
    | cons b r =>
      obtain ⟨mid, z, hmz⟩ : ∃ mid z, b :: r = mid ++ [z] := by
        rcases List.eq_nil_or_concat (b :: r) with h | ⟨L, x, h⟩
        · simp at h
        · exact ⟨L, x, by rw [h, List.concat_eq_append]⟩
      have hz : ∃ ch ∈ z, isspace ch = false := by
        apply hlast
        rw [List.getLast?_cons_cons, hmz]
        simp
      have hzmem : z ∈ a :: b :: r := by
        rw [hmz]
        simp
      have hmid : ∀ x ∈ mid, x ∈ a :: b :: r := by
        intro x hx
        rw [hmz]
        simp [hx]
      have hrd : (assignmentsText (mid ++ [z])).rdropWhile isspace
          = assignmentsText (mid ++ [z.rdropWhile isspace]) := by
        by_cases hm : mid = []
        · subst hm
          rfl
        · rw [assignmentsText_concat mid z hm, assignmentsText_concat mid _ hm,
            rdropWhile_append_cons_neg isspace _ z ',' hcs]
      have htrim : trim (assignmentsText (a :: b :: r))
          = a.dropWhile isspace ++ ',' :: assignmentsText (mid ++ [z.rdropWhile isspace]) := by
        show trim (a ++ ',' :: assignmentsText (b :: r)) = _
        unfold trim
        rw [hmz, dropWhile_append_cons_neg isspace a _ ',' hcs,
          rdropWhile_append_cons_neg isspace _ _ ',' hcs, hrd]
      have hca : ∀ ch ∈ a.dropWhile isspace, ch ≠ ',' := fun ch hch =>
        hcomma a (List.mem_cons_self _ _) ch (mem_dropWhile_of isspace a ch hch)
      have hpieces : getlines ',' (assignmentsText (mid ++ [z.rdropWhile isspace]))
          = mid ++ [z.rdropWhile isspace] := by
        apply getlines_assignmentsText _ (by simp)
        · intro x hx ch hch
          rcases List.mem_append.mp hx with hx | hx
          · exact hcomma x (hmid x hx) ch hch
          · simp only [List.mem_singleton] at hx
            subst hx
            exact hcomma z hzmem ch (mem_rdropWhile_of isspace z ch hch)
        · intro y hy
          simp only [List.getLast?_append, List.getLast?_singleton, Option.or_some,
            Option.some.injEq] at hy
          rw [← hy]
          exact rdropWhile_written z hz
      rw [htrim, getlines_piece ',' _ _ hca, hpieces, hmz]
      exact List.Forall₂.cons (trim_dropWhile a)
        (related_concat_same _ mid _ z (fun _ => rfl) (trim_rdropWhile z))

/-! ## The parts of a written UPDATE command line -/

theorem space_run_head (ws rest : Str) (hne : ws ≠ []) (hws : ∀ c ∈ ws, isspace c = true) :
    (ws ++ rest).takeWhile isNonSpace = [] ∧ (ws ++ rest).isEmpty = false := by
  constructor
  · exact takeWhile_append_nil _ _ _ (fun c hc => by simp [isNonSpace, hws c hc])
      (fun e => absurd e hne)
  · cases ws with
    | nil => exact absurd rfl hne
    | cons a l => rfl

/-- The three words of an UPDATE command line and what is left of the stream
after them. -/
theorem writtenUpdate_words (kw1 ws1 t ws2 kw3 X : Str) (sp : Char)
    (hkw1 : kw1 ≠ []) (hkw1s : ∀ c ∈ kw1, isspace c = false)
    (hws1 : ws1 ≠ []) (hws1s : ∀ c ∈ ws1, isspace c = true)
    (ht : t ≠ []) (hts : ∀ c ∈ t, isspace c = false)
    (hws2 : ws2 ≠ []) (hws2s : ∀ c ∈ ws2, isspace c = true)
    (hkw3 : kw3 ≠ []) (hkw3s : ∀ c ∈ kw3, isspace c = false)
    (hsp : isspace sp = true) :
    let ss : IStream := { buf := kw1 ++ (ws1 ++ (t ++ (ws2 ++ (kw3 ++ (sp :: X))))) }
    let r1 := ss.extract []
    let r2 := r1.1.extract []
    let r3 := r2.1.extract r1.2
    r2.2 = t ∧ r3.1 = { buf := sp :: X } := by
  intro ss r1 r2 r3
  obtain ⟨hp1, he1⟩ := space_run_head ws1 (t ++ (ws2 ++ (kw3 ++ (sp :: X)))) hws1 hws1s
  obtain ⟨hp2, he2⟩ := space_run_head ws2 (kw3 ++ (sp :: X)) hws2 hws2s
  have hp3 : (sp :: X).takeWhile isNonSpace = [] := by
    have : ¬ isNonSpace sp = true := by simp [isNonSpace, hsp]
    exact List.takeWhile_cons_of_neg this
  have e1 : r1 = ({ buf := ws1 ++ (t ++ (ws2 ++ (kw3 ++ (sp :: X)))) }, kw1) := by
    show IStream.extract { buf := kw1 ++ _ } [] = _
    have := extract_token [] kw1 (ws1 ++ (t ++ (ws2 ++ (kw3 ++ (sp :: X))))) [] (by simp)
      hkw1 hkw1s hp1
    rw [List.nil_append] at this
    rw [this, he1]
  have e2 : r2 = ({ buf := ws2 ++ (kw3 ++ (sp :: X)) }, t) := by
    show IStream.extract r1.1 [] = _
    rw [e1]
    rw [extract_token ws1 t (ws2 ++ (kw3 ++ (sp :: X))) [] hws1s ht hts hp2, he2]
  have e3 : r3 = ({ buf := sp :: X }, kw3) := by
    show IStream.extract r2.1 r1.2 = _
    rw [e2, e1]
    rw [extract_token ws2 kw3 (sp :: X) kw1 hws2s hkw3 hkw3s hp3]
    rfl
  exact ⟨by rw [e2], by rw [e3]⟩

theorem mem_assignmentsText (P : Char → Prop) (assignments : List Str)
    (h : ∀ a ∈ assignments, ∀ ch ∈ a, P ch) (hc : P ',') : ∀ ch ∈ assignmentsText assignments, P ch := by
  induction assignments with
  | nil => simp [assignmentsText]
  | cons a t ih =>
    cases t with
    | nil => simpa [assignmentsText] using h a (List.mem_cons_self _ _)
    | cons b r =>
      have ih2 := ih (fun x hx => h x (List.mem_cons_of_mem _ hx))
      intro ch hch
      simp only [assignmentsText, List.mem_append, List.mem_cons] at hch
      rcases hch with hch | rfl | hch
      · exact h a (List.mem_cons_self _ _) ch hch
      · exact hc
      · exact ih2 ch hch

theorem updateTableName_written (command t : Str) (assignments : List Str) (pred : Option Str)
    (h : WrittenUpdate command t assignments pred) : updateTableName command = t := by
  obtain ⟨hform, kw1, ws1, ws2, kw3, sp, rfl, hkw1, hkw1s, hws1, hws1s, hws2, hws2s, hkw3, hkw3s,
    hsp, _, _⟩ := h
  exact (writtenUpdate_words kw1 ws1 t ws2 kw3 _ sp hkw1 hkw1s hws1 hws1s hform.table_ne
    hform.table_word hws2 hws2s hkw3 hkw3s hsp).1

theorem updateParts_written (command t : Str) (assignments : List Str) (pred : Option Str)
    (h : WrittenUpdate command t assignments pred) :
    updateSetClause command = trim (assignmentsText assignments)
    ∧ updateCondition command = predicateOf pred := by
  obtain ⟨hform, kw1, ws1, ws2, kw3, sp, rfl, hkw1, hkw1s, hws1, hws1s, hws2, hws2s, hkw3, hkw3s,
    hsp, hnl, hwhere⟩ := h
  have hrem : updateRemaining (kw1 ++ (ws1 ++ (t ++ (ws2 ++ (kw3
      ++ (sp :: (assignmentsText assignments ++ whereText pred)))))))
      = sp :: (assignmentsText assignments ++ whereText pred) := by
    have h3 := (writtenUpdate_words kw1 ws1 t ws2 kw3 (assignmentsText assignments ++ whereText pred)
      sp hkw1 hkw1s hws1 hws1s hform.table_ne hform.table_word hws2 hws2s hkw3 hkw3s hsp).2
    simp only at h3
    show (IStream.getline _ [] '\n').2 = _
    rw [h3]
    apply getline_line
    intro c hc
    have htext : ∀ ch ∈ assignmentsText assignments, ch ≠ '\n' :=
      mem_assignmentsText (fun ch => ch ≠ '\n') assignments hform.no_newline (by decide)
    simp only [List.mem_cons, List.mem_append] at hc
    rcases hc with rfl | hc | hc
    · exact hnl
    · exact htext c hc
    · cases hp : pred with
      | none =>
        rw [hp] at hc
        simp [whereText] at hc
      | some p =>
        rw [hp] at hc
        simp only [whereText, List.mem_append] at hc
        rcases hc with hc | hc
        · revert hc
          revert c
          decide
        · exact hform.pred_line p hp c hc
  unfold updateSetClause updateCondition
  rw [hrem]
  cases pred with
  | none =>
    have hno : ¬ [' ', 'W', 'H', 'E', 'R', 'E', ' '] <:+: sp :: (assignmentsText assignments ++ []) := by
      intro hi
      apply hwhere
      have := isInfix_append_right _ _ [' '] hi
      simpa using this
    simp only [whereText, findSubstr_none _ _ hno, predicateOf]
    rw [List.append_nil, trim_space_cons sp _ hsp]
    exact ⟨rfl, trivial⟩
  | some p =>
    have hw := findSubstr_where (sp :: assignmentsText assignments) p
      (by simpa using hwhere)
    have hshape : sp :: (assignmentsText assignments ++ whereText (some p))
        = (sp :: assignmentsText assignments) ++ ([' ', 'W', 'H', 'E', 'R', 'E', ' '] ++ p) := by
      simp [whereText]
    rw [hshape, hw]
    simp only [predicateOf]
    refine ⟨?_, ?_⟩
    · rw [List.take_left', trim_space_cons sp _ hsp]
      rfl
    · have : ((sp :: assignmentsText assignments) ++ ([' ', 'W', 'H', 'E', 'R', 'E', ' '] ++ p)).drop
          ((sp :: assignmentsText assignments).length + 7) = p := by
        rw [← List.append_assoc, List.drop_left']
        simp
      rw [this]

theorem updateAssignments_written (command t : Str) (assignments : List Str) (pred : Option Str)
    (h : WrittenUpdate command t assignments pred) :
    List.Forall₂ (fun piece a => trim piece = trim a) (updateAssignments command) assignments := by
  unfold updateAssignments
  rw [(updateParts_written command t assignments pred h).1]
  exact getlines_trim_assignmentsText assignments h.1.no_comma h.1.last_written

/-- The command line built with the words `UPDATE` and `SET` and single
blanks is written as `WrittenUpdate` asks. -/
theorem writtenUpdate_updateCommand (t : Str) (assignments : List Str) (pred : Option Str)
    (hform : UpdateForm t assignments pred)
    (hwhere : ¬ ([' ', 'W', 'H', 'E', 'R', 'E', ' '] <:+: ' ' :: (assignmentsText assignments ++ [' ']))) :
    WrittenUpdate (updateCommand t assignments pred) t assignments pred :=
  ⟨hform, "UPDATE".toList, " ".toList, " ".toList, "SET".toList, ' ', by simp [updateCommand],
    by decide, by decide, by decide, by decide, by decide, by decide, by decide, by decide,
    by decide, by decide, hwhere⟩

/-! ## UPDATE: a rejected assignment in the command as written -/

theorem assignmentRejected_congr (columns : List Column) (a b : Str) (h : trim a = trim b)
    (hr : AssignmentRejected columns a) : AssignmentRejected columns b := by
  have hc : assignmentColumn a = assignmentColumn b := by
    unfold assignmentColumn
    rw [h]
  have hv : assignmentValue a = assignmentValue b := by
    unfold assignmentValue
    rw [h]
  unfold AssignmentRejected at hr ⊢
  rw [← h, ← hc, ← hv]
  exact hr

theorem related_mem_right (R : Str → Str → Prop) (l1 l2 : List Str) (h : List.Forall₂ R l1 l2)
    (b : Str) (hb : b ∈ l2) : ∃ a ∈ l1, R a b := by
  induction h with
  | nil => simp at hb
  | cons hab _ ih =>
    rcases List.mem_cons.mp hb with rfl | hb
    · exact ⟨_, List.mem_cons_self _ _, hab⟩
    · obtain ⟨a, ha, hr⟩ := ih hb
      exact ⟨a, List.mem_cons_of_mem _ ha, hr⟩

/-- C12 as stated fails where the handler cuts the command differently from
the way it is written.  In `UPDATE users SET name="a WHERE id != 9", id=x`
the second assignment gives the value `x` to the INT column `id`, yet the
handler takes the ` WHERE ` inside the quoted value for the WHERE clause: the
SET list it sees is `name="a`, the command is accepted and both rows get the
name `"a`.  In `UPDATE users SET name="Bob",` the text after the last comma
has no `=`, yet it is never looked at and both rows are updated. -/
theorem handleUpdate_invalid_assignment_accepted :
    "UPDATE users SET name=\"a WHERE id != 9\", id=x".toList
      = updateCommand "users".toList ["name=\"a WHERE id != 9\"".toList, " id=x".toList] none
    ∧ AssignmentRejected usersColumns " id=x".toList
    ∧ handleUpdate twoUsers "UPDATE users SET name=\"a WHERE id != 9\", id=x".toList
      = .ret (twoUsersQuoteA, .rowsUpdated 2 "users".toList)
    ∧ "UPDATE users SET name=\"Bob\",".toList
      = updateCommand "users".toList ["name=\"Bob\"".toList, "".toList] none
    ∧ AssignmentRejected usersColumns "".toList
    ∧ handleUpdate twoUsers "UPDATE users SET name=\"Bob\",".toList
      = .ret (twoUsersBothBob, .rowsUpdated 2 "users".toList) := by
  refine ⟨by decide, ?_, by decide, by decide, Or.inl (by decide), by decide⟩
  exact Or.inr (Or.inr ⟨0, { name := "id".toList, type := "INT".toList }, by decide, by decide,
    by intro j cj hj; omega, by decide⟩)

/-- C12, amended: for every store and every command line written
`UPDATE t SET a1,...,ak [WHERE pred]` on an existing table `t` (any
whitespace between the words and around the assignments), where no
assignment holds a comma, the list does not end in a blank assignment and
the word `WHERE` set off by blanks does not occur in the SET list: when at
least one assignment, at any position, lacks `=`, names a column the table
does not have, or gives a value that fails type validation for its column,
the command is rejected with the matching error message and the store is
unchanged, so no row receives any assignment. -/
theorem handleUpdate_rejected (db : Database) (command t : Str) (assignments : List Str)
    (pred : Option Str) (table : Table) (hcmd : WrittenUpdate command t assignments pred)
    (hfind : dbFind db t = some table)
    (hbad : ∃ a ∈ assignments, AssignmentRejected table.columns a) :
    ∃ msg, handleUpdate db command = .ret (db, msg)
      ∧ (msg = .invalidSetClause ∨ (∃ c, msg = .columnNotFound c)
          ∨ ∃ v c ty, msg = .valueNotValid v c ty) := by
  obtain ⟨a, ha, hrej⟩ := hbad
  obtain ⟨piece, hpiece, htrim⟩ := related_mem_right _ _ _
    (updateAssignments_written command t assignments pred hcmd) a ha
  apply handleUpdate_rejected_pieces db command table
  · rw [updateTableName_written command t assignments pred hcmd]
    exact hfind
  · exact ⟨piece, hpiece, assignmentRejected_congr table.columns a piece htrim.symm hrej⟩

theorem writtenUpdate_example_rejected :
    WrittenUpdate "update  users set name = \"Bob\" , id=x WHERE id = 1".toList "users".toList
      ["name = \"Bob\" ".toList, " id=x".toList] (some "id = 1".toList) :=
  ⟨⟨by decide, by decide, by decide, by decide, by decide, by decide⟩,
    "update".toList, "  ".toList, " ".toList, "set".toList, ' ', by decide, by decide, by decide,
    by decide, by decide, by decide, by decide, by decide, by decide, by decide, by decide,
    by decide⟩

theorem handleUpdate_rejected_witness :
    WrittenUpdate "update  users set name = \"Bob\" , id=x WHERE id = 1".toList "users".toList
      ["name = \"Bob\" ".toList, " id=x".toList] (some "id = 1".toList)
    ∧ AssignmentRejected usersColumns " id=x".toList
    ∧ ∃ msg, handleUpdate twoUsers "update  users set name = \"Bob\" , id=x WHERE id = 1".toList
          = .ret (twoUsers, msg)
      ∧ (msg = .invalidSetClause ∨ (∃ c, msg = .columnNotFound c)
          ∨ ∃ v c ty, msg = .valueNotValid v c ty) :=
  have hrej : AssignmentRejected usersColumns " id=x".toList :=
    Or.inr (Or.inr ⟨0, { name := "id".toList, type := "INT".toList },
      by decide, by decide, by intro j cj hj; omega, by decide⟩)
  ⟨writtenUpdate_example_rejected, hrej,
    handleUpdate_rejected twoUsers "update  users set name = \"Bob\" , id=x WHERE id = 1".toList
      "users".toList ["name = \"Bob\" ".toList, " id=x".toList] (some "id = 1".toList)
      { name := "users".toList, columns := usersColumns, rows := [{ values := ["1".toList, "Alice".toList], id := 1 }, { values := ["2".toList, "Carol".toList], id := 2 }], next_id := 3 }
      writtenUpdate_example_rejected (by decide) ⟨" id=x".toList, by decide, hrej⟩⟩

/-! ## UPDATE: the command as written, when it succeeds -/

end MiniDB
